import Mathlib

/-!
# go-test-backend: the to-do service of `main.go`

A shallow embedding of the eleven HTTP handlers of `main.go` over an explicit
model of the relational store they talk to, followed by theorems about
completion propagation, cascade delete, failure behaviour and interleaved
completion.

## How the store is modelled

The handlers contain no logic of their own beyond the `flaggingCompleted`
loop; everything else is a sequence of gorm calls.  The store model follows the
schema that the struct tags and `AutoMigrate` declare:

* two tables, `tasks` and `subtasks`, kept as lists of rows in table order;
* `id` is a primary key fed by a sequence (`taskSeq`, `subtaskSeq` hold the
  last value handed out; a value taken and then not used is not given back);
* `status` carries `CHECK status IN ('ongoing','completed')`, `title` is
  `VARCHAR(255)`;
* the has-many relation `Task.Subtasks` gives `subtasks.task_id` a foreign key
  to `tasks.id`.

and the documented behaviour of the gorm calls used:

* `Create` fills a zero `ID` from the sequence, a zero `Status` from the
  column default, a zero `CreatedAt` from the clock, and inserts the
  `Subtasks` of the struct with their `TaskID` set to the parent, resolving a
  primary-key conflict by updating `task_id` only; the whole call is one
  transaction;
* `Save` with a non-zero key updates every column of the row with that key
  (inserting when there is none), and treats `Subtasks` like `Create` does;
  with a zero key it is `Create`;
* `First` fails when no row matches; `Delete` and `Find` succeed on zero rows;
* no handler opens a transaction, so every gorm call commits on its own.

Timestamps are natural numbers, a nullable column is an `Option`.  Every store
call takes a flag `fail` that makes the call fail without touching the store; a
handler receives `f : Nat → Bool`, and its `k`-th store call fails when `f k`
is true.  A handler also receives `clock : Nat → Nat`, the successive readings
of the wall clock, and the date parser.

## Route parameters

A route parameter is the string `c.Params("id")`, and the handlers pass it to
gorm as it is.  What gorm makes of it depends on the call:

* as the condition of `First` or `Delete` (`Statement.BuildCondition`): a string
  that `strconv.Atoi` reads is compared with the primary key; the empty string
  is no condition at all (`First` then takes the first row, `Delete` refuses
  with `ErrMissingWhereClause`); any other string becomes the text of the WHERE
  clause, so that `DELETE subtasks/1=1` deletes every subtask;
* as the argument of `Where("task_id = ?", ...)` it is a bound value, which
  Postgres reads as a `bigint` or rejects.

What Postgres makes of a condition text is not part of this repository: the
environment supplies it (`Env.sqlTask`, `Env.sqlSubtask`: the rows the
condition selects in a given store, or a rejection), and likewise what
Postgres reads in a bound string that `strconv.Atoi` rejects (`Env.pgInt`; a
string that `strconv.Atoi` reads, Postgres reads as the same number).  A
condition text only selects rows: it is taken to have no effect of its own on
the store.  `First` orders by primary key, so it returns the selected row with
the least key.

## Layout

Definitions come first: the data model, the environment of a request and the
reading of route parameters, the store calls, the handlers, the handler
`completingSubtask` cut into its store statements (`Proc.step`) for the
interleaving of two requests, what the order of the steps of two such requests
decides on its own (`tally`), and the predicates the theorems are stated with.  The theorems follow: lemmas on the store calls, the closed forms of the
handlers on a store that meets the schema constraints (`DB.WF`, kept by every
request: `handle_WF`), and the claims C1 to C10.
-/

namespace TodoApp

/-! ## Data model -/

/-- The Go struct `Subtask`; every field is a column of table `subtasks`. -/
structure Subtask where
  ID : Nat
  TaskID : Nat
  Title : String
  Status : String
  CompletedAt : Option Nat
deriving DecidableEq, Repr

/-- The Go struct `Task`.  `CreatedAt = none` stands for the zero time.
`Subtasks` is not a column: it is filled by `Preload` and read by
`Create` and `Save`. -/
structure Task where
  ID : Nat
  Title : String
  Status : String
  Deadline : Option Nat
  CreatedAt : Option Nat
  CompletedAt : Option Nat
  Subtasks : List Subtask
deriving DecidableEq, Repr

/-- A row of table `tasks`: the columns of `Task`. -/
structure TaskRow where
  ID : Nat
  Title : String
  Status : String
  Deadline : Option Nat
  CreatedAt : Option Nat
  CompletedAt : Option Nat
deriving DecidableEq, Repr

/-- The columns of a `Task` struct. -/
def Task.row (t : Task) : TaskRow :=
  { ID := t.ID, Title := t.Title, Status := t.Status, Deadline := t.Deadline,
    CreatedAt := t.CreatedAt, CompletedAt := t.CompletedAt }

/-- The struct a query scans a row into, with the given `Subtasks`. -/
def TaskRow.load (r : TaskRow) (subs : List Subtask) : Task :=
  { ID := r.ID, Title := r.Title, Status := r.Status, Deadline := r.Deadline,
    CreatedAt := r.CreatedAt, CompletedAt := r.CompletedAt, Subtasks := subs }

/-- The database: both tables and both id sequences. -/
structure DB where
  tasks : List TaskRow
  subtasks : List Subtask
  taskSeq : Nat
  subtaskSeq : Nat
deriving DecidableEq, Repr

/-- The freshly migrated database. -/
def DB.empty : DB := { tasks := [], subtasks := [], taskSeq := 0, subtaskSeq := 0 }

/-! ## Column constraints -/

/-- The constraint `CHECK status IN ('ongoing', 'completed')`. -/
def validStatus (s : String) : Bool := s == "ongoing" || s == "completed"

/-- The column type `VARCHAR(255)` of `title`. -/
def validTitle (s : String) : Bool := decide (s.length ≤ 255)

/-- Column default `'ongoing'` for a zero `Status`. -/
def defaultStatus (s : String) : String := if s = "" then "ongoing" else s

/-- The column constraints of a row of `tasks`. -/
def TaskRow.valid (r : TaskRow) : Bool := validStatus r.Status && validTitle r.Title

/-- The column constraints of a row of `subtasks`. -/
def Subtask.valid (s : Subtask) : Bool := validStatus s.Status && validTitle s.Title

/-! ## The environment of a request, and route parameters -/

/-- What surrounds one request: which store calls fail (`f k` for the `k`-th
call of the handler), the readings of the clock, `time.Parse` with layout
`2006-01-02`, and what Postgres makes of the text it is handed: `sqlTask s db`
is the outcome of using the string `s` as the WHERE condition of a statement
on table `tasks` in store `db` (`none` when Postgres rejects the statement,
else the test for the rows the condition selects), `sqlSubtask` the same for
table `subtasks`, and `pgInt s` is what Postgres reads in a string bound to a
`bigint` column when `strconv.Atoi` does not read it (`none`: rejected). -/
structure Env where
  f : Nat → Bool
  clock : Nat → Nat
  timeParse : String → Option Nat
  sqlTask : String → DB → Option (TaskRow → Bool)
  sqlSubtask : String → DB → Option (Subtask → Bool)
  pgInt : String → Option Int

/-- The loop of `strconv.Atoi` over the digits: the value read so far and the
bytes left.  A byte that is no decimal digit is a syntax error. -/
def atoiDigits : Nat → List Char → Option Nat
  | acc, [] => some acc
  | acc, c :: cs => if c.isDigit then atoiDigits (acc * 10 + (c.toNat - 48)) cs else none

/-- The function `strconv.Atoi` on a 64-bit platform: an optional sign, then
one decimal digit or more, the value within the range of `int`; `none` is the
error return. -/
def atoi (s : String) : Option Int :=
  match s.toList with
  | [] => none
  | c :: cs =>
    if c = '-' then
      (match cs with
       | [] => none
       | _ :: _ =>
         match atoiDigits 0 cs with
         | none => none
         | some v => if v ≤ 2 ^ 63 then some (-(v : Int)) else none)
    else if c = '+' then
      (match cs with
       | [] => none
       | _ :: _ =>
         match atoiDigits 0 cs with
         | none => none
         | some v => if v < 2 ^ 63 then some (v : Int) else none)
    else
      match atoiDigits 0 (c :: cs) with
      | none => none
      | some v => if v < 2 ^ 63 then some (v : Int) else none

/-- The condition `id = n` on a key column, for a number `n` read from a
string. -/
def keyIs (n : Int) (id : Nat) : Bool := (id : Int) == n

/-- The clause `ORDER BY id LIMIT 1` of `First`: the row with the least key
(the earliest such row of the table when keys repeat). -/
def leastBy {α : Type} (key : α → Nat) : List α → Option α
  | [] => none
  | a :: rest =>
    match leastBy key rest with
    | none => some a
    | some m => if key m < key a then some m else some a

/-- The number Postgres reads in a string bound to a `bigint` parameter. -/
def Env.readInt (env : Env) (s : String) : Option Int :=
  match atoi s with
  | some n => some n
  | none => env.pgInt s

/-! ## Store calls -/

/-- Outcome of `db.First(&task, id)` for a string `id`: the statement
`SELECT * FROM tasks WHERE ... ORDER BY id LIMIT 1`, an error when it returns
no row. -/
def DB.firstTask (db : DB) (env : Env) (fail : Bool) (id : String) : Option TaskRow :=
  if fail then none else
    match atoi id with
    | some n => leastBy TaskRow.ID (db.tasks.filter (fun r => keyIs n r.ID))
    | none =>
      if id = "" then leastBy TaskRow.ID db.tasks
      else
        match env.sqlTask id db with
        | none => none
        | some p => leastBy TaskRow.ID (db.tasks.filter p)

/-- Outcome of `db.First(&subtask, id)` for a string `id`. -/
def DB.firstSubtask (db : DB) (env : Env) (fail : Bool) (id : String) : Option Subtask :=
  if fail then none else
    match atoi id with
    | some n => leastBy Subtask.ID (db.subtasks.filter (fun s => keyIs n s.ID))
    | none =>
      if id = "" then leastBy Subtask.ID db.subtasks
      else
        match env.sqlSubtask id db with
        | none => none
        | some p => leastBy Subtask.ID (db.subtasks.filter p)

/-- Outcome of the first query of `db.Preload("Subtasks").First(&task, id)` for
a key `id` of type `uint`: the row with that key. -/
def DB.firstTaskKey (db : DB) (fail : Bool) (id : Nat) : Option TaskRow :=
  if fail then none else db.tasks.find? (fun r => r.ID == id)

/-- Rows of `subtasks` with the given `task_id`. -/
def DB.subtasksOf (db : DB) (taskID : Nat) : List Subtask :=
  db.subtasks.filter (fun s => s.TaskID == taskID)

/-- Outcome of `db.Where("task_id = ?", id).Find(&subtask)` for a string `id`,
which is bound to the parameter: an error when Postgres does not read a
`bigint` in it. -/
def DB.findSubtasks (db : DB) (env : Env) (fail : Bool) (id : String) : Option (List Subtask) :=
  if fail then none else
    match env.readInt id with
    | none => none
    | some n => some (db.subtasks.filter (fun s => keyIs n s.TaskID))

/-- Outcome of `db.Preload("Subtasks").First(&task, id)`. -/
def DB.preloadFirstTask (db : DB) (fail : Bool) (id : Nat) : Option Task :=
  if fail then none else
    match db.tasks.find? (fun r => r.ID == id) with
    | none => none
    | some r => some (r.load (db.subtasksOf r.ID))

/-- Outcome of `db.Where("status = ?", status).Preload("Subtasks").Find(&task)`. -/
def DB.findTasksByStatus (db : DB) (fail : Bool) (status : String) : Option (List Task) :=
  if fail then none else
    some ((db.tasks.filter (fun r => r.Status == status)).map
      (fun r => r.load (db.subtasksOf r.ID)))

/-- Outcome of `db.Delete(&subtask, id)` for a string `id`: `none` on error,
else the new database.  Every row the condition selects is deleted; deleting
zero rows is not an error. -/
def DB.deleteSubtask (db : DB) (env : Env) (fail : Bool) (id : String) : Option DB :=
  if fail then none else
    match atoi id with
    | some n => some { db with subtasks := db.subtasks.filter (fun s => !keyIs n s.ID) }
    | none =>
      if id = "" then none
      else
        match env.sqlSubtask id db with
        | none => none
        | some p => some { db with subtasks := db.subtasks.filter (fun s => !p s) }

/-- Outcome of `db.Delete(&subtask)` inside the loop of the delete-task handler:
the key comes from the struct, and gorm refuses a delete without a condition
(zero key). -/
def DB.deleteSubtaskValue (db : DB) (fail : Bool) (subtask : Subtask) : Option DB :=
  if fail then none else
    if subtask.ID = 0 then none
    else some { db with subtasks := db.subtasks.filter (fun s => s.ID != subtask.ID) }

/-- The statement `DELETE FROM tasks WHERE ...` for the rows that `p` selects.
The foreign key refuses to delete a task row that a subtask still references;
deleting zero rows is not an error. -/
def DB.deleteTasksWhere (db : DB) (p : TaskRow → Bool) : Option DB :=
  if db.tasks.any (fun r => p r && db.subtasks.any (fun s => s.TaskID == r.ID)) then none
  else some { db with tasks := db.tasks.filter (fun r => !p r) }

/-- Outcome of `db.Delete(&task, id)` for a string `id`. -/
def DB.deleteTask (db : DB) (env : Env) (fail : Bool) (id : String) : Option DB :=
  if fail then none else
    match atoi id with
    | some n => db.deleteTasksWhere (fun r => keyIs n r.ID)
    | none =>
      if id = "" then none
      else
        match env.sqlTask id db with
        | none => none
        | some p => db.deleteTasksWhere p

/-- The key of an inserted row: the struct's `ID`, or the next value of the
sequence when that is zero. -/
def nextID (seq id : Nat) : Nat := if id = 0 then seq + 1 else id

/-- The sequence after an insert of a struct with the given `ID`. -/
def nextSeq (seq id : Nat) : Nat := if id = 0 then seq + 1 else seq

/-- Value written to `created_at`: the struct's, or the clock's for a zero time. -/
def createdAt (now : Nat) (c : Option Nat) : Option Nat :=
  match c with
  | none => some now
  | some c => some c

/-- Gives the structs of one batch their keys: a zero `ID` takes the next value
of the sequence.  Returns the structs and the sequence afterwards. -/
def assignSubtaskIDs : Nat → List Subtask → List Subtask × Nat
  | seq, [] => ([], seq)
  | seq, s :: rest =>
    if s.ID = 0 then
      let r := assignSubtaskIDs (seq + 1) rest
      ({ s with ID := seq + 1 } :: r.1, r.2)
    else
      let r := assignSubtaskIDs seq rest
      (s :: r.1, r.2)

/-- One row of `INSERT ... ON CONFLICT (id) DO UPDATE SET task_id = excluded.task_id`. -/
def upsertRow (rows : List Subtask) (s : Subtask) : List Subtask :=
  if rows.any (fun r => r.ID == s.ID) then
    rows.map (fun r => if r.ID == s.ID then { r with TaskID := s.TaskID } else r)
  else rows ++ [s]

/-- The statement gorm issues for the `Subtasks` of a task being created or
saved: every struct gets `TaskID := taskID` and the defaults, and the batch is
inserted with `ON CONFLICT (id) DO UPDATE SET task_id`.  Returns the structs as
written back, or `none` on error, and the database (on error only the sequence
has moved).  The statement fails when a row breaks a column constraint, when
two rows of the batch have the same key, or when the parent row is missing. -/
def DB.upsertSubtasks (db : DB) (taskID : Nat) (elems : List Subtask) :
    Option (List Subtask) × DB :=
  match elems with
  | [] => (some [], db)
  | _ :: _ =>
    let withFK := elems.map (fun s => { s with TaskID := taskID, Status := defaultStatus s.Status })
    let r := assignSubtaskIDs db.subtaskSeq withFK
    let db1 := { db with subtaskSeq := r.2 }
    if r.1.all Subtask.valid && decide (r.1.map Subtask.ID).Nodup
        && db.tasks.any (fun t => t.ID == taskID) then
      (some r.1, { db1 with subtasks := r.1.foldl upsertRow db1.subtasks })
    else (none, db1)

/-- Outcome of `db.Create(&task)`: the struct as written back (`none` on
error) and the database.  One transaction: on error the tables are as
before. -/
def DB.createTask (db : DB) (fail : Bool) (now : Nat) (task : Task) : Option Task × DB :=
  if fail then (none, db) else
    let id := nextID db.taskSeq task.ID
    let db1 := { db with taskSeq := nextSeq db.taskSeq task.ID }
    let row : TaskRow :=
      { ID := id, Title := task.Title, Status := defaultStatus task.Status,
        Deadline := task.Deadline, CreatedAt := createdAt now task.CreatedAt,
        CompletedAt := task.CompletedAt }
    if row.valid && !(db.tasks.any (fun r => r.ID == id)) then
      match DB.upsertSubtasks { db1 with tasks := db1.tasks ++ [row] } id task.Subtasks with
      | (some subs, db2) => (some (row.load subs), db2)
      | (none, db2) => (none, { db1 with subtaskSeq := db2.subtaskSeq })
    else (none, db1)

/-- Outcome of `db.Create(&subtask)`. -/
def DB.createSubtask (db : DB) (fail : Bool) (subtask : Subtask) : Option Subtask × DB :=
  if fail then (none, db) else
    let id := nextID db.subtaskSeq subtask.ID
    let db1 := { db with subtaskSeq := nextSeq db.subtaskSeq subtask.ID }
    let row : Subtask := { subtask with ID := id, Status := defaultStatus subtask.Status }
    if row.valid && !(db.subtasks.any (fun s => s.ID == id))
        && db.tasks.any (fun t => t.ID == row.TaskID) then
      (some row, { db1 with subtasks := db1.subtasks ++ [row] })
    else (none, db1)

/-- Outcome of `db.Save(&subtask)`. -/
def DB.saveSubtask (db : DB) (fail : Bool) (subtask : Subtask) : Option Subtask × DB :=
  if fail then (none, db) else
    if subtask.ID = 0 then db.createSubtask false subtask
    else if db.subtasks.any (fun s => s.ID == subtask.ID) then
      if subtask.valid && db.tasks.any (fun t => t.ID == subtask.TaskID) then
        (some subtask,
          { db with subtasks := db.subtasks.map (fun s => if s.ID == subtask.ID then subtask else s) })
      else (none, db)
    else db.createSubtask false subtask

/-- Outcome of `db.Save(&task)`. -/
def DB.saveTask (db : DB) (fail : Bool) (now : Nat) (task : Task) : Option Task × DB :=
  if fail then (none, db) else
    if task.ID = 0 then db.createTask false now task
    else if db.tasks.any (fun r => r.ID == task.ID) then
      if task.row.valid then
        let db1 := { db with tasks := db.tasks.map (fun r => if r.ID == task.ID then task.row else r) }
        match DB.upsertSubtasks db1 task.ID task.Subtasks with
        | (some subs, db2) => (some { task with Subtasks := subs }, db2)
        | (none, db2) => (none, { db with subtaskSeq := db2.subtaskSeq })
      else (none, db)
    else db.createTask false now task

/-! ## Requests and responses -/

/-- What a handler puts next to the message in the JSON envelope. -/
inductive Payload where
  | none
  | task (t : Task)
  | tasks (ts : List Task)
  | subtask (s : Subtask)
deriving DecidableEq, Repr

/-- HTTP status, message and payload of a response. -/
structure Response where
  status : Nat
  message : String
  payload : Payload
deriving DecidableEq, Repr

/-- The response `fiber.StatusBadRequest` with a message. -/
def badRequest (msg : String) : Response := { status := 400, message := msg, payload := Payload.none }

/-! ## Handlers -/

/-- Handler of `POST /tasks` (add task); `body` is the parsed request body,
`none` when it does not parse. -/
def addTask (env : Env) (body : Option Task) (db : DB) : Response × DB :=
  match body with
  | none => (badRequest "Invalid request body", db)
  | some task =>
    match db.createTask (env.f 0) (env.clock 0) task with
    | (none, db1) => (badRequest "Failed to create task", db1)
    | (some task, db1) =>
      ({ status := 201, message := "Task created successfully", payload := Payload.task task }, db1)

/-- Handler of `GET /tasks/ongoing` (show ongoing task). -/
def showOngoingTask (env : Env) (db : DB) : Response × DB :=
  match db.findTasksByStatus (env.f 0) "ongoing" with
  | none => (badRequest "Failed to get data", db)
  | some task => ({ status := 200, message := "", payload := Payload.tasks task }, db)

/-- The loop `for _, subtask := range subtask` of the delete-task handler; `k`
is the index of the next store call.  `false` is the early return. -/
def deleteLoop (env : Env) : Nat → List Subtask → DB → Bool × DB
  | _, [], db => (true, db)
  | k, subtask :: rest, db =>
    match db.deleteSubtaskValue (env.f k) subtask with
    | none => (false, db)
    | some db1 => deleteLoop env (k + 1) rest db1

/-- Handler of `DELETE tasks/:id` (delete task). -/
def deleteTask (env : Env) (id : String) (db : DB) : Response × DB :=
  match db.findSubtasks env (env.f 0) id with
  | none => (badRequest "Failed to get data", db)
  | some subtask =>
    match deleteLoop env 1 subtask db with
    | (false, db1) => (badRequest "Failed to delete subtask", db1)
    | (true, db1) =>
      match db1.deleteTask env (env.f (1 + subtask.length)) id with
      | none => (badRequest "Failed to delete data", db1)
      | some db2 =>
        ({ status := 200, message := "Task deleted successfully", payload := Payload.none }, db2)

/-- Handler of `PATCH tasks/:id` (edit task); `body` is the `title` of the
request body, `none` when the body does not parse. -/
def editTask (env : Env) (id : String) (body : Option String) (db : DB) : Response × DB :=
  match body with
  | none => (badRequest "Invalid request body", db)
  | some title =>
    match db.firstTask env (env.f 0) id with
    | none => (badRequest "Failed to get data", db)
    | some row =>
      let task := { row.load [] with Title := title }
      match db.saveTask (env.f 1) (env.clock 0) task with
      | (none, db1) => (badRequest "Failed to save data", db1)
      | (some task, db1) =>
        ({ status := 200, message := "Task successfully updated", payload := Payload.task task }, db1)

/-- Handler of `PATCH tasks/done/:id` (completing task). -/
def completingTask (env : Env) (id : String) (db : DB) : Response × DB :=
  match db.firstTask env (env.f 0) id with
  | none => (badRequest "Failed to get data", db)
  | some row =>
    let task := { row.load [] with Status := "completed", CompletedAt := some (env.clock 0) }
    match db.saveTask (env.f 1) (env.clock 1) task with
    | (none, db1) => (badRequest "Failed to save data", db1)
    | (some task, db1) =>
      ({ status := 200, message := "Task successfully completed", payload := Payload.task task }, db1)

/-- Handler of `GET /tasks/completed` (show completed task). -/
def showCompletedTask (env : Env) (db : DB) : Response × DB :=
  match db.findTasksByStatus (env.f 0) "completed" with
  | none => (badRequest "Failed to get data", db)
  | some task => ({ status := 200, message := "", payload := Payload.tasks task }, db)

/-- Handler of `PATCH tasks/deadline/:id` (add date and time for task); `body`
is the `time` of the request body. -/
def addDeadline (env : Env) (id : String) (body : Option String) (db : DB) : Response × DB :=
  match body with
  | none => (badRequest "Invalid request body", db)
  | some time =>
    match db.firstTask env (env.f 0) id with
    | none => (badRequest "Failed to get data", db)
    | some row =>
      match env.timeParse time with
      | none => (badRequest "Invalid date format", db)
      | some deadline =>
        let task := { row.load [] with Deadline := some deadline }
        match db.saveTask (env.f 1) (env.clock 0) task with
        | (none, db1) => (badRequest "Failed to save data", db1)
        | (some task, db1) =>
          ({ status := 200, message := "Task successfully updated", payload := Payload.task task }, db1)

/-- Handler of `POST /subtasks/:idTask` (add subtask); the conversion
`uint(idTaskInt)` is to 64 bits. -/
def addSubtask (env : Env) (idTask : String) (body : Option Subtask) (db : DB) :
    Response × DB :=
  match body with
  | none => (badRequest "Invalid request body", db)
  | some subtask =>
    match atoi idTask with
    | none => (badRequest "Invalid Task ID", db)
    | some idTaskInt =>
      let subtask := { subtask with TaskID := (idTaskInt % (2 ^ 64 : Int)).toNat }
      match db.createSubtask (env.f 0) subtask with
      | (none, db1) => (badRequest "Failed to create task", db1)
      | (some subtask, db1) =>
        ({ status := 201, message := "Subtask created successfully",
           payload := Payload.subtask subtask }, db1)

/-- Handler of `DELETE subtasks/:id` (delete subtask). -/
def deleteSubtask (env : Env) (id : String) (db : DB) : Response × DB :=
  match db.deleteSubtask env (env.f 0) id with
  | none => (badRequest "Failed to delete subtask", db)
  | some db1 =>
    ({ status := 200, message := "Subtask deleted successfully", payload := Payload.none }, db1)

/-- Handler of `PATCH subtasks/:id` (edit subtask). -/
def editSubtask (env : Env) (id : String) (body : Option String) (db : DB) : Response × DB :=
  match body with
  | none => (badRequest "Invalid request body", db)
  | some title =>
    match db.firstSubtask env (env.f 0) id with
    | none => (badRequest "Failed to get subtask", db)
    | some subtask =>
      let subtask := { subtask with Title := title }
      match db.saveSubtask (env.f 1) subtask with
      | (none, db1) => (badRequest "Failed to save data", db1)
      | (some subtask, db1) =>
        ({ status := 200, message := "Subtask successfully updated",
           payload := Payload.subtask subtask }, db1)

/-- The loop over `task.Subtasks` of the complete-subtask handler: starts
`true`, becomes `false` at the first subtask that is not completed. -/
def flaggingCompleted : List Subtask → Bool
  | [] => true
  | st :: rest => if st.Status != "completed" then false else flaggingCompleted rest

/-- The propagation step of the complete-subtask handler (from
`var flaggingCompleted = true` to the end of `if flaggingCompleted`), run on the
loaded `task`; `k` is the index of its store call and `t`, `t + 1` those of its
clock readings.  `false` is the early return on a failed save. -/
def checkAllSubtaskCompleted (env : Env) (k t : Nat) (task : Task) (db : DB) : Bool × DB :=
  if flaggingCompleted task.Subtasks then
    let task := { task with Status := "completed", CompletedAt := some (env.clock t) }
    match db.saveTask (env.f k) (env.clock (t + 1)) task with
    | (none, db1) => (false, db1)
    | (some _, db1) => (true, db1)
  else (true, db)

/-- Handler of `PATCH subtasks/done/:id` (completing subtask). -/
def completingSubtask (env : Env) (id : String) (db : DB) : Response × DB :=
  match db.firstSubtask env (env.f 0) id with
  | none => (badRequest "Failed to get data", db)
  | some subtask =>
    let subtask := { subtask with Status := "completed", CompletedAt := some (env.clock 0) }
    match db.saveSubtask (env.f 1) subtask with
    | (none, db1) => (badRequest "Failed to save subtask", db1)
    | (some subtask, db1) =>
      match db1.preloadFirstTask (env.f 2) subtask.TaskID with
      | none => (badRequest "Failed to get parent task", db1)
      | some task =>
        match checkAllSubtaskCompleted env 3 1 task db1 with
        | (false, db2) => (badRequest "Failed to update parent task", db2)
        | (true, db2) =>
          ({ status := 200, message := "Subtask successfully completed",
             payload := Payload.subtask subtask }, db2)

/-- The requests the service accepts, one constructor per route, each with its
route parameter as the string it arrives as. -/
inductive Request where
  | addTask (body : Option Task)
  | showOngoingTask
  | deleteTask (id : String)
  | editTask (id : String) (body : Option String)
  | completingTask (id : String)
  | showCompletedTask
  | addDeadline (id : String) (body : Option String)
  | addSubtask (idTask : String) (body : Option Subtask)
  | deleteSubtask (id : String)
  | editSubtask (id : String) (body : Option String)
  | completingSubtask (id : String)

/-- Route dispatch. -/
def handle (env : Env) (req : Request) (db : DB) : Response × DB :=
  match req with
  | Request.addTask body => addTask env body db
  | Request.showOngoingTask => showOngoingTask env db
  | Request.deleteTask id => deleteTask env id db
  | Request.editTask id body => editTask env id body db
  | Request.completingTask id => completingTask env id db
  | Request.showCompletedTask => showCompletedTask env db
  | Request.addDeadline id body => addDeadline env id body db
  | Request.addSubtask idTask body => addSubtask env idTask body db
  | Request.deleteSubtask id => deleteSubtask env id db
  | Request.editSubtask id body => editSubtask env id body db
  | Request.completingSubtask id => completingSubtask env id db

/-- The store after serving the requests of a trace one after the other. -/
def run : List (Env × Request) → DB → DB
  | [], db => db
  | (env, req) :: rest, db => run rest (handle env req db).2

/-- A reading of condition texts that knows `1=1`, which selects every row,
and rejects any other text. -/
def sqlOneIsOne {α : Type} (s : String) (_ : DB) : Option (α → Bool) :=
  if s = "1=1" then some (fun _ => true) else none

/-- A request environment in which no store call fails, whose store knows the
condition text `1=1` only and reads no number in a string that `strconv.Atoi`
rejects (and in which no date string parses: nothing below depends on the
parser). -/
def Env.ok (clock : Nat → Nat) : Env :=
  { f := fun _ => false, clock := clock, timeParse := fun _ => none,
    sqlTask := sqlOneIsOne, sqlSubtask := sqlOneIsOne, pgInt := fun _ => none }

/-! ## Integrity constraints of the schema -/

/-- What the schema guarantees of every stored state: primary keys are unique
and non-zero, every subtask references a stored task, every row passes its
column constraints. -/
def DB.WF (db : DB) : Prop :=
  (db.tasks.map TaskRow.ID).Nodup ∧ (db.subtasks.map Subtask.ID).Nodup ∧
  (∀ r ∈ db.tasks, r.ID ≠ 0) ∧ (∀ s ∈ db.subtasks, s.ID ≠ 0) ∧
  (∀ s ∈ db.subtasks, ∃ r ∈ db.tasks, r.ID = s.TaskID) ∧
  (∀ r ∈ db.tasks, r.valid = true) ∧ (∀ s ∈ db.subtasks, s.valid = true)

instance (db : DB) : Decidable db.WF := by
  unfold DB.WF; infer_instance

/-- The row of `tasks` with key `id`, if any. -/
def DB.task? (db : DB) (id : Nat) : Option TaskRow := db.tasks.find? (fun r => r.ID == id)

/-- The row of `subtasks` with key `id`, if any. -/
def DB.subtask? (db : DB) (id : Nat) : Option Subtask := db.subtasks.find? (fun s => s.ID == id)

/-- The statement `UPDATE tasks SET ... WHERE id = id` as a function on the
table. -/
def setTask (rows : List TaskRow) (id : Nat) (g : TaskRow → TaskRow) : List TaskRow :=
  rows.map (fun r => if r.ID == id then g r else r)

/-- The statement `UPDATE subtasks SET ... WHERE id = id` as a function on the
table. -/
def setSubtask (rows : List Subtask) (id : Nat) (g : Subtask → Subtask) : List Subtask :=
  rows.map (fun s => if s.ID == id then g s else s)

/-- A subtask row marked completed at `now`. -/
def Subtask.complete (now : Nat) (s : Subtask) : Subtask :=
  { s with Status := "completed", CompletedAt := some now }

/-- A task row marked completed at `now`. -/
def TaskRow.complete (now : Nat) (r : TaskRow) : TaskRow :=
  { r with Status := "completed", CompletedAt := some now }

/-- Closed form of `completingSubtask` on a stored subtask `s` of a consistent
store (theorem `completingSubtask_stored`): which response is sent and which
rows are rewritten, by the first store call that fails. -/
def completingSubtaskStored (env : Env) (s : Subtask) (db : DB) : Response × DB :=
  if env.f 0 then (badRequest "Failed to get data", db)
  else if env.f 1 then (badRequest "Failed to save subtask", db)
  else
    let db1 := { db with subtasks := setSubtask db.subtasks s.ID (Subtask.complete (env.clock 0)) }
    if env.f 2 then (badRequest "Failed to get parent task", db1)
    else if flaggingCompleted (db1.subtasksOf s.TaskID) then
      if env.f 3 then (badRequest "Failed to update parent task", db1)
      else
        ({ status := 200, message := "Subtask successfully completed",
           payload := Payload.subtask (s.complete (env.clock 0)) },
         { db1 with tasks := setTask db.tasks s.TaskID (TaskRow.complete (env.clock 1)) })
    else
      ({ status := 200, message := "Subtask successfully completed",
         payload := Payload.subtask (s.complete (env.clock 0)) }, db1)

/-- The trace that completes the listed subtasks one after the other, each
request with its own environment and with the route parameter it names its
subtask by. -/
def completions (trace : List (Env × String)) : List (Env × Request) :=
  trace.map (fun p => (p.1, Request.completingSubtask p.2))

/-! ## The complete-subtask handler, one store statement at a time -/

/-- Where a complete-subtask request stands between two store statements, with
the local variables of the handler that are live there. -/
inductive Proc where
  /-- Before `db.First(&subtask, id)`. -/
  | start
  /-- After `subtask` is read and marked completed in memory; before
  `db.Save(&subtask)`. -/
  | loaded (subtask : Subtask)
  /-- Before the query of `Preload("Subtasks").First` that reads the task row. -/
  | saved (subtask : Subtask)
  /-- Task row read; before the query of `Preload` that reads its subtasks. -/
  | taskRead (subtask : Subtask) (row : TaskRow)
  /-- After `task` is loaded with its subtasks; before the loop and the conditional
  `db.Save(&task)`. -/
  | preloaded (subtask : Subtask) (task : Task)
  /-- Response sent; `flag` is the value of `flaggingCompleted` after the loop,
  `none` when the handler returned before the loop. -/
  | done (resp : Response) (flag : Option Bool)
deriving DecidableEq, Repr

/-- One store statement of the complete-subtask handler for route parameter
`id`, with the handler code up to the next statement.  `Preload(...).First`
issues two queries, which are two steps (both are store call 2 of the handler:
a request that reaches the second query has seen `env.f 2 = false`). -/
def Proc.step (env : Env) (id : String) : Proc → DB → Proc × DB
  | Proc.start, db =>
    match db.firstSubtask env (env.f 0) id with
    | none => (Proc.done (badRequest "Failed to get data") none, db)
    | some subtask =>
      (Proc.loaded { subtask with Status := "completed", CompletedAt := some (env.clock 0) }, db)
  | Proc.loaded subtask, db =>
    match db.saveSubtask (env.f 1) subtask with
    | (none, db1) => (Proc.done (badRequest "Failed to save subtask") none, db1)
    | (some subtask, db1) => (Proc.saved subtask, db1)
  | Proc.saved subtask, db =>
    match db.firstTaskKey (env.f 2) subtask.TaskID with
    | none => (Proc.done (badRequest "Failed to get parent task") none, db)
    | some row => (Proc.taskRead subtask row, db)
  | Proc.taskRead subtask row, db =>
    (Proc.preloaded subtask (row.load (db.subtasksOf row.ID)), db)
  | Proc.preloaded subtask task, db =>
    match checkAllSubtaskCompleted env 3 1 task db with
    | (false, db2) =>
      (Proc.done (badRequest "Failed to update parent task")
        (some (flaggingCompleted task.Subtasks)), db2)
    | (true, db2) =>
      (Proc.done { status := 200, message := "Subtask successfully completed",
                   payload := Payload.subtask subtask }
        (some (flaggingCompleted task.Subtasks)), db2)
  | Proc.done resp flag, db => (Proc.done resp flag, db)

/-- The handler run alone: its five statements one after the other. -/
def Proc.runAlone (env : Env) (id : String) (db : DB) : Proc × DB :=
  let r1 := Proc.step env id Proc.start db
  let r2 := Proc.step env id r1.1 r1.2
  let r3 := Proc.step env id r2.1 r2.2
  let r4 := Proc.step env id r3.1 r3.2
  Proc.step env id r4.1 r4.2

/-- Two complete-subtask requests in flight over one store. -/
structure Sys where
  db : DB
  a : Proc
  b : Proc
deriving DecidableEq, Repr

/-- One step of the system: request `a` (route parameter `idA`) moves when `who`
is true, request `b` otherwise. -/
def Sys.step (envA envB : Env) (idA idB : String) (who : Bool) (σ : Sys) : Sys :=
  if who then
    let r := Proc.step envA idA σ.a σ.db
    { db := r.2, a := r.1, b := σ.b }
  else
    let r := Proc.step envB idB σ.b σ.db
    { db := r.2, a := σ.a, b := r.1 }

/-- The system after the steps of a schedule, which names the request that
moves at each step. -/
def interleave (envA envB : Env) (idA idB : String) : List Bool → Sys → Sys
  | [], σ => σ
  | who :: rest, σ => interleave envA envB idA idB rest (Sys.step envA envB idA idB who σ)

/-- The request has sent its response. -/
def Proc.finished : Proc → Bool
  | Proc.done _ _ => true
  | _ => false

/-- The number of store statements the request still has to issue, at most. -/
def Proc.remaining : Proc → Nat
  | Proc.start => 5
  | Proc.loaded _ => 4
  | Proc.saved _ => 3
  | Proc.taskRead _ _ => 2
  | Proc.preloaded _ _ => 1
  | Proc.done _ _ => 0

/-- The request has sent 200 and the value of its `flaggingCompleted` was `b`. -/
def Proc.succeededWith (b : Bool) : Proc → Prop
  | Proc.done resp flag => resp.status = 200 ∧ flag = some b
  | _ => False

/-- What the request has seen of the subtasks of the task: the value of
`flaggingCompleted` on the subtasks it has loaded, once it has loaded them. -/
def Proc.observed : Proc → Option Bool
  | Proc.preloaded _ task => some (flaggingCompleted task.Subtasks)
  | Proc.done _ flag => flag
  | _ => none

/-- The number of store statements the request has issued: five once it has
sent its response with no store call failing. -/
def Proc.stage : Proc → Nat
  | Proc.start => 0
  | Proc.loaded _ => 1
  | Proc.saved _ => 2
  | Proc.taskRead _ _ => 3
  | Proc.preloaded _ _ => 4
  | Proc.done _ _ => 5

/-- What the order of the steps alone decides in a race of two complete-subtask
requests `a` and `b`, none of whose store calls fails.  The second statement of
a request is its save of the subtask, the fourth its load of the subtasks of
the task, the fifth its save of the task.  `na` and `nb` count the steps given
to `a` and to `b`; `seenA` is set when `a` makes its fourth step and tells
whether `b` had made its second step by then, `seenB` likewise; `last` names
the request that was the last to make its fifth step after a fourth step that
set its `seen` to true (`some true` for `a`). -/
structure Tally where
  na : Nat
  nb : Nat
  seenA : Option Bool
  seenB : Option Bool
  last : Option Bool
deriving DecidableEq, Repr

/-- The tally before any step. -/
def Tally.init : Tally := { na := 0, nb := 0, seenA := none, seenB := none, last := none }

/-- The tally after one more step, of `a` when `who` is true and of `b`
otherwise. -/
def Tally.step (who : Bool) (τ : Tally) : Tally :=
  if who then
    { na := τ.na + 1, nb := τ.nb,
      seenA := if τ.na = 3 then some (decide (2 ≤ τ.nb)) else τ.seenA,
      seenB := τ.seenB,
      last := if τ.na = 4 ∧ τ.seenA = some true then some true else τ.last }
  else
    { na := τ.na, nb := τ.nb + 1,
      seenA := τ.seenA,
      seenB := if τ.nb = 3 then some (decide (2 ≤ τ.na)) else τ.seenB,
      last := if τ.nb = 4 ∧ τ.seenB = some true then some false else τ.last }

/-- The tally after the steps of a schedule, from a given tally. -/
def tallyFrom : List Bool → Tally → Tally
  | [], τ => τ
  | who :: rest, τ => tallyFrom rest (τ.step who)

/-- The tally of a schedule. -/
def tally (sched : List Bool) : Tally := tallyFrom sched Tally.init

/-- The row of task `t` by the request that saved it last in a race: as it was
when no request has, and marked completed at the time that request read for the
task (`cA` for request `a`, `cB` for request `b`) otherwise. -/
def stampedTask (t : TaskRow) (cA cB : Nat) : Option Bool → TaskRow
  | none => t
  | some true => t.complete cA
  | some false => t.complete cB

/-- The setting of two concurrent completions: a task, two of its subtasks,
and the environments of the two requests. -/
structure Race where
  t : TaskRow
  s1 : Subtask
  s2 : Subtask
  envA : Env
  envB : Env

/-- The task row as a request may read it during the race: as it was at the
start, or marked completed at some time. -/
def Race.RowT (R : Race) (row : TaskRow) : Prop :=
  row = R.t ∨ ∃ c, row = R.t.complete c

/-- What holds of the subtasks a request has loaded for the task. -/
def Race.Snap (R : Race) (S : List Subtask) : Prop :=
  (∀ e ∈ S, e.valid = true ∧ e.ID ≠ 0 ∧ e.TaskID = R.t.ID ∧ (e.ID = R.s1.ID ∨ e.ID = R.s2.ID)) ∧
  (S.map Subtask.ID).Nodup

/-- What holds of the store all along the race: it is consistent, the task has
its row, and the subtasks of the task are rows of key `s1.ID` or `s2.ID`. -/
def Race.G (R : Race) (db : DB) : Prop :=
  db.WF ∧ (∃ row ∈ db.tasks, row.ID = R.t.ID ∧ R.RowT row) ∧
  (∀ x ∈ db.subtasks, x.TaskID = R.t.ID → x.ID = R.s1.ID ∨ x.ID = R.s2.ID)

/-- What holds of the request with environment `env` completing subtask `s`,
at each of its program points. -/
def Race.P (R : Race) (env : Env) (s : Subtask) (db : DB) : Proc → Prop
  | Proc.start => s ∈ db.subtasks
  | Proc.loaded sub => s ∈ db.subtasks ∧ sub = s.complete (env.clock 0)
  | Proc.saved sub => s.complete (env.clock 0) ∈ db.subtasks ∧ sub = s.complete (env.clock 0)
  | Proc.taskRead sub row =>
    s.complete (env.clock 0) ∈ db.subtasks ∧ sub = s.complete (env.clock 0) ∧
      row.ID = R.t.ID ∧ R.RowT row
  | Proc.preloaded sub task =>
    s.complete (env.clock 0) ∈ db.subtasks ∧ sub = s.complete (env.clock 0) ∧
      task.ID = R.t.ID ∧ R.RowT task.row ∧ R.Snap task.Subtasks
  | Proc.done resp flag =>
    s.complete (env.clock 0) ∈ db.subtasks ∧ resp.status = 200 ∧ flag ≠ none

/-- The task of the race is stored as completed. -/
def Race.taskDone (R : Race) (db : DB) : Prop :=
  ∃ row ∈ db.tasks, row.ID = R.t.ID ∧ row.Status = "completed"

/-- The invariant of the race, after the steps that the tally `τ` counts. -/
def Race.Inv (R : Race) (τ : Tally) (σ : Sys) : Prop :=
  R.G σ.db ∧ R.P R.envA R.s1 σ.db σ.a ∧ R.P R.envB R.s2 σ.db σ.b ∧
  ¬ (σ.a.observed = some false ∧ σ.b.observed = some false) ∧
  ((σ.a.succeededWith true ∨ σ.b.succeededWith true) → R.taskDone σ.db) ∧
  σ.a.stage = min τ.na 5 ∧ σ.b.stage = min τ.nb 5 ∧
  σ.a.observed = τ.seenA ∧ σ.b.observed = τ.seenB ∧
  σ.db.task? R.t.ID = some (stampedTask R.t (R.envA.clock 1) (R.envB.clock 1) τ.last)

/-! ## How rows change, and the completedAt invariant -/

/-- A task row `r'` next to the row `r` it comes from: same key, and status and
completedAt either both as in `r` or set to completed with a timestamp. -/
def TaskRow.Step (r r' : TaskRow) : Prop :=
  r'.ID = r.ID ∧ ((r'.Status = r.Status ∧ r'.CompletedAt = r.CompletedAt) ∨
    (r'.Status = "completed" ∧ ∃ now, r'.CompletedAt = some now))

/-- A subtask row `s'` next to the row `s` it comes from. -/
def Subtask.Step (s s' : Subtask) : Prop :=
  s'.ID = s.ID ∧ ((s'.Status = s.Status ∧ s'.CompletedAt = s.CompletedAt) ∨
    (s'.Status = "completed" ∧ ∃ now, s'.CompletedAt = some now))

/-- The task row `r'` takes its status and completedAt from the body of the
create-task request `req`. -/
def Request.insertsTask (req : Request) (r' : TaskRow) : Prop :=
  ∃ task, req = Request.addTask (some task) ∧ r'.Status = defaultStatus task.Status ∧
    r'.CompletedAt = task.CompletedAt

/-- The subtask row `s'` takes its status and completedAt from the body of the
create-subtask request `req`, or from a subtask in the body of the create-task
request `req`. -/
def Request.insertsSubtask (req : Request) (s' : Subtask) : Prop :=
  (∃ task s0, req = Request.addTask (some task) ∧ s0 ∈ task.Subtasks ∧
    s'.Status = defaultStatus s0.Status ∧ s'.CompletedAt = s0.CompletedAt) ∨
  (∃ idTask s0, req = Request.addSubtask idTask (some s0) ∧
    s'.Status = defaultStatus s0.Status ∧ s'.CompletedAt = s0.CompletedAt)

/-- Every row of `db'` comes from a row of `db` by a `Step`, or has a key that
`db` does not have and was inserted from the body of `req`. -/
def Evolves (req : Request) (db db' : DB) : Prop :=
  (∀ r' ∈ db'.tasks, (∃ r ∈ db.tasks, r.Step r') ∨
    ((∀ r ∈ db.tasks, r.ID ≠ r'.ID) ∧ req.insertsTask r')) ∧
  (∀ s' ∈ db'.subtasks, (∃ s ∈ db.subtasks, s.Step s') ∨
    ((∀ s ∈ db.subtasks, s.ID ≠ s'.ID) ∧ req.insertsSubtask s'))

/-- Invariant I4 on a status and a completedAt: completedAt is non-null iff
the status is completed. -/
def stamped (status : String) (completedAt : Option Nat) : Prop :=
  completedAt ≠ none ↔ status = "completed"

instance (status : String) (completedAt : Option Nat) : Decidable (stamped status completedAt) := by
  unfold stamped; infer_instance

/-- Invariant I4 on a store: it holds of every task and of every subtask. -/
def DB.I4 (db : DB) : Prop :=
  (∀ r ∈ db.tasks, stamped r.Status r.CompletedAt) ∧
  (∀ s ∈ db.subtasks, stamped s.Status s.CompletedAt)

instance (db : DB) : Decidable db.I4 := by
  unfold DB.I4; infer_instance

/-- The body of a create request meets I4 itself: the task and every subtask
it carries have completedAt non-null iff their status is completed.  Requests
other than the two creates carry no status. -/
def Request.stampedBody : Request → Prop
  | Request.addTask (some task) =>
    stamped task.Status task.CompletedAt ∧ ∀ s ∈ task.Subtasks, stamped s.Status s.CompletedAt
  | Request.addSubtask _ (some s) => stamped s.Status s.CompletedAt
  | _ => True

instance (req : Request) : Decidable req.stampedBody := by
  cases req with
  | addTask body => cases body <;> unfold Request.stampedBody <;> infer_instance
  | addSubtask idTask body => cases body <;> unfold Request.stampedBody <;> infer_instance
  | showOngoingTask => unfold Request.stampedBody; infer_instance
  | deleteTask id => unfold Request.stampedBody; infer_instance
  | editTask id body => unfold Request.stampedBody; infer_instance
  | completingTask id => unfold Request.stampedBody; infer_instance
  | showCompletedTask => unfold Request.stampedBody; infer_instance
  | addDeadline id body => unfold Request.stampedBody; infer_instance
  | deleteSubtask id => unfold Request.stampedBody; infer_instance
  | editSubtask id body => unfold Request.stampedBody; infer_instance
  | completingSubtask id => unfold Request.stampedBody; infer_instance

/-- A create-task body that only gives a title. -/
def titleOnlyTask (title : String) : Task :=
  { ID := 0, Title := title, Status := "", Deadline := none, CreatedAt := none,
    CompletedAt := none, Subtasks := [] }

/-- A create-subtask body that only gives a title. -/
def titleOnlySubtask (title : String) : Subtask :=
  { ID := 0, TaskID := 0, Title := title, Status := "", CompletedAt := none }

/-! ## Concrete stores used as test inputs -/

/-- A store with one ongoing task and no subtask. -/
def dbLoneTask : DB :=
  { tasks := [{ ID := 1, Title := "t", Status := "ongoing", Deadline := none,
                CreatedAt := some 0, CompletedAt := none }],
    subtasks := [], taskSeq := 1, subtaskSeq := 0 }

/-- A store with one ongoing task and its two ongoing subtasks. -/
def dbTwoSubtasks : DB :=
  { tasks := [{ ID := 1, Title := "t", Status := "ongoing", Deadline := none,
                CreatedAt := some 0, CompletedAt := none }],
    subtasks := [{ ID := 1, TaskID := 1, Title := "a", Status := "ongoing", CompletedAt := none },
                 { ID := 2, TaskID := 1, Title := "b", Status := "ongoing", CompletedAt := none }],
    taskSeq := 1, subtaskSeq := 2 }

/-- A clock that reads `10, 11, 12, ...`. -/
def clock10 : Nat → Nat := fun k => 10 + k

/-- A store whose task was completed by hand at time 5 while its only subtask
is still ongoing. -/
def dbCompletedParent : DB :=
  { tasks := [{ ID := 1, Title := "t", Status := "completed", Deadline := none,
                CreatedAt := some 0, CompletedAt := some 5 }],
    subtasks := [{ ID := 1, TaskID := 1, Title := "a", Status := "ongoing", CompletedAt := none }],
    taskSeq := 1, subtaskSeq := 1 }

/-- A store with one ongoing task and its only subtask, ongoing. -/
def dbOneSubtask : DB :=
  { tasks := [{ ID := 1, Title := "t", Status := "ongoing", Deadline := none,
                CreatedAt := some 0, CompletedAt := none }],
    subtasks := [{ ID := 1, TaskID := 1, Title := "a", Status := "ongoing", CompletedAt := none }],
    taskSeq := 1, subtaskSeq := 1 }

/-- The complete-subtask handler with a delete-subtask request for the same
subtask served between its save of the subtask and its load of the parent. -/
def completeWithDeleteBetween (env envD : Env) (id : String) (db : DB) : Proc × DB :=
  let r1 := Proc.step env id Proc.start db
  let r2 := Proc.step env id r1.1 r1.2
  let d := deleteSubtask envD id r2.2
  let r3 := Proc.step env id r2.1 d.2
  let r4 := Proc.step env id r3.1 r3.2
  Proc.step env id r4.1 r4.2

/-- A clock that reads `20, 21, 22, ...`. -/
def clock20 : Nat → Nat := fun k => 20 + k

/-- The two requests of a race at their start, over the store `db`. -/
def Sys.init (db : DB) : Sys := { db := db, a := Proc.start, b := Proc.start }

/-- A schedule in which both requests save their subtask before either loads
the subtasks of the task. -/
def scheduleBothSee : List Bool :=
  [true, true, false, false, true, true, true, false, false, false]

/-- An environment in which exactly the `n`-th store call of the handler fails. -/
def Env.failAt (n : Nat) : Env :=
  { f := fun k => k == n, clock := clock10, timeParse := fun _ => none,
    sqlTask := sqlOneIsOne, sqlSubtask := sqlOneIsOne, pgInt := fun _ => none }

/-- A trace that creates a task and a subtask from title-only bodies, then
completes the subtask. -/
def traceCreateComplete : List (Env × Request) :=
  [(Env.ok clock10, Request.addTask (some (titleOnlyTask "t"))),
   (Env.ok clock10, Request.addSubtask "1" (some (titleOnlySubtask "a"))),
   (Env.ok clock10, Request.completingSubtask "1")]

/-! ## Lemmas on the store calls -/

section StoreLemmas

theorem WF.task_inj {db : DB} (h : db.WF) {a b : TaskRow} (ha : a ∈ db.tasks) (hb : b ∈ db.tasks)
    (hab : a.ID = b.ID) : a = b :=
  List.inj_on_of_nodup_map h.1 ha hb hab

theorem WF.subtask_inj {db : DB} (h : db.WF) {a b : Subtask} (ha : a ∈ db.subtasks)
    (hb : b ∈ db.subtasks) (hab : a.ID = b.ID) : a = b :=
  List.inj_on_of_nodup_map h.2.1 ha hb hab

theorem find_task_some {rows : List TaskRow} {id : Nat} {r : TaskRow}
    (h : rows.find? (fun r => r.ID == id) = some r) : r ∈ rows ∧ r.ID = id := by
  refine ⟨List.mem_of_find?_eq_some h, ?_⟩
  have := List.find?_some h
  simpa using this

theorem find_subtask_some {rows : List Subtask} {id : Nat} {s : Subtask}
    (h : rows.find? (fun s => s.ID == id) = some s) : s ∈ rows ∧ s.ID = id := by
  refine ⟨List.mem_of_find?_eq_some h, ?_⟩
  have := List.find?_some h
  simpa using this

theorem find_task_of_mem {db : DB} (hwf : db.WF) {r : TaskRow} (hr : r ∈ db.tasks) :
    db.tasks.find? (fun x => x.ID == r.ID) = some r := by
  cases hf : db.tasks.find? (fun x => x.ID == r.ID) with
  | none =>
    rw [List.find?_eq_none] at hf
    exact absurd (by simp) (hf r hr)
  | some x =>
    obtain ⟨hx, hid⟩ := find_task_some hf
    rw [WF.task_inj hwf hx hr hid]

theorem find_subtask_of_mem {db : DB} (hwf : db.WF) {s : Subtask} (hs : s ∈ db.subtasks) :
    db.subtasks.find? (fun x => x.ID == s.ID) = some s := by
  cases hf : db.subtasks.find? (fun x => x.ID == s.ID) with
  | none =>
    rw [List.find?_eq_none] at hf
    exact absurd (by simp) (hf s hs)
  | some x =>
    obtain ⟨hx, hid⟩ := find_subtask_some hf
    rw [WF.subtask_inj hwf hx hs hid]

theorem keyIs_natCast (m id : Nat) : keyIs (m : Int) id = (id == m) := by
  unfold keyIs
  rw [Bool.eq_iff_iff]
  simp

theorem leastBy_mem {α : Type} (key : α → Nat) :
    ∀ (l : List α) {m : α}, leastBy key l = some m → m ∈ l := by
  intro l
  induction l with
  | nil => intro m h; simp [leastBy] at h
  | cons a rest ih =>
    intro m h
    simp only [leastBy] at h
    cases hr : leastBy key rest with
    | none =>
      rw [hr] at h
      simp only [Option.some.injEq] at h
      subst h
      exact List.mem_cons_self _ _
    | some x =>
      rw [hr] at h
      dsimp only at h
      split_ifs at h
      · simp only [Option.some.injEq] at h
        subst h
        exact List.mem_cons_of_mem _ (ih hr)
      · simp only [Option.some.injEq] at h
        subst h
        exact List.mem_cons_self _ _

theorem leastBy_head {α : Type} (key : α → Nat) (c : Nat) :
    ∀ l : List α, (∀ x ∈ l, key x = c) → leastBy key l = l.head? := by
  intro l
  induction l with
  | nil => intro _; rfl
  | cons a rest ih =>
    intro h
    simp only [leastBy, List.head?_cons]
    cases hr : leastBy key rest with
    | none => rfl
    | some x =>
      dsimp only
      have hx : key x = c := h x (List.mem_cons_of_mem _ (leastBy_mem key rest hr))
      have ha : key a = c := h a (List.mem_cons_self _ _)
      rw [hx, ha, if_neg (Nat.lt_irrefl c)]

theorem head?_filter_find? {α : Type} (p : α → Bool) (l : List α) :
    (l.filter p).head? = l.find? p := by
  induction l with
  | nil => rfl
  | cons a l ih => by_cases h : p a <;> simp [List.filter_cons, List.find?_cons, h, ih]

theorem leastBy_key {α : Type} (key : α → Nat) (p : α → Bool) (c : Nat) (l : List α)
    (h : ∀ x ∈ l, p x = true → key x = c) : leastBy key (l.filter p) = l.find? p := by
  rw [leastBy_head key c _ (fun x hx => h x (List.mem_of_mem_filter hx) (List.of_mem_filter hx)),
    head?_filter_find?]

theorem firstTask_atoi (db : DB) (env : Env) (fail : Bool) {id : String} {m : Nat}
    (h : atoi id = some (m : Int)) : db.firstTask env fail id = db.firstTaskKey fail m := by
  unfold DB.firstTask DB.firstTaskKey
  rw [h]
  dsimp only
  congr 1
  rw [leastBy_key TaskRow.ID _ m _ (fun x _ hx => by rw [keyIs_natCast] at hx; simpa using hx)]
  congr 1
  funext r
  exact keyIs_natCast m r.ID

theorem firstSubtask_atoi (db : DB) (env : Env) (fail : Bool) {id : String} {m : Nat}
    (h : atoi id = some (m : Int)) :
    db.firstSubtask env fail id
      = if fail then none else db.subtasks.find? (fun s => s.ID == m) := by
  unfold DB.firstSubtask
  rw [h]
  dsimp only
  congr 1
  rw [leastBy_key Subtask.ID _ m _ (fun x _ hx => by rw [keyIs_natCast] at hx; simpa using hx)]
  congr 1
  funext r
  exact keyIs_natCast m r.ID

theorem firstTask_mem {db : DB} {env : Env} {fail : Bool} {id : String} {r : TaskRow}
    (h : db.firstTask env fail id = some r) : r ∈ db.tasks ∧ fail = false := by
  unfold DB.firstTask at h
  cases fail with
  | true => simp at h
  | false =>
    refine ⟨?_, rfl⟩
    simp only [Bool.false_eq_true, if_false] at h
    split at h
    · exact List.mem_of_mem_filter (leastBy_mem _ _ h)
    · split_ifs at h
      · exact leastBy_mem _ _ h
      · split at h
        · cases h
        · exact List.mem_of_mem_filter (leastBy_mem _ _ h)

theorem firstSubtask_mem {db : DB} {env : Env} {fail : Bool} {id : String} {s : Subtask}
    (h : db.firstSubtask env fail id = some s) : s ∈ db.subtasks ∧ fail = false := by
  unfold DB.firstSubtask at h
  cases fail with
  | true => simp at h
  | false =>
    refine ⟨?_, rfl⟩
    simp only [Bool.false_eq_true, if_false] at h
    split at h
    · exact List.mem_of_mem_filter (leastBy_mem _ _ h)
    · split_ifs at h
      · exact leastBy_mem _ _ h
      · split at h
        · cases h
        · exact List.mem_of_mem_filter (leastBy_mem _ _ h)

theorem firstTask_key {db : DB} (hwf : db.WF) (env : Env) {id : String} {r : TaskRow}
    (hr : r ∈ db.tasks) (h : atoi id = some (r.ID : Int)) :
    db.firstTask env false id = some r := by
  rw [firstTask_atoi db env false h]
  simp only [DB.firstTaskKey, Bool.false_eq_true, if_false]
  exact find_task_of_mem hwf hr

theorem firstSubtask_key {db : DB} (hwf : db.WF) (env : Env) {id : String} {s : Subtask}
    (hs : s ∈ db.subtasks) (h : atoi id = some (s.ID : Int)) :
    db.firstSubtask env false id = some s := by
  rw [firstSubtask_atoi db env false h]
  simp only [Bool.false_eq_true, if_false]
  exact find_subtask_of_mem hwf hs

theorem readInt_atoi (env : Env) {id : String} {n : Int} (h : atoi id = some n) :
    env.readInt id = some n := by
  unfold Env.readInt
  rw [h]

theorem subtasksOf_natCast (db : DB) (m : Nat) :
    db.subtasks.filter (fun s => keyIs (m : Int) s.TaskID) = db.subtasksOf m := by
  unfold DB.subtasksOf
  congr 1
  funext s
  exact keyIs_natCast m s.TaskID

theorem findSubtasks_atoi (db : DB) (env : Env) (fail : Bool) {id : String} {m : Nat}
    (h : atoi id = some (m : Int)) :
    db.findSubtasks env fail id = if fail then none else some (db.subtasksOf m) := by
  unfold DB.findSubtasks
  rw [readInt_atoi env h]
  dsimp only
  rw [subtasksOf_natCast]

theorem deleteSubtask_atoi (db : DB) (env : Env) (fail : Bool) {id : String} {m : Nat}
    (h : atoi id = some (m : Int)) :
    db.deleteSubtask env fail id
      = if fail then none
        else some { db with subtasks := db.subtasks.filter (fun s => s.ID != m) } := by
  unfold DB.deleteSubtask
  rw [h]
  dsimp only
  have hf : db.subtasks.filter (fun s => !keyIs (m : Int) s.ID)
      = db.subtasks.filter (fun s => s.ID != m) := by
    congr 1
    funext s
    rw [keyIs_natCast]
    rfl
  rw [hf]

theorem deleteTask_atoi (db : DB) (env : Env) (fail : Bool) {id : String} {m : Nat}
    (h : atoi id = some (m : Int)) :
    db.deleteTask env fail id
      = if fail then none
        else if db.tasks.any (fun r => r.ID == m) && db.subtasks.any (fun s => s.TaskID == m)
          then none
          else some { db with tasks := db.tasks.filter (fun r => r.ID != m) } := by
  unfold DB.deleteTask DB.deleteTasksWhere
  rw [h]
  dsimp only
  have hc : db.tasks.any (fun r => keyIs (m : Int) r.ID
        && db.subtasks.any (fun s => s.TaskID == r.ID))
      = (db.tasks.any (fun r => r.ID == m) && db.subtasks.any (fun s => s.TaskID == m)) := by
    rw [Bool.eq_iff_iff]
    simp only [List.any_eq_true, Bool.and_eq_true, keyIs_natCast, beq_iff_eq]
    constructor
    · rintro ⟨r, hr, hrm, s, hs, hsr⟩
      exact ⟨⟨r, hr, hrm⟩, s, hs, hsr.trans hrm⟩
    · rintro ⟨⟨r, hr, hrm⟩, s, hs, hsm⟩
      exact ⟨r, hr, hrm, s, hs, hsm.trans hrm.symm⟩
  have hf : db.tasks.filter (fun r => !keyIs (m : Int) r.ID)
      = db.tasks.filter (fun r => r.ID != m) := by
    congr 1
    funext r
    rw [keyIs_natCast]
    rfl
  rw [hc, hf]

theorem valid_status_ne_empty {s : String} (h : validStatus s = true) : defaultStatus s = s := by
  unfold defaultStatus
  split
  · next he => subst he; simp [validStatus] at h
  · rfl

theorem assignSubtaskIDs_nonzero (seq : Nat) (l : List Subtask) (h : ∀ s ∈ l, s.ID ≠ 0) :
    assignSubtaskIDs seq l = (l, seq) := by
  induction l with
  | nil => rfl
  | cons a l ih =>
    have ha : a.ID ≠ 0 := h a (List.mem_cons_self _ _)
    have hl : ∀ s ∈ l, s.ID ≠ 0 := fun s hs => h s (List.mem_cons_of_mem _ hs)
    simp [assignSubtaskIDs, ha, ih hl]

theorem upsertRow_mem (rows : List Subtask) (hnd : (rows.map Subtask.ID).Nodup) (s : Subtask)
    (hs : s ∈ rows) : upsertRow rows s = rows := by
  unfold upsertRow
  have hany : rows.any (fun r => r.ID == s.ID) = true := by
    simp only [List.any_eq_true]; exact ⟨s, hs, by simp⟩
  rw [if_pos hany]
  conv_rhs => rw [← List.map_id rows]
  apply List.map_congr_left
  intro r hr
  by_cases h : r.ID = s.ID
  · have := List.inj_on_of_nodup_map hnd hr hs h
    subst this; simp
  · simp [h]

theorem foldl_upsertRow_mem (rows : List Subtask) (hnd : (rows.map Subtask.ID).Nodup)
    (l : List Subtask) (hl : ∀ s ∈ l, s ∈ rows) : l.foldl upsertRow rows = rows := by
  induction l with
  | nil => rfl
  | cons a l ih =>
    simp only [List.foldl_cons]
    rw [upsertRow_mem rows hnd a (hl a (List.mem_cons_self _ _))]
    exact ih (fun s hs => hl s (List.mem_cons_of_mem _ hs))

/-- Saving back the subtasks that `Preload` has just read changes nothing. -/
theorem upsertSubtasks_loaded (db : DB) (tasks : List TaskRow) (id : Nat)
    (hnd : (db.subtasks.map Subtask.ID).Nodup) (hnz : ∀ s ∈ db.subtasks, s.ID ≠ 0)
    (hv : ∀ s ∈ db.subtasks, s.valid = true)
    (hex : tasks.any (fun t => t.ID == id) = true) :
    DB.upsertSubtasks { db with tasks := tasks } id (db.subtasksOf id)
      = (some (db.subtasksOf id), { db with tasks := tasks }) := by
  unfold DB.upsertSubtasks
  cases hsub : db.subtasksOf id with
  | nil => rfl
  | cons a l =>
    have hmem : ∀ s ∈ a :: l, s ∈ db.subtasks ∧ s.TaskID = id := by
      intro s hs
      rw [← hsub] at hs
      simpa [DB.subtasksOf, List.mem_filter] using hs
    have hfk : (a :: l).map (fun s => { s with TaskID := id, Status := defaultStatus s.Status })
        = a :: l := by
      conv_rhs => rw [← List.map_id (a :: l)]
      apply List.map_congr_left
      intro s hs
      obtain ⟨hs1, hs2⟩ := hmem s hs
      have hvs := hv s hs1
      simp only [Subtask.valid, Bool.and_eq_true] at hvs
      rw [valid_status_ne_empty hvs.1, ← hs2]
      rfl
    simp only [hfk]
    rw [assignSubtaskIDs_nonzero _ _ (fun s hs => hnz s (hmem s hs).1)]
    have hall : (a :: l).all Subtask.valid = true := by
      rw [List.all_eq_true]; exact fun s hs => hv s (hmem s hs).1
    have hsl : List.Sublist (a :: l) db.subtasks := by
      rw [← hsub]; exact List.filter_sublist _
    have hnd2 : ((a :: l).map Subtask.ID).Nodup := (hsl.map Subtask.ID).nodup hnd
    simp only [hall, hnd2, hex, decide_True, Bool.and_self, if_true]
    rw [foldl_upsertRow_mem _ hnd _ (fun s hs => (hmem s hs).1)]

theorem any_task_of_mem {rows : List TaskRow} {r : TaskRow} (hr : r ∈ rows) :
    rows.any (fun x => x.ID == r.ID) = true := by
  simp only [List.any_eq_true]; exact ⟨r, hr, by simp⟩

theorem any_subtask_of_mem {rows : List Subtask} {s : Subtask} (hs : s ∈ rows) :
    rows.any (fun x => x.ID == s.ID) = true := by
  simp only [List.any_eq_true]; exact ⟨s, hs, by simp⟩

/-- A `Save` of a task whose row is stored, with `Subtasks` empty or as loaded by
`Preload`: the row is replaced and nothing else changes. -/
theorem saveTask_update {db : DB} (hwf : db.WF) (now : Nat) (task : Task) {r : TaskRow}
    (hr : r ∈ db.tasks) (hid : task.ID = r.ID) (hv : task.row.valid = true)
    (hsub : task.Subtasks = [] ∨ task.Subtasks = db.subtasksOf task.ID) :
    db.saveTask false now task
      = (some task, { db with tasks := setTask db.tasks task.ID (fun _ => task.row) }) := by
  have hnz : task.ID ≠ 0 := by rw [hid]; exact hwf.2.2.1 r hr
  have hany : db.tasks.any (fun x => x.ID == task.ID) = true := by
    rw [hid]; exact any_task_of_mem hr
  unfold DB.saveTask
  simp only [Bool.false_eq_true, if_false, hnz, hany, hv, if_true]
  rcases hsub with h | h
  · have htask : { task with Subtasks := [] } = task := by rw [← h]
    rw [h]
    simp only [DB.upsertSubtasks, setTask, htask]
  · have htask : { task with Subtasks := db.subtasksOf task.ID } = task := by rw [← h]
    have hex : (db.tasks.map (fun x => if x.ID == task.ID then task.row else x)).any
        (fun t => t.ID == task.ID) = true := by
      simp only [List.any_map, List.any_eq_true]
      exact ⟨r, hr, by simp [hid, Task.row]⟩
    have := upsertSubtasks_loaded db (db.tasks.map (fun x => if x.ID == task.ID then task.row else x))
      task.ID hwf.2.1 hwf.2.2.2.1 hwf.2.2.2.2.2.2 hex
    rw [h, this]
    simp only [setTask, htask]

/-- A `Save` of a subtask whose row is stored and whose parent is unchanged: the
row is replaced and nothing else changes. -/
theorem saveSubtask_update {db : DB} (hwf : db.WF) (sub : Subtask) {s : Subtask}
    (hs : s ∈ db.subtasks) (hid : sub.ID = s.ID) (hv : sub.valid = true)
    (hfk : sub.TaskID = s.TaskID) :
    db.saveSubtask false sub
      = (some sub, { db with subtasks := setSubtask db.subtasks sub.ID (fun _ => sub) }) := by
  have hnz : sub.ID ≠ 0 := by rw [hid]; exact hwf.2.2.2.1 s hs
  have hany : db.subtasks.any (fun x => x.ID == sub.ID) = true := by
    rw [hid]; exact any_subtask_of_mem hs
  obtain ⟨t, ht, htid⟩ := hwf.2.2.2.2.1 s hs
  have hpar : db.tasks.any (fun x => x.ID == sub.TaskID) = true := by
    rw [hfk, ← htid]; exact any_task_of_mem ht
  unfold DB.saveSubtask
  simp [hnz, hany, hv, hpar, setSubtask]

/-- A failed `Create` of a task leaves both tables as they were. -/
theorem createTask_none {db : DB} {fail : Bool} {now : Nat} {task : Task} {db1 : DB}
    (h : db.createTask fail now task = (none, db1)) :
    db1.tasks = db.tasks ∧ db1.subtasks = db.subtasks := by
  unfold DB.createTask at h
  split at h
  · cases h; exact ⟨rfl, rfl⟩
  · dsimp only at h
    split at h
    · split at h
      · cases h
      · cases h; exact ⟨rfl, rfl⟩
    · cases h; exact ⟨rfl, rfl⟩

/-- A failed `Create` of a subtask leaves both tables as they were. -/
theorem createSubtask_none {db : DB} {fail : Bool} {sub : Subtask} {db1 : DB}
    (h : db.createSubtask fail sub = (none, db1)) :
    db1.tasks = db.tasks ∧ db1.subtasks = db.subtasks := by
  unfold DB.createSubtask at h
  split at h
  · cases h; exact ⟨rfl, rfl⟩
  · dsimp only at h
    split at h
    · cases h
    · cases h; exact ⟨rfl, rfl⟩

/-- A failed `Save` of a task leaves both tables as they were. -/
theorem saveTask_none {db : DB} {fail : Bool} {now : Nat} {task : Task} {db1 : DB}
    (h : db.saveTask fail now task = (none, db1)) :
    db1.tasks = db.tasks ∧ db1.subtasks = db.subtasks := by
  unfold DB.saveTask at h
  split at h
  · cases h; exact ⟨rfl, rfl⟩
  · split at h
    · exact createTask_none h
    · split at h
      · split at h
        · dsimp only at h
          split at h
          · cases h
          · cases h; exact ⟨rfl, rfl⟩
        · cases h; exact ⟨rfl, rfl⟩
      · exact createTask_none h

/-- A failed `Save` of a subtask leaves both tables as they were. -/
theorem saveSubtask_none {db : DB} {fail : Bool} {sub : Subtask} {db1 : DB}
    (h : db.saveSubtask fail sub = (none, db1)) :
    db1.tasks = db.tasks ∧ db1.subtasks = db.subtasks := by
  unfold DB.saveSubtask at h
  split at h
  · cases h; exact ⟨rfl, rfl⟩
  · split at h
    · exact createSubtask_none h
    · split at h
      · split at h
        · cases h
        · cases h; exact ⟨rfl, rfl⟩
      · exact createSubtask_none h

end StoreLemmas

/-! ## The integrity constraints survive every table change -/

section Integrity

theorem WF_of_tables {db db1 : DB} (hwf : db.WF) (ht : db1.tasks = db.tasks)
    (hs : db1.subtasks = db.subtasks) : db1.WF := by
  unfold DB.WF at *
  rw [ht, hs]; exact hwf

theorem map_ID_setTask (rows : List TaskRow) (id : Nat) (g : TaskRow → TaskRow)
    (hg : ∀ r, (g r).ID = r.ID) : (setTask rows id g).map TaskRow.ID = rows.map TaskRow.ID := by
  unfold setTask
  rw [List.map_map]
  apply List.map_congr_left
  intro r _
  by_cases h : r.ID = id <;> simp [h, hg]

theorem map_ID_setSubtask (rows : List Subtask) (id : Nat) (g : Subtask → Subtask)
    (hg : ∀ r, (g r).ID = r.ID) : (setSubtask rows id g).map Subtask.ID = rows.map Subtask.ID := by
  unfold setSubtask
  rw [List.map_map]
  apply List.map_congr_left
  intro r _
  by_cases h : r.ID = id <;> simp [h, hg]

theorem mem_setTask {rows : List TaskRow} {id : Nat} {g : TaskRow → TaskRow} {x : TaskRow}
    (hx : x ∈ setTask rows id g) :
    ∃ r ∈ rows, (r.ID = id ∧ x = g r) ∨ (r.ID ≠ id ∧ x = r) := by
  unfold setTask at hx
  rw [List.mem_map] at hx
  obtain ⟨r, hr, hrx⟩ := hx
  refine ⟨r, hr, ?_⟩
  by_cases h : r.ID = id
  · left; simp [h] at hrx; exact ⟨h, hrx.symm⟩
  · right; simp [h] at hrx; exact ⟨h, hrx.symm⟩

theorem mem_setSubtask {rows : List Subtask} {id : Nat} {g : Subtask → Subtask} {x : Subtask}
    (hx : x ∈ setSubtask rows id g) :
    ∃ r ∈ rows, (r.ID = id ∧ x = g r) ∨ (r.ID ≠ id ∧ x = r) := by
  unfold setSubtask at hx
  rw [List.mem_map] at hx
  obtain ⟨r, hr, hrx⟩ := hx
  refine ⟨r, hr, ?_⟩
  by_cases h : r.ID = id
  · left; simp [h] at hrx; exact ⟨h, hrx.symm⟩
  · right; simp [h] at hrx; exact ⟨h, hrx.symm⟩

/-- Rewriting the row of one task, key kept, constraints met. -/
theorem WF_setTask {db : DB} (hwf : db.WF) (id : Nat) (g : TaskRow → TaskRow)
    (hid : ∀ r, (g r).ID = r.ID) (hv : ∀ r ∈ db.tasks, r.ID = id → (g r).valid = true) :
    DB.WF { db with tasks := setTask db.tasks id g } := by
  obtain ⟨h1, h2, h3, h4, h5, h6, h7⟩ := hwf
  refine ⟨?_, h2, ?_, h4, ?_, ?_, h7⟩
  · simpa [map_ID_setTask _ _ _ hid] using h1
  · intro x hx
    obtain ⟨r, hr, h | h⟩ := mem_setTask hx
    · rw [h.2, hid]; exact h3 r hr
    · rw [h.2]; exact h3 r hr
  · intro s hs
    obtain ⟨r, hr, hrs⟩ := h5 s hs
    have : r.ID ∈ (setTask db.tasks id g).map TaskRow.ID := by
      rw [map_ID_setTask _ _ _ hid]; exact List.mem_map_of_mem _ hr
    obtain ⟨x, hx, hxid⟩ := List.mem_map.mp this
    exact ⟨x, hx, hxid.trans hrs⟩
  · intro x hx
    obtain ⟨r, hr, h | h⟩ := mem_setTask hx
    · rw [h.2]; exact hv r hr h.1
    · rw [h.2]; exact h6 r hr

/-- Rewriting the row of one subtask, key and parent kept, constraints met. -/
theorem WF_setSubtask {db : DB} (hwf : db.WF) (id : Nat) (g : Subtask → Subtask)
    (hid : ∀ r, (g r).ID = r.ID) (hfk : ∀ r, (g r).TaskID = r.TaskID)
    (hv : ∀ r ∈ db.subtasks, r.ID = id → (g r).valid = true) :
    DB.WF { db with subtasks := setSubtask db.subtasks id g } := by
  obtain ⟨h1, h2, h3, h4, h5, h6, h7⟩ := hwf
  refine ⟨h1, ?_, h3, ?_, ?_, h6, ?_⟩
  · simpa [map_ID_setSubtask _ _ _ hid] using h2
  · intro x hx
    obtain ⟨r, hr, h | h⟩ := mem_setSubtask hx
    · rw [h.2, hid]; exact h4 r hr
    · rw [h.2]; exact h4 r hr
  · intro x hx
    obtain ⟨r, hr, h | h⟩ := mem_setSubtask hx
    · rw [h.2, hfk]; exact h5 r hr
    · rw [h.2]; exact h5 r hr
  · intro x hx
    obtain ⟨r, hr, h | h⟩ := mem_setSubtask hx
    · rw [h.2]; exact hv r hr h.1
    · rw [h.2]; exact h7 r hr

/-- Removing subtasks. -/
theorem WF_filterSubtasks {db : DB} (hwf : db.WF) (p : Subtask → Bool) :
    DB.WF { db with subtasks := db.subtasks.filter p } := by
  obtain ⟨h1, h2, h3, h4, h5, h6, h7⟩ := hwf
  refine ⟨h1, ?_, h3, ?_, ?_, h6, ?_⟩
  · exact ((List.filter_sublist _).map Subtask.ID).nodup h2
  · exact fun s hs => h4 s (List.mem_of_mem_filter hs)
  · exact fun s hs => h5 s (List.mem_of_mem_filter hs)
  · exact fun s hs => h7 s (List.mem_of_mem_filter hs)

/-- Removing the tasks that `p` selects, none of which a subtask references. -/
theorem WF_filterTasks {db : DB} (hwf : db.WF) (p : TaskRow → Bool)
    (hno : ∀ r ∈ db.tasks, p r = true → ∀ s ∈ db.subtasks, s.TaskID ≠ r.ID) :
    DB.WF { db with tasks := db.tasks.filter (fun r => !p r) } := by
  obtain ⟨h1, h2, h3, h4, h5, h6, h7⟩ := hwf
  refine ⟨?_, h2, ?_, h4, ?_, ?_, h7⟩
  · exact ((List.filter_sublist _).map TaskRow.ID).nodup h1
  · exact fun s hs => h3 s (List.mem_of_mem_filter hs)
  · intro s hs
    obtain ⟨r, hr, hrs⟩ := h5 s hs
    refine ⟨r, ?_, hrs⟩
    rw [List.mem_filter]
    refine ⟨hr, ?_⟩
    cases hp : p r with
    | false => rfl
    | true => exact absurd hrs.symm (hno r hr hp s hs)
  · exact fun s hs => h6 s (List.mem_of_mem_filter hs)

end Integrity

/-! ## Closed forms of the handlers on a consistent store -/

section ClosedForms

theorem setTask_const {db : DB} (hwf : db.WF) {r : TaskRow} (hr : r ∈ db.tasks)
    (g : TaskRow → TaskRow) :
    setTask db.tasks r.ID (fun _ => g r) = setTask db.tasks r.ID g := by
  unfold setTask
  apply List.map_congr_left
  intro x hx
  by_cases h : x.ID = r.ID
  · rw [WF.task_inj hwf hx hr h]
  · simp [h]

theorem setSubtask_const {db : DB} (hwf : db.WF) {s : Subtask} (hs : s ∈ db.subtasks)
    (g : Subtask → Subtask) :
    setSubtask db.subtasks s.ID (fun _ => g s) = setSubtask db.subtasks s.ID g := by
  unfold setSubtask
  apply List.map_congr_left
  intro x hx
  by_cases h : x.ID = s.ID
  · rw [WF.subtask_inj hwf hx hs h]
  · simp [h]

theorem valid_complete_sub {s : Subtask} (now : Nat) (h : s.valid = true) :
    (s.complete now).valid = true := by
  simp only [Subtask.valid, Subtask.complete, Bool.and_eq_true] at h ⊢
  exact ⟨by decide, h.2⟩

theorem valid_complete_task {r : TaskRow} (now : Nat) (h : r.valid = true) :
    (r.complete now).valid = true := by
  simp only [TaskRow.valid, TaskRow.complete, Bool.and_eq_true] at h ⊢
  exact ⟨by decide, h.2⟩

theorem WF_completeSubtask {db : DB} (hwf : db.WF) (id now : Nat) :
    DB.WF { db with subtasks := setSubtask db.subtasks id (Subtask.complete now) } :=
  WF_setSubtask hwf id _ (fun _ => rfl) (fun _ => rfl)
    (fun r hr _ => valid_complete_sub now (hwf.2.2.2.2.2.2 r hr))

theorem WF_completeTask {db : DB} (hwf : db.WF) (id now : Nat) :
    DB.WF { db with tasks := setTask db.tasks id (TaskRow.complete now) } :=
  WF_setTask hwf id _ (fun _ => rfl)
    (fun r hr _ => valid_complete_task now (hwf.2.2.2.2.2.1 r hr))

/-- On a consistent store, the complete-subtask handler run on a route
parameter that selects the stored subtask `s` is `completingSubtaskStored`. -/
theorem completingSubtask_stored {db : DB} (hwf : db.WF) (env : Env) {id : String} {s : Subtask}
    (hsel : db.firstSubtask env false id = some s) :
    completingSubtask env id db = completingSubtaskStored env s db := by
  have hs : s ∈ db.subtasks := (firstSubtask_mem hsel).1
  unfold completingSubtask completingSubtaskStored
  by_cases h0 : env.f 0 = true
  · simp [h0, DB.firstSubtask]
  have hfirst : db.firstSubtask env (env.f 0) id = some s := by
    have h0f : env.f 0 = false := by simpa using h0
    rw [h0f]; exact hsel
  rw [hfirst, if_neg h0]
  by_cases h1 : env.f 1 = true
  · simp [h1, DB.saveSubtask]
  have h1f : env.f 1 = false := by simpa using h1
  have hsave : db.saveSubtask false (s.complete (env.clock 0)) = (some (s.complete (env.clock 0)),
      { db with subtasks := setSubtask db.subtasks s.ID (Subtask.complete (env.clock 0)) }) := by
    rw [← setSubtask_const hwf hs (Subtask.complete (env.clock 0))]
    exact saveSubtask_update hwf (s.complete (env.clock 0)) hs rfl
      (valid_complete_sub (env.clock 0) (hwf.2.2.2.2.2.2 s hs)) rfl
  rw [if_neg h1]
  show (match db.saveSubtask (env.f 1) (s.complete (env.clock 0)) with
    | (none, db1) => _
    | (some subtask, db1) => _) = _
  rw [h1f, hsave]
  dsimp only
  by_cases h2 : env.f 2 = true
  · simp [h2, DB.preloadFirstTask]
  rw [if_neg h2]
  obtain ⟨r, hr, hrid⟩ := hwf.2.2.2.2.1 s hs
  have hwf1 := WF_completeSubtask hwf s.ID (env.clock 0)
  obtain ⟨db1, hdb1⟩ : ∃ db1 : DB, db1 = { db with subtasks :=
    (setSubtask db.subtasks s.ID (Subtask.complete (env.clock 0))) } := ⟨_, rfl⟩
  rw [← hdb1] at hwf1 ⊢
  have ht1 : db1.tasks = db.tasks := by rw [hdb1]
  have hr1 : r ∈ db1.tasks := by rw [ht1]; exact hr
  have hload : db1.preloadFirstTask (env.f 2) (s.complete (env.clock 0)).TaskID
      = some (r.load (db1.subtasksOf s.TaskID)) := by
    simp only [DB.preloadFirstTask, h2, if_false]
    show (match db1.tasks.find? (fun x => x.ID == s.TaskID) with
      | none => none
      | some r => some (r.load (db1.subtasksOf r.ID))) = _
    rw [← hrid, find_task_of_mem hwf1 hr1]
  rw [hload]
  dsimp only
  unfold checkAllSubtaskCompleted
  have hsubs : (r.load (db1.subtasksOf s.TaskID)).Subtasks = db1.subtasksOf s.TaskID := rfl
  rw [hsubs]
  by_cases hflag : flaggingCompleted (db1.subtasksOf s.TaskID) = true
  · rw [if_pos hflag, if_pos hflag]
    by_cases h3 : env.f 3 = true
    · simp [h3, DB.saveTask]
    have h3f : env.f 3 = false := by simpa using h3
    have hvr : (r.complete (env.clock 1)).valid = true :=
      valid_complete_task (env.clock 1) (hwf1.2.2.2.2.2.1 r hr1)
    have hsaveT := saveTask_update hwf1 (env.clock (1 + 1))
      ((r.complete (env.clock 1)).load (db1.subtasksOf s.TaskID)) hr1 rfl hvr
      (Or.inr (by rw [← hrid]; rfl))
    have hrow : ((r.complete (env.clock 1)).load (db1.subtasksOf s.TaskID)).row
        = (fun _ => r.complete (env.clock 1)) r := rfl
    have hidr : ((r.complete (env.clock 1)).load (db1.subtasksOf s.TaskID)).ID = r.ID := rfl
    rw [hrow, hidr, setTask_const hwf1 hr1 (TaskRow.complete (env.clock 1)), hrid, ht1] at hsaveT
    rw [if_neg h3]
    show (match ((match db1.saveTask (env.f 3) (env.clock (1 + 1))
        ((r.complete (env.clock 1)).load (db1.subtasksOf s.TaskID)) with
      | (none, db2) => (false, db2)
      | (some _, db2) => (true, db2)) : Bool × DB) with
    | (false, db2) => (_ : Response × DB)
    | (true, db2) => _) = _
    rw [h3f, hsaveT]
    subst hdb1
    rfl
  · rw [if_neg hflag, if_neg hflag]

end ClosedForms

/-! ## C1: the completion decision -/

section Propagation

theorem flaggingCompleted_iff (l : List Subtask) :
    flaggingCompleted l = true ↔ ∀ st ∈ l, st.Status = "completed" := by
  induction l with
  | nil => simp [flaggingCompleted]
  | cons a l ih =>
    unfold flaggingCompleted
    by_cases h : a.Status = "completed"
    · simp [h, ih]
    · simp [h]

theorem task?_setTask {db : DB} (hwf : db.WF) {r : TaskRow} (hr : r ∈ db.tasks)
    (g : TaskRow → TaskRow) (hg : ∀ x, (g x).ID = x.ID)
    (hv : ∀ x ∈ db.tasks, x.ID = r.ID → (g x).valid = true) :
    DB.task? { db with tasks := setTask db.tasks r.ID g } r.ID = some (g r) := by
  have hwf1 := WF_setTask hwf r.ID g hg hv
  have hmem : g r ∈ setTask db.tasks r.ID g := by
    unfold setTask
    exact List.mem_map.mpr ⟨r, hr, by simp⟩
  have := find_task_of_mem hwf1 hmem
  rw [hg] at this
  exact this

theorem preload_some {db : DB} {id : Nat} {task : Task}
    (h : db.preloadFirstTask false id = some task) :
    ∃ r ∈ db.tasks, r.ID = id ∧ task = r.load (db.subtasksOf id) := by
  simp only [DB.preloadFirstTask, Bool.false_eq_true, if_false] at h
  cases hf : db.tasks.find? (fun r => r.ID == id) with
  | none => rw [hf] at h; cases h
  | some r =>
    rw [hf] at h
    obtain ⟨hr, hid⟩ := find_task_some hf
    refine ⟨r, hr, hid, ?_⟩
    simp only [Option.some.injEq] at h
    rw [← h, hid]

/-- C1 (amended): the propagation step of the complete-subtask handler, run on
an ongoing task as loaded with its subtasks `S` and with its save succeeding,
leaves the task completed if and only if every element of `S` is completed
(which the empty `S` satisfies), and leaves it ongoing as soon as one element
of `S` is not completed. -/
theorem checkAllSubtaskCompleted_completes_iff_all {db : DB} (hwf : db.WF) (env : Env)
    (k t id : Nat) (task : Task) (hload : db.preloadFirstTask false id = some task)
    (hong : task.Status = "ongoing") (hk : env.f k = false) :
    ∃ db1 r1, checkAllSubtaskCompleted env k t task db = (true, db1) ∧
      db1.task? id = some r1 ∧
      (r1.Status = "completed" ↔ ∀ st ∈ task.Subtasks, st.Status = "completed") ∧
      ((∃ st ∈ task.Subtasks, st.Status ≠ "completed") → r1.Status = "ongoing") := by
  obtain ⟨r, hr, hid, htask⟩ := preload_some hload
  subst hid
  have hrs : r.Status = "ongoing" := by rw [htask] at hong; exact hong
  unfold checkAllSubtaskCompleted
  by_cases hflag : flaggingCompleted task.Subtasks = true
  · rw [if_pos hflag]
    have hvr : (r.complete (env.clock t)).valid = true :=
      valid_complete_task (env.clock t) (hwf.2.2.2.2.2.1 r hr)
    have hsave := saveTask_update hwf (env.clock (t + 1))
      ((r.complete (env.clock t)).load (db.subtasksOf r.ID)) hr rfl hvr (Or.inr rfl)
    have h1 : ({ task with Status := "completed", CompletedAt := some (env.clock t) } : Task)
        = (r.complete (env.clock t)).load (db.subtasksOf r.ID) := by rw [htask]; rfl
    have hrow : ((r.complete (env.clock t)).load (db.subtasksOf r.ID)).row
        = (fun _ => r.complete (env.clock t)) r := rfl
    have hidr : ((r.complete (env.clock t)).load (db.subtasksOf r.ID)).ID = r.ID := rfl
    rw [hrow, hidr, setTask_const hwf hr (TaskRow.complete (env.clock t))] at hsave
    dsimp only
    rw [h1, hk, hsave]
    refine ⟨_, r.complete (env.clock t), rfl, ?_, ?_, ?_⟩
    · exact task?_setTask hwf hr (TaskRow.complete (env.clock t)) (fun _ => rfl)
        (fun x hx _ => valid_complete_task _ (hwf.2.2.2.2.2.1 x hx))
    · exact ⟨fun _ => (flaggingCompleted_iff _).mp hflag, fun _ => rfl⟩
    · rintro ⟨st, hst, hne⟩
      exact absurd ((flaggingCompleted_iff _).mp hflag st hst) hne
  · rw [if_neg hflag]
    refine ⟨db, r, rfl, find_task_of_mem hwf hr, ?_, fun _ => hrs⟩
    rw [← flaggingCompleted_iff]
    constructor
    · intro h; rw [hrs] at h; exact absurd h (by decide)
    · intro h; exact absurd h hflag

/-- C1, witness: the propagation step on the task of `dbTwoSubtasks`, whose
two subtasks are ongoing. -/
theorem checkAllSubtaskCompleted_completes_iff_all_witness :
    ∃ db1 r1, checkAllSubtaskCompleted (Env.ok clock10) 3 1
        { ID := 1, Title := "t", Status := "ongoing", Deadline := none, CreatedAt := some 0,
          CompletedAt := none, Subtasks := dbTwoSubtasks.subtasks } dbTwoSubtasks = (true, db1) ∧
      db1.task? 1 = some r1 ∧
      (r1.Status = "completed" ↔ ∀ st ∈ dbTwoSubtasks.subtasks, st.Status = "completed") ∧
      ((∃ st ∈ dbTwoSubtasks.subtasks, st.Status ≠ "completed") → r1.Status = "ongoing") :=
  @checkAllSubtaskCompleted_completes_iff_all dbTwoSubtasks (by decide) (Env.ok clock10)
    3 1 1 _ (by decide) rfl rfl

/-- C1, counterexample: a task loaded with the empty sequence of subtasks is
ongoing before the propagation step and completed after it. -/
theorem checkAllSubtaskCompleted_empty_completes :
    dbLoneTask.preloadFirstTask false 1
        = some { ID := 1, Title := "t", Status := "ongoing", Deadline := none,
                 CreatedAt := some 0, CompletedAt := none, Subtasks := [] } ∧
      (checkAllSubtaskCompleted (Env.ok clock10) 3 1
        { ID := 1, Title := "t", Status := "ongoing", Deadline := none,
          CreatedAt := some 0, CompletedAt := none, Subtasks := [] } dbLoneTask).2.task? 1
        = some { ID := 1, Title := "t", Status := "completed", Deadline := none,
                 CreatedAt := some 0, CompletedAt := some 11 } := by
  decide

end Propagation

/-! ## C2: completing the subtasks of a task one after the other -/

section Sequential

theorem mem_setSubtask_of_ne {rows : List Subtask} {id : Nat} {g : Subtask → Subtask}
    {r : Subtask} (hr : r ∈ rows) (hne : r.ID ≠ id) : r ∈ setSubtask rows id g := by
  unfold setSubtask
  exact List.mem_map.mpr ⟨r, hr, by simp [hne]⟩

/-- The complete-subtask handler with no failing store call, on a stored subtask. -/
theorem completingSubtask_ok {db : DB} (hwf : db.WF) (env : Env) (hok : ∀ k, env.f k = false)
    {id : String} {s : Subtask} (hsel : db.firstSubtask env false id = some s) :
    (completingSubtask env id db).2 =
      if flaggingCompleted (DB.subtasksOf
          { db with subtasks := (setSubtask db.subtasks s.ID (Subtask.complete (env.clock 0))) }
          s.TaskID) then
        { db with subtasks := (setSubtask db.subtasks s.ID (Subtask.complete (env.clock 0))),
                  tasks := (setTask db.tasks s.TaskID (TaskRow.complete (env.clock 1))) }
      else { db with subtasks := (setSubtask db.subtasks s.ID (Subtask.complete (env.clock 0))) } := by
  rw [completingSubtask_stored hwf env hsel]
  unfold completingSubtaskStored
  simp only [hok, Bool.false_eq_true, if_false]
  split <;> rfl

theorem run_completions_aux (t : TaskRow) (key : String → Nat) :
    ∀ (trace : List (Env × String)) (db : DB), db.WF → t ∈ db.tasks →
      (∀ p ∈ trace, atoi p.2 = some (key p.2 : Int)) →
      (trace.map (fun p => key p.2)).Nodup →
      (∀ id, id ∈ trace.map (fun p => key p.2) ↔
        ∃ s ∈ db.subtasks, s.TaskID = t.ID ∧ s.Status ≠ "completed" ∧ s.ID = id) →
      trace ≠ [] → (∀ e ∈ trace, ∀ k, e.1.f k = false) →
      (∀ k < trace.length, (run (completions (trace.take k)) db).task? t.ID = some t) ∧
      ∃ now, (run (completions trace) db).task? t.ID = some (t.complete now) := by
  intro trace
  induction trace with
  | nil => intro db _ _ _ _ _ hne; exact absurd rfl hne
  | cons p rest ih =>
    intro db hwf ht hkey hnd hcover _ hok
    obtain ⟨e, i⟩ := p
    have hoke : ∀ k, e.f k = false := hok (e, i) (List.mem_cons_self _ _)
    have hi : atoi i = some (key i : Int) := hkey (e, i) (List.mem_cons_self _ _)
    obtain ⟨s, hs, hst, hsnc, hsid⟩ := (hcover (key i)).mp (by simp)
    have hsel : db.firstSubtask e false i = some s :=
      firstSubtask_key hwf e hs (by rw [hsid]; exact hi)
    have hstep : (handle e (Request.completingSubtask i) db).2
        = (completingSubtask e i db).2 := rfl
    have hrun : ∀ l : List (Env × String), run (completions ((e, i) :: l)) db
        = run (completions l) (completingSubtask e i db).2 := fun l => rfl
    have hzero : (run (completions (List.take 0 ((e, i) :: rest))) db).task? t.ID = some t :=
      find_task_of_mem hwf ht
    have hwf1 := WF_completeSubtask hwf s.ID (e.clock 0)
    simp only [List.map_cons, List.nodup_cons] at hnd
    by_cases hrest : rest = []
    · -- the last subtask: every subtask of the task is now completed
      subst hrest
      have hflag : flaggingCompleted (DB.subtasksOf
          { db with subtasks := (setSubtask db.subtasks s.ID (Subtask.complete (e.clock 0))) }
          s.TaskID) = true := by
        rw [flaggingCompleted_iff]
        intro x hx
        simp only [DB.subtasksOf, List.mem_filter, beq_iff_eq] at hx
        obtain ⟨r, hr, h | h⟩ := mem_setSubtask hx.1
        · rw [h.2]; rfl
        · by_contra hnc
          rw [h.2] at hx hnc
          have := (hcover r.ID).mpr ⟨r, hr, hx.2.trans hst, hnc, rfl⟩
          simp at this
          exact h.1 (this.trans hsid.symm)
      refine ⟨?_, e.clock 1, ?_⟩
      · intro k hk
        have : k = 0 := by simpa using hk
        subst this; exact hzero
      · rw [hrun, completingSubtask_ok hwf e hoke hsel, if_pos hflag, hst]
        exact task?_setTask hwf ht (TaskRow.complete (e.clock 1)) (fun _ => rfl)
          (fun x hx _ => valid_complete_task _ (hwf.2.2.2.2.2.1 x hx))
    · -- a subtask of the task is still to be completed
      obtain ⟨q, hq⟩ := List.exists_mem_of_ne_nil rest hrest
      have hqi : key q.2 ∈ rest.map (fun p => key p.2) :=
        List.mem_map.mpr ⟨q, hq, rfl⟩
      obtain ⟨s2, hs2, hs2t, hs2nc, hs2id⟩ := (hcover (key q.2)).mp (List.mem_cons_of_mem _ hqi)
      have hs2ne : s2.ID ≠ s.ID := by
        intro h
        refine hnd.1 ?_
        rw [← hsid, ← h, hs2id]
        exact hqi
      have hflag : ¬ flaggingCompleted (DB.subtasksOf
          { db with subtasks := (setSubtask db.subtasks s.ID (Subtask.complete (e.clock 0))) }
          s.TaskID) = true := by
        rw [flaggingCompleted_iff]
        intro h
        refine hs2nc (h s2 ?_)
        simp only [DB.subtasksOf, List.mem_filter, beq_iff_eq]
        exact ⟨mem_setSubtask_of_ne hs2 hs2ne, hs2t.trans hst.symm⟩
      have hdb1 : (completingSubtask e i db).2
          = { db with subtasks := (setSubtask db.subtasks s.ID (Subtask.complete (e.clock 0))) } := by
        rw [completingSubtask_ok hwf e hoke hsel, if_neg hflag]
      have hcover1 : ∀ id, id ∈ rest.map (fun p => key p.2) ↔
          ∃ x ∈ setSubtask db.subtasks s.ID (Subtask.complete (e.clock 0)),
            x.TaskID = t.ID ∧ x.Status ≠ "completed" ∧ x.ID = id := by
        intro id
        constructor
        · intro hid
          obtain ⟨x, hx, hxt, hxnc, hxid⟩ := (hcover id).mp (List.mem_cons_of_mem _ hid)
          have hne : x.ID ≠ s.ID := by
            intro h
            refine hnd.1 ?_
            rw [← hsid, ← h, hxid]
            exact hid
          exact ⟨x, mem_setSubtask_of_ne hx hne, hxt, hxnc, hxid⟩
        · rintro ⟨x, hx, hxt, hxnc, hxid⟩
          obtain ⟨r, hr, h | h⟩ := mem_setSubtask hx
          · rw [h.2] at hxnc; exact absurd rfl hxnc
          · rw [h.2] at hxt hxnc hxid
            have := (hcover id).mpr ⟨r, hr, hxt, hxnc, hxid⟩
            simp only [List.map_cons, List.mem_cons] at this
            rcases this with h2 | h2
            · exact absurd (hxid.trans (h2.trans hsid.symm)) h.1
            · exact h2
      have hih := ih _ hwf1 ht (fun p hp => hkey p (List.mem_cons_of_mem _ hp)) hnd.2 hcover1 hrest
        (fun e2 he2 => hok e2 (List.mem_cons_of_mem _ he2))
      refine ⟨?_, ?_⟩
      · intro k hk
        cases k with
        | zero => exact hzero
        | succ k =>
          rw [List.take_succ_cons, hrun, hdb1]
          exact hih.1 k (by simpa using hk)
      · rw [hrun, hdb1]; exact hih.2

/-- C2: in a store with an ongoing task whose subtasks are all ongoing and are
the `n ≥ 1` subtasks named, each once, by the route parameters of `trace`
(each a number that is the key of a subtask of the task), completing them one
after the other in the order of `trace` (no store call failing, nothing in
between) leaves the task ongoing after each of the first `n - 1` completions
and completed after the `n`-th. -/
theorem sequential_completion_propagates {db : DB} (hwf : db.WF) {t : TaskRow}
    (ht : t ∈ db.tasks) (hong : t.Status = "ongoing") (trace : List (Env × String))
    (hall : ∀ s ∈ db.subtasks, s.TaskID = t.ID → s.Status = "ongoing")
    (hnd : (trace.map (fun p => atoi p.2)).Nodup)
    (hnames : ∀ p ∈ trace, ∃ s ∈ db.subtasks, s.TaskID = t.ID ∧ atoi p.2 = some (s.ID : Int))
    (hcover : ∀ s ∈ db.subtasks, s.TaskID = t.ID → ∃ p ∈ trace, atoi p.2 = some (s.ID : Int))
    (hne : 1 ≤ trace.length) (hok : ∀ e ∈ trace, ∀ k, e.1.f k = false) :
    ∀ k ≤ trace.length, ∃ r, (run (completions (trace.take k)) db).task? t.ID = some r ∧
      r.Status = if k = trace.length then "completed" else "ongoing" := by
  obtain ⟨key, hkeydef⟩ : ∃ key : String → Nat, key = fun i => ((atoi i).getD 0).toNat :=
    ⟨_, rfl⟩
  have hkey : ∀ p ∈ trace, atoi p.2 = some (key p.2 : Int) := by
    intro p hp
    obtain ⟨s, _, _, hs⟩ := hnames p hp
    rw [hkeydef]
    simp [hs]
  have hnd2 : (trace.map (fun p => key p.2)).Nodup := by
    have h : (List.map (fun o : Option Int => (o.getD 0).toNat)
        (trace.map (fun p => atoi p.2))).Nodup := by
      refine List.Nodup.map_on ?_ hnd
      intro x hx y hy hxy
      obtain ⟨p, hp, rfl⟩ := List.mem_map.mp hx
      obtain ⟨q, hq, rfl⟩ := List.mem_map.mp hy
      obtain ⟨s, _, _, hs⟩ := hnames p hp
      obtain ⟨s2, _, _, hs2⟩ := hnames q hq
      rw [hs, hs2] at hxy ⊢
      simp at hxy
      rw [hxy]
    rw [List.map_map] at h
    rw [hkeydef]
    exact h
  have hcover2 : ∀ id, id ∈ trace.map (fun p => key p.2) ↔
      ∃ s ∈ db.subtasks, s.TaskID = t.ID ∧ s.Status ≠ "completed" ∧ s.ID = id := by
    intro id
    constructor
    · intro h
      obtain ⟨p, hp, hpid⟩ := List.mem_map.mp h
      obtain ⟨s, hs, hst, hsid⟩ := hnames p hp
      refine ⟨s, hs, hst, by rw [hall s hs hst]; decide, ?_⟩
      have := hkey p hp
      rw [hsid] at this
      simp only [Option.some.injEq, Nat.cast_inj] at this
      rw [this]; exact hpid
    · rintro ⟨s, hs, hst, _, hsid⟩
      obtain ⟨p, hp, hps⟩ := hcover s hs hst
      refine List.mem_map.mpr ⟨p, hp, ?_⟩
      have := hkey p hp
      rw [hps] at this
      simp only [Option.some.injEq, Nat.cast_inj] at this
      rw [← this]; exact hsid
  have hne2 : trace ≠ [] := by
    intro h; rw [h] at hne; simp at hne
  obtain ⟨h1, now, h2⟩ := run_completions_aux t key trace db hwf ht hkey hnd2 hcover2 hne2 hok
  intro k hk
  by_cases hkn : k = trace.length
  · refine ⟨t.complete now, ?_, by simp [hkn, TaskRow.complete]⟩
    rw [hkn, List.take_length]; exact h2
  · exact ⟨t, h1 k (lt_of_le_of_ne hk hkn), by simp [hkn, hong]⟩

/-- C2, witness: the two subtasks of `dbTwoSubtasks`, completed second first. -/
theorem sequential_completion_propagates_witness :
    dbTwoSubtasks.WF ∧ ∀ k ≤ 2, ∃ r, (run (completions
        ([(Env.ok clock10, "2"), (Env.ok clock10, "1")].take k)) dbTwoSubtasks).task? 1 = some r ∧
      r.Status = if k = 2 then "completed" else "ongoing" :=
  ⟨by decide, @sequential_completion_propagates dbTwoSubtasks (by decide)
    { ID := 1, Title := "t", Status := "ongoing", Deadline := none,
      CreatedAt := some 0, CompletedAt := none } (by decide) rfl
    [(Env.ok clock10, "2"), (Env.ok clock10, "1")] (by decide) (by decide)
    (by
      intro p hp
      simp only [List.mem_cons, List.mem_nil_iff, or_false] at hp
      rcases hp with h | h
      · exact ⟨_, List.mem_cons_of_mem _ (List.mem_cons_self _ _), rfl, by rw [h]; decide⟩
      · exact ⟨_, List.mem_cons_self _ _, rfl, by rw [h]; decide⟩)
    (by
      intro s hs _
      simp only [dbTwoSubtasks, List.mem_cons, List.mem_nil_iff, or_false] at hs
      rcases hs with h | h
      · exact ⟨_, List.mem_cons_of_mem _ (List.mem_cons_self _ _), by rw [h]; decide⟩
      · exact ⟨_, List.mem_cons_self _ _, by rw [h]; decide⟩)
    (by decide)
    (by
      intro e he k
      simp only [List.mem_cons, List.mem_nil_iff, or_false] at he
      rcases he with h | h <;> rw [h] <;> rfl)⟩

end Sequential

/-! ## C9, C5: completing a task, and completing a subtask of a completed task -/

section Completing

/-- A `Save` of a task just read with `First` (no `Subtasks`) and then edited,
key kept: it fails when the call fails or the new row breaks a column
constraint, and otherwise rewrites that row. -/
theorem saveTask_loaded {db : DB} (hwf : db.WF) (fail : Bool) (now : Nat) (task : Task)
    {r : TaskRow} (hr : r ∈ db.tasks) (hid : task.ID = r.ID) (hsub : task.Subtasks = []) :
    db.saveTask fail now task =
      if fail = true ∨ task.row.valid = false then (none, db)
      else (some task, { db with tasks := setTask db.tasks r.ID (fun _ => task.row) }) := by
  by_cases hf : fail = true
  · simp [hf, DB.saveTask]
  have hff : fail = false := by simpa using hf
  by_cases hv : task.row.valid = true
  · rw [hff, saveTask_update hwf now task hr hid hv (Or.inl hsub), hid]
    simp [hv]
  · have hvf : task.row.valid = false := by simpa using hv
    have hnz : task.ID ≠ 0 := by rw [hid]; exact hwf.2.2.1 r hr
    have hany : db.tasks.any (fun x => x.ID == task.ID) = true := by
      rw [hid]; exact any_task_of_mem hr
    simp only [hvf, or_true, if_true]
    unfold DB.saveTask
    simp [hff, hnz, hany, hvf]

/-- A `Save` of a subtask just read with `First` and then edited, key and parent
kept. -/
theorem saveSubtask_loaded {db : DB} (hwf : db.WF) (fail : Bool) (sub : Subtask)
    {s : Subtask} (hs : s ∈ db.subtasks) (hid : sub.ID = s.ID) (hfk : sub.TaskID = s.TaskID) :
    db.saveSubtask fail sub =
      if fail = true ∨ sub.valid = false then (none, db)
      else (some sub, { db with subtasks := setSubtask db.subtasks s.ID (fun _ => sub) }) := by
  by_cases hf : fail = true
  · simp [hf, DB.saveSubtask]
  have hff : fail = false := by simpa using hf
  by_cases hv : sub.valid = true
  · rw [hff, saveSubtask_update hwf sub hs hid hv hfk, hid]
    simp [hv]
  · have hvf : sub.valid = false := by simpa using hv
    have hnz : sub.ID ≠ 0 := by rw [hid]; exact hwf.2.2.2.1 s hs
    have hany : db.subtasks.any (fun x => x.ID == sub.ID) = true := by
      rw [hid]; exact any_subtask_of_mem hs
    simp only [hvf, or_true, if_true]
    unfold DB.saveSubtask
    simp [hff, hnz, hany, hvf]

theorem task?_setTask_ne (rows : List TaskRow) (i id : Nat) (g : TaskRow → TaskRow)
    (hg : ∀ x, (g x).ID = x.ID) (hne : id ≠ i) :
    (setTask rows i g).find? (fun r => r.ID == id) = rows.find? (fun r => r.ID == id) := by
  unfold setTask
  induction rows with
  | nil => rfl
  | cons a l ih =>
    simp only [List.map_cons, List.find?_cons]
    by_cases h2 : a.ID = id
    · have hni : (a.ID == i) = false := by
        simpa using fun h => hne (h2.symm.trans h)
      have e3 : (a.ID == id) = true := by simpa using h2
      rw [hni]
      simp only [Bool.false_eq_true, if_false, e3]
    · have e1 : (if (a.ID == i) = true then g a else a).ID = a.ID := by
        split <;> simp [hg]
      have e2 : ((if (a.ID == i) = true then g a else a).ID == id) = false := by
        rw [e1]; simpa using h2
      have e3 : (a.ID == id) = false := by simpa using h2
      rw [e2, e3]
      exact ih

/-- Closed form of the complete-task handler on a route parameter that selects
the stored task `t`. -/
theorem completingTask_stored {db : DB} (hwf : db.WF) (env : Env) {id : String} {t : TaskRow}
    (hsel : db.firstTask env false id = some t) :
    completingTask env id db =
      if env.f 0 = true then (badRequest "Failed to get data", db)
      else if env.f 1 = true then (badRequest "Failed to save data", db)
      else
        ({ status := 200, message := "Task successfully completed",
           payload := Payload.task ((t.complete (env.clock 0)).load []) },
         { db with tasks := setTask db.tasks t.ID (TaskRow.complete (env.clock 0)) }) := by
  have ht : t ∈ db.tasks := (firstTask_mem hsel).1
  unfold completingTask
  by_cases h0 : env.f 0 = true
  · simp [h0, DB.firstTask]
  have hfirst : db.firstTask env (env.f 0) id = some t := by
    have h0f : env.f 0 = false := by simpa using h0
    rw [h0f]; exact hsel
  rw [hfirst, if_neg h0]
  have hsave := saveTask_loaded hwf (env.f 1) (env.clock 1) ((t.complete (env.clock 0)).load [])
    ht rfl rfl
  have hv : ((t.complete (env.clock 0)).load []).row.valid = true :=
    @valid_complete_task t (env.clock 0) (hwf.2.2.2.2.2.1 t ht)
  have hrow : ((t.complete (env.clock 0)).load []).row
      = (fun _ => t.complete (env.clock 0)) t := rfl
  rw [hv, hrow, setTask_const hwf ht (TaskRow.complete (env.clock 0))] at hsave
  show (match db.saveTask (env.f 1) (env.clock 1) ((t.complete (env.clock 0)).load []) with
    | (none, db1) => (_ : Response × DB)
    | (some task, db1) => _) = _
  rw [hsave]
  by_cases h1 : env.f 1 = true
  · simp [h1]
  · simp [h1]

/-- C9: on a consistent store, whatever the subtasks of a stored task `t`, a
successful `completeTask(t.id)` (the route parameter `id` is a number that
reads as the key of `t`) leaves `t` with status completed and completedAt
equal to the time read by the operation, every field of `t` other than these
two as it was, every other task as it was and the subtask table as it was; and
the operation is successful when neither of its two store calls fails. -/
theorem completingTask_effect {db : DB} (hwf : db.WF) (env : Env) {t : TaskRow}
    (ht : t ∈ db.tasks) {id : String} (hid : atoi id = some (t.ID : Int)) :
    (env.f 0 = false → env.f 1 = false → (completingTask env id db).1.status = 200) ∧
    ((completingTask env id db).1.status = 200 →
      (completingTask env id db).2.task? t.ID
        = some { t with Status := "completed", CompletedAt := some (env.clock 0) } ∧
      (∀ k, k ≠ t.ID → (completingTask env id db).2.task? k = db.task? k) ∧
      (completingTask env id db).2.subtasks = db.subtasks ∧
      (completingTask env id db).2.tasks.length = db.tasks.length) := by
  rw [completingTask_stored hwf env (firstTask_key hwf env ht hid)]
  refine ⟨fun h0 h1 => by simp [h0, h1], fun hsucc => ?_⟩
  by_cases h0 : env.f 0 = true
  · rw [if_pos h0] at hsucc; simp [badRequest] at hsucc
  rw [if_neg h0] at hsucc ⊢
  by_cases h1 : env.f 1 = true
  · rw [if_pos h1] at hsucc; simp [badRequest] at hsucc
  rw [if_neg h1]
  refine ⟨?_, ?_, rfl, ?_⟩
  · exact task?_setTask hwf ht (TaskRow.complete (env.clock 0)) (fun _ => rfl)
      (fun x hx _ => valid_complete_task _ (hwf.2.2.2.2.2.1 x hx))
  · intro id hne
    exact task?_setTask_ne db.tasks t.ID id _ (fun _ => rfl) hne
  · simp [setTask]

/-- C9, witness: completing the task of `dbTwoSubtasks`, whose subtasks are
both ongoing. -/
theorem completingTask_effect_witness :
    dbTwoSubtasks.WF ∧ atoi "1" = some 1 ∧
    (completingTask (Env.ok clock10) "1" dbTwoSubtasks).1.status = 200 ∧
    (completingTask (Env.ok clock10) "1" dbTwoSubtasks).2.task? 1
        = some { ID := 1, Title := "t", Status := "completed", Deadline := none,
                 CreatedAt := some 0, CompletedAt := some 10 } ∧
      (∀ id, id ≠ 1 → (completingTask (Env.ok clock10) "1" dbTwoSubtasks).2.task? id
        = dbTwoSubtasks.task? id) ∧
      (completingTask (Env.ok clock10) "1" dbTwoSubtasks).2.subtasks = dbTwoSubtasks.subtasks ∧
      (completingTask (Env.ok clock10) "1" dbTwoSubtasks).2.tasks.length
        = dbTwoSubtasks.tasks.length :=
  ⟨by decide, by decide,
    (@completingTask_effect dbTwoSubtasks (by decide) (Env.ok clock10)
      { ID := 1, Title := "t", Status := "ongoing", Deadline := none,
        CreatedAt := some 0, CompletedAt := none } (by decide) "1" (by decide)).1 rfl rfl,
    (@completingTask_effect dbTwoSubtasks (by decide) (Env.ok clock10)
      { ID := 1, Title := "t", Status := "ongoing", Deadline := none,
        CreatedAt := some 0, CompletedAt := none } (by decide) "1" (by decide)).2 (by decide)⟩

/-- A successful complete-subtask request on a stored subtask: the subtask row
is rewritten, and the parent row is rewritten when the flag is set. -/
theorem completingSubtask_success {db : DB} (hwf : db.WF) (env : Env) {id : String}
    {s : Subtask} (hsel : db.firstSubtask env false id = some s)
    (hsucc : (completingSubtask env id db).1.status = 200) :
    (completingSubtask env id db).2 =
      if flaggingCompleted (DB.subtasksOf
          { db with subtasks := (setSubtask db.subtasks s.ID (Subtask.complete (env.clock 0))) }
          s.TaskID) then
        { db with subtasks := (setSubtask db.subtasks s.ID (Subtask.complete (env.clock 0))),
                  tasks := (setTask db.tasks s.TaskID (TaskRow.complete (env.clock 1))) }
      else { db with subtasks := (setSubtask db.subtasks s.ID (Subtask.complete (env.clock 0))) } := by
  rw [completingSubtask_stored hwf env hsel] at hsucc ⊢
  unfold completingSubtaskStored at hsucc ⊢
  by_cases h0 : env.f 0 = true
  · rw [if_pos h0] at hsucc; simp [badRequest] at hsucc
  rw [if_neg h0] at hsucc ⊢
  by_cases h1 : env.f 1 = true
  · rw [if_pos h1] at hsucc; simp [badRequest] at hsucc
  rw [if_neg h1] at hsucc ⊢
  dsimp only at hsucc ⊢
  by_cases h2 : env.f 2 = true
  · rw [if_pos h2] at hsucc; simp [badRequest] at hsucc
  rw [if_neg h2] at hsucc ⊢
  split
  · next hflag =>
    rw [if_pos hflag] at hsucc
    by_cases h3 : env.f 3 = true
    · rw [if_pos h3] at hsucc; simp [badRequest] at hsucc
    rw [if_neg h3]
  · rfl

/-- After the subtask `s` is marked completed, the flag of its parent is set
exactly when every other subtask of that parent is completed. -/
theorem flag_after_complete (db : DB) (s : Subtask) (now : Nat) :
    flaggingCompleted (DB.subtasksOf
        { db with subtasks := (setSubtask db.subtasks s.ID (Subtask.complete now)) } s.TaskID)
      = true ↔
    ∀ x ∈ db.subtasks, x.TaskID = s.TaskID → x.ID ≠ s.ID → x.Status = "completed" := by
  rw [flaggingCompleted_iff]
  simp only [DB.subtasksOf, List.mem_filter, beq_iff_eq]
  constructor
  · intro h x hx hxt hne
    exact h x ⟨mem_setSubtask_of_ne hx hne, hxt⟩
  · rintro h x ⟨hx, hxt⟩
    obtain ⟨r, hr, h1 | h1⟩ := mem_setSubtask hx
    · rw [h1.2]; rfl
    · rw [h1.2] at hxt ⊢; exact h r hr hxt h1.1

/-- C5 (amended): on a consistent store in which the parent task `t` of the
stored subtask `s` is completed, a successful `completeSubtask(s)` leaves the
status of `t` completed; it leaves the row of `t` untouched (completedAt as
before) when another subtask of `t` is not completed, and it writes `t` again
with completedAt set to the time read by the propagation step when every
other subtask of `t` is completed. -/
theorem completingSubtask_completed_parent {db : DB} (hwf : db.WF) (env : Env) {s : Subtask}
    {t : TaskRow} (hs : s ∈ db.subtasks) (ht : t ∈ db.tasks) (hpar : t.ID = s.TaskID)
    (hdone : t.Status = "completed") {id : String} (hid : atoi id = some (s.ID : Int))
    (hsucc : (completingSubtask env id db).1.status = 200) :
    ∃ r, (completingSubtask env id db).2.task? t.ID = some r ∧ r.Status = "completed" ∧
      ((∃ x ∈ db.subtasks, x.TaskID = t.ID ∧ x.ID ≠ s.ID ∧ x.Status ≠ "completed") → r = t) ∧
      ((∀ x ∈ db.subtasks, x.TaskID = t.ID → x.ID ≠ s.ID → x.Status = "completed") →
        r = { t with CompletedAt := some (env.clock 1) }) := by
  rw [completingSubtask_success hwf env (firstSubtask_key hwf env hs hid) hsucc]
  split
  · next hflag =>
    have hall := (flag_after_complete db s (env.clock 0)).mp hflag
    refine ⟨t.complete (env.clock 1), ?_, rfl, ?_, ?_⟩
    · rw [← hpar]
      exact task?_setTask hwf ht (TaskRow.complete (env.clock 1)) (fun _ => rfl)
        (fun x hx _ => valid_complete_task _ (hwf.2.2.2.2.2.1 x hx))
    · rintro ⟨x, hx, hxt, hne, hnc⟩
      exact absurd (hall x hx (hxt.trans hpar) hne) hnc
    · intro _
      simp only [TaskRow.complete, ← hdone]
  · next hflag =>
    refine ⟨t, find_task_of_mem hwf ht, hdone, fun _ => rfl, ?_⟩
    intro hall
    rw [hpar] at hall
    exact absurd ((flag_after_complete db s (env.clock 0)).mpr hall) hflag

/-- C5, witness: `dbCompletedParent`, whose completed task has one ongoing
subtask. -/
theorem completingSubtask_completed_parent_witness :
    dbCompletedParent.WF ∧
    ∃ r, (completingSubtask (Env.ok clock10) "1" dbCompletedParent).2.task? 1 = some r ∧
      r.Status = "completed" ∧
      ((∃ x ∈ dbCompletedParent.subtasks, x.TaskID = 1 ∧ x.ID ≠ 1 ∧ x.Status ≠ "completed") →
        r = { ID := 1, Title := "t", Status := "completed", Deadline := none,
              CreatedAt := some 0, CompletedAt := some 5 }) ∧
      ((∀ x ∈ dbCompletedParent.subtasks, x.TaskID = 1 → x.ID ≠ 1 → x.Status = "completed") →
        r = { ID := 1, Title := "t", Status := "completed", Deadline := none,
              CreatedAt := some 0, CompletedAt := some 11 }) :=
  ⟨by decide, @completingSubtask_completed_parent dbCompletedParent (by decide) (Env.ok clock10)
    { ID := 1, TaskID := 1, Title := "a", Status := "ongoing", CompletedAt := none }
    { ID := 1, Title := "t", Status := "completed", Deadline := none,
      CreatedAt := some 0, CompletedAt := some 5 } (by decide) (by decide) rfl rfl "1"
    (by decide) (by decide)⟩

/-- C5, counterexample: the parent task of `dbCompletedParent` is completed
with completedAt 5; a successful complete-subtask request on its subtask
persists it again with completedAt 11. -/
theorem completingSubtask_restamps_completed_parent :
    dbCompletedParent.task? 1
        = some { ID := 1, Title := "t", Status := "completed", Deadline := none,
                 CreatedAt := some 0, CompletedAt := some 5 } ∧
      (completingSubtask (Env.ok clock10) "1" dbCompletedParent).1.status = 200 ∧
      (completingSubtask (Env.ok clock10) "1" dbCompletedParent).2.task? 1
        = some { ID := 1, Title := "t", Status := "completed", Deadline := none,
                 CreatedAt := some 0, CompletedAt := some 11 } := by
  decide

end Completing

/-! ## C8, C7: deleting -/

section Deleting

/-- The loop of the delete-task handler has removed the subtasks of a prefix
of its list, the whole list when it was not left early, and nothing else. -/
theorem deleteLoop_prefix (env : Env) :
    ∀ (subs : List Subtask) (k : Nat) (db : DB), ∃ n, n ≤ subs.length ∧
      (deleteLoop env k subs db).2 = { db with subtasks :=
        (db.subtasks.filter (fun s => decide (s.ID ∉ (subs.take n).map Subtask.ID))) } ∧
      ((deleteLoop env k subs db).1 = true → n = subs.length) := by
  intro subs
  induction subs with
  | nil => intro k db; exact ⟨0, le_refl _, by simp [deleteLoop], fun _ => rfl⟩
  | cons a rest ih =>
    intro k db
    unfold deleteLoop
    cases hd : db.deleteSubtaskValue (env.f k) a with
    | none => exact ⟨0, Nat.zero_le _, by simp, fun h => by simp at h⟩
    | some db1 =>
      have hdb1 : db1 = { db with subtasks := db.subtasks.filter (fun s => s.ID != a.ID) } := by
        unfold DB.deleteSubtaskValue at hd
        split at hd
        · cases hd
        · split at hd
          · cases hd
          · simpa using hd.symm
      obtain ⟨n, hn, heq, hfull⟩ := ih (k + 1) db1
      refine ⟨n + 1, by simpa using hn, ?_, fun h => by simpa using hfull h⟩
      dsimp only
      rw [heq, hdb1]
      simp only [List.filter_filter, List.take_succ_cons, List.map_cons, List.mem_cons, not_or,
        DB.mk.injEq, true_and, and_true]
      apply List.filter_congr
      intro x _
      by_cases h1 : x.ID = a.ID <;> simp [h1]

/-- With no failing call and no zero key in its list, the loop runs to the end. -/
theorem deleteLoop_ok (env : Env) (hok : ∀ k, env.f k = false) :
    ∀ (subs : List Subtask) (k : Nat) (db : DB), (∀ s ∈ subs, s.ID ≠ 0) →
      (deleteLoop env k subs db).1 = true := by
  intro subs
  induction subs with
  | nil => intro k db _; rfl
  | cons a rest ih =>
    intro k db hnz
    unfold deleteLoop
    have ha : a.ID ≠ 0 := hnz a (List.mem_cons_self _ _)
    simp only [DB.deleteSubtaskValue, hok, Bool.false_eq_true, if_false, ha]
    exact ih _ _ (fun s hs => hnz s (List.mem_cons_of_mem _ hs))

/-- The loop of the delete-task handler by its first failing store call: when
its first `j` deletes succeed and the next one, if there is one, fails, the loop
has removed exactly the first `j` subtasks of its list, and has run to the end
exactly when `j` is the length of the list. -/
theorem deleteLoop_exact (env : Env) :
    ∀ (subs : List Subtask) (k : Nat) (db : DB) (j : Nat), (∀ s ∈ subs, s.ID ≠ 0) →
      j ≤ subs.length → (∀ i < j, env.f (k + i) = false) →
      (j < subs.length → env.f (k + j) = true) →
      deleteLoop env k subs db = (decide (j = subs.length), { db with subtasks :=
        (db.subtasks.filter (fun s => decide (s.ID ∉ (subs.take j).map Subtask.ID))) }) := by
  intro subs
  induction subs with
  | nil =>
    intro k db j _ hj _ _
    have : j = 0 := by simpa using hj
    subst this
    simp [deleteLoop]
  | cons a rest ih =>
    intro k db j hnz hj hpre hfail
    have ha : a.ID ≠ 0 := hnz a (List.mem_cons_self _ _)
    unfold deleteLoop
    cases j with
    | zero =>
      have hk : env.f k = true := by simpa using hfail (by simp)
      simp [DB.deleteSubtaskValue, hk]
    | succ j =>
      have hk : env.f k = false := by simpa using hpre 0 (Nat.succ_pos _)
      have hd : db.deleteSubtaskValue (env.f k) a
          = some { db with subtasks := db.subtasks.filter (fun s => s.ID != a.ID) } := by
        simp [DB.deleteSubtaskValue, hk, ha]
      rw [hd]
      dsimp only
      rw [ih (k + 1) _ j (fun s hs => hnz s (List.mem_cons_of_mem _ hs))
        (by simpa using hj)
        (fun i hi => by
          have := hpre (i + 1) (Nat.succ_lt_succ hi)
          rwa [Nat.add_assoc, Nat.add_comm 1 i])
        (fun hlt => by
          have := hfail (by simpa using hlt)
          rwa [Nat.add_assoc, Nat.add_comm 1 j])]
      have hdec : decide (j = rest.length) = decide (j + 1 = (a :: rest).length) := by
        simp
      rw [hdec]
      congr 1
      simp only [List.filter_filter, List.take_succ_cons, List.map_cons, List.mem_cons, not_or,
        DB.mk.injEq, true_and, and_true]
      apply List.filter_congr
      intro x _
      by_cases h1 : x.ID = a.ID <;> simp [h1]

/-- On a consistent store, the subtasks whose key is the key of a subtask of
task `id` are the subtasks of task `id`. -/
theorem filter_keys_of_task {db : DB} (hwf : db.WF) (id : Nat) :
    db.subtasks.filter (fun s => decide (s.ID ∉ (db.subtasksOf id).map Subtask.ID))
      = db.subtasks.filter (fun s => s.TaskID != id) := by
  apply List.filter_congr
  intro x hx
  by_cases h : x.TaskID = id
  · have : x.ID ∈ (db.subtasksOf id).map Subtask.ID := by
      refine List.mem_map_of_mem _ ?_
      simp [DB.subtasksOf, List.mem_filter, hx, h]
    simp [h, this]
  · have : x.ID ∉ (db.subtasksOf id).map Subtask.ID := by
      intro hmem
      obtain ⟨y, hy, hyx⟩ := List.mem_map.mp hmem
      simp only [DB.subtasksOf, List.mem_filter, beq_iff_eq] at hy
      rw [WF.subtask_inj hwf hy.1 hx hyx] at hy
      exact h hy.2
    simp [h, this]

/-- The delete-task handler on a consistent store: it succeeds when no store
call fails, and a success leaves the tables without the task and without its
subtasks. -/
theorem deleteTask_success {db : DB} (hwf : db.WF) (env : Env) {param : String} {id : Nat}
    (hid : atoi param = some (id : Int)) :
    ((∀ k, env.f k = false) → (deleteTask env param db).1.status = 200) ∧
    ((deleteTask env param db).1.status = 200 →
      (deleteTask env param db).2.task? id = none ∧
      (∀ s ∈ (deleteTask env param db).2.subtasks, s.TaskID ≠ id) ∧
      (deleteTask env param db).2.tasks = db.tasks.filter (fun r => r.ID != id) ∧
      (deleteTask env param db).2.subtasks = db.subtasks.filter (fun s => s.TaskID != id)) := by
  have hshape : ∀ db2 : DB,
      db2.tasks = db.tasks.filter (fun r => r.ID != id) →
      db2.subtasks = db.subtasks.filter (fun s => s.TaskID != id) →
      db2.task? id = none ∧ (∀ s ∈ db2.subtasks, s.TaskID ≠ id) ∧
      db2.tasks = db.tasks.filter (fun r => r.ID != id) ∧
      db2.subtasks = db.subtasks.filter (fun s => s.TaskID != id) := by
    intro db2 h1 h2
    refine ⟨?_, ?_, h1, h2⟩
    · unfold DB.task?
      rw [h1, List.find?_eq_none]
      intro x hx
      simpa using (List.mem_filter.mp hx).2
    · intro x hx
      rw [h2] at hx
      simpa using (List.mem_filter.mp hx).2
  obtain ⟨n, _, heq, hfull⟩ := deleteLoop_prefix env (db.subtasksOf id) 1 db
  unfold deleteTask
  rw [findSubtasks_atoi db env _ hid]
  by_cases h0 : env.f 0 = true
  · simp only [h0, if_true]
    refine ⟨fun hok => ?_, fun h => by simp [badRequest] at h⟩
    rw [hok] at h0; cases h0
  rw [if_neg h0]
  dsimp only
  cases hloop : deleteLoop env 1 (db.subtasksOf id) db with
  | mk ok db1 =>
    rw [hloop] at heq hfull
    cases ok with
    | false =>
      refine ⟨fun hok => ?_, fun h => by simp [badRequest] at h⟩
      have := deleteLoop_ok env hok (db.subtasksOf id) 1 db
        (fun s hs => hwf.2.2.2.1 s (List.mem_of_mem_filter hs))
      rw [hloop] at this
      simp at this
    | true =>
      have hn := hfull rfl
      subst hn
      dsimp only at heq ⊢
      rw [List.take_length, filter_keys_of_task hwf] at heq
      have hnone : db1.subtasks.any (fun s => s.TaskID == id) = false := by
        rw [heq]
        simp
      have hdel : db1.deleteTask env (env.f (1 + (db.subtasksOf id).length)) param
          = if env.f (1 + (db.subtasksOf id).length) = true then none
            else some { db1 with tasks := db1.tasks.filter (fun r => r.ID != id) } := by
        rw [deleteTask_atoi db1 env _ hid, hnone]
        simp
      rw [hdel]
      by_cases hl : env.f (1 + (db.subtasksOf id).length) = true
      · rw [if_pos hl]
        refine ⟨fun hok => ?_, fun h => by simp [badRequest] at h⟩
        rw [hok] at hl; cases hl
      · rw [if_neg hl]
        refine ⟨fun _ => rfl, fun _ => ?_⟩
        dsimp only
        apply hshape
        · rw [heq]
        · rw [heq]

/-- C8: on a consistent store, a successful `deleteTask(id)` (the route
parameter `param` is a number that reads as the key `id`), whatever the number
of subtasks of the task with key `id`, yields a state with no task of key `id`
and no subtask whose taskId is `id`; the task table is the former one without
that task and the subtask table the former one without the subtasks of that
task, so every other task and every subtask of another task is unchanged.
The operation is successful when no store call fails. -/
theorem deleteTask_cascade {db : DB} (hwf : db.WF) (env : Env) (id : Nat) {param : String}
    (hid : atoi param = some (id : Int)) :
    ((∀ k, env.f k = false) → (deleteTask env param db).1.status = 200) ∧
    ((deleteTask env param db).1.status = 200 →
      (deleteTask env param db).2.task? id = none ∧
      (∀ s ∈ (deleteTask env param db).2.subtasks, s.TaskID ≠ id) ∧
      (deleteTask env param db).2.tasks = db.tasks.filter (fun r => r.ID != id) ∧
      (deleteTask env param db).2.subtasks = db.subtasks.filter (fun s => s.TaskID != id)) :=
  deleteTask_success hwf env hid

/-- C8, witness: deleting the task of `dbTwoSubtasks` with its two subtasks. -/
theorem deleteTask_cascade_witness :
    dbTwoSubtasks.WF ∧ atoi "1" = some 1 ∧
    (deleteTask (Env.ok clock10) "1" dbTwoSubtasks).1.status = 200 ∧
    (deleteTask (Env.ok clock10) "1" dbTwoSubtasks).2.task? 1 = none ∧
    (∀ s ∈ (deleteTask (Env.ok clock10) "1" dbTwoSubtasks).2.subtasks, s.TaskID ≠ 1) ∧
    (deleteTask (Env.ok clock10) "1" dbTwoSubtasks).2.tasks
      = dbTwoSubtasks.tasks.filter (fun r => r.ID != 1) ∧
    (deleteTask (Env.ok clock10) "1" dbTwoSubtasks).2.subtasks
      = dbTwoSubtasks.subtasks.filter (fun s => s.TaskID != 1) :=
  ⟨by decide, by decide,
    (@deleteTask_cascade dbTwoSubtasks (by decide) (Env.ok clock10) 1 "1" (by decide)).1
      (fun _ => rfl),
    (@deleteTask_cascade dbTwoSubtasks (by decide) (Env.ok clock10) 1 "1" (by decide)).2
      (by decide)⟩

end Deleting

/-! ## The shape of every handler's effect on a consistent store -/

section Shapes

/-- Read, edit with `g`, save: what the three handlers that edit one task do to
the store.  `out` turns the outcome of `Save` into the response. -/
theorem editing_task_shape {db : DB} (hwf : db.WF) (fail : Bool) (now : Nat) {r : TaskRow}
    (hr : r ∈ db.tasks) (g : TaskRow → TaskRow) (hg : ∀ x, (g x).ID = x.ID) :
    db.saveTask fail now ((g r).load []) =
      if fail = true ∨ (g r).valid = false then (none, db)
      else (some ((g r).load []), { db with tasks := setTask db.tasks r.ID g }) := by
  have h := saveTask_loaded hwf fail now ((g r).load []) hr (hg r) rfl
  have hrow : ((g r).load []).row = (fun _ => g r) r := rfl
  rw [hrow, setTask_const hwf hr g] at h
  exact h

/-- The rename-task handler either answers 400 and leaves both tables, or
answers 200 and has rewritten the title of one task. -/
theorem editTask_shape {db : DB} (hwf : db.WF) (env : Env) (id : String)
    (body : Option String) :
    ((editTask env id body db).1.status = 400 ∧ (editTask env id body db).2.tasks = db.tasks ∧
      (editTask env id body db).2.subtasks = db.subtasks) ∨
    (∃ title k, body = some title ∧ validTitle title = true ∧
      (editTask env id body db).1.status = 200 ∧
      (editTask env id body db).2.tasks
        = setTask db.tasks k (fun r => { r with Title := title }) ∧
      (editTask env id body db).2.subtasks = db.subtasks) := by
  generalize hres : editTask env id body db = res
  unfold editTask at hres
  cases body with
  | none => subst hres; left; exact ⟨rfl, rfl, rfl⟩
  | some title =>
    cases hfirst : db.firstTask env (env.f 0) id with
    | none => rw [hfirst] at hres; subst hres; left; exact ⟨rfl, rfl, rfl⟩
    | some r =>
      have hr := (firstTask_mem hfirst).1
      rw [hfirst] at hres
      have hsave := editing_task_shape hwf (env.f 1) (env.clock 0) hr
        (fun r => { r with Title := title }) (fun _ => rfl)
      change (match db.saveTask (env.f 1) (env.clock 0)
          (TaskRow.load ((fun r : TaskRow => { r with Title := title }) r) []) with
        | (none, db1) => (badRequest "Failed to save data", db1)
        | (some task, db1) =>
          ({ status := 200, message := "Task successfully updated",
             payload := Payload.task task }, db1)) = res at hres
      rw [hsave] at hres
      split_ifs at hres with hc
      · subst hres; left; exact ⟨rfl, rfl, rfl⟩
      · subst hres
        right
        refine ⟨title, r.ID, rfl, ?_, rfl, rfl, rfl⟩
        simp only [not_or, Bool.not_eq_false] at hc
        simp only [TaskRow.valid, Bool.and_eq_true] at hc
        exact hc.2.2

/-- The set-deadline handler either answers 400 and leaves both tables, or
answers 200 and has rewritten the deadline of one task. -/
theorem addDeadline_shape {db : DB} (hwf : db.WF) (env : Env) (id : String)
    (body : Option String) :
    ((addDeadline env id body db).1.status = 400 ∧
      (addDeadline env id body db).2.tasks = db.tasks ∧
      (addDeadline env id body db).2.subtasks = db.subtasks) ∨
    (∃ deadline k, (addDeadline env id body db).1.status = 200 ∧
      (addDeadline env id body db).2.tasks
        = setTask db.tasks k (fun r => { r with Deadline := some deadline }) ∧
      (addDeadline env id body db).2.subtasks = db.subtasks) := by
  generalize hres : addDeadline env id body db = res
  unfold addDeadline at hres
  cases body with
  | none => subst hres; left; exact ⟨rfl, rfl, rfl⟩
  | some time =>
    cases hfirst : db.firstTask env (env.f 0) id with
    | none => rw [hfirst] at hres; subst hres; left; exact ⟨rfl, rfl, rfl⟩
    | some r =>
      have hr := (firstTask_mem hfirst).1
      rw [hfirst] at hres
      cases hparse : env.timeParse time with
      | none => simp only [hparse] at hres; subst hres; left; exact ⟨rfl, rfl, rfl⟩
      | some deadline =>
        simp only [hparse] at hres
        have hsave := editing_task_shape hwf (env.f 1) (env.clock 0) hr
          (fun r => { r with Deadline := some deadline }) (fun _ => rfl)
        change (match db.saveTask (env.f 1) (env.clock 0)
            (TaskRow.load ((fun r : TaskRow => { r with Deadline := some deadline }) r) []) with
          | (none, db1) => (badRequest "Failed to save data", db1)
          | (some task, db1) =>
            ({ status := 200, message := "Task successfully updated",
               payload := Payload.task task }, db1)) = res at hres
        rw [hsave] at hres
        split_ifs at hres with hc
        · subst hres; left; exact ⟨rfl, rfl, rfl⟩
        · subst hres
          right
          exact ⟨deadline, r.ID, rfl, rfl, rfl⟩

/-- The complete-task handler either answers 400 and leaves both tables, or
answers 200 and has marked one task completed. -/
theorem completingTask_shape {db : DB} (hwf : db.WF) (env : Env) (id : String) :
    ((completingTask env id db).1.status = 400 ∧ (completingTask env id db).2.tasks = db.tasks ∧
      (completingTask env id db).2.subtasks = db.subtasks) ∨
    (∃ k, (completingTask env id db).1.status = 200 ∧
      (completingTask env id db).2.tasks
        = setTask db.tasks k (TaskRow.complete (env.clock 0)) ∧
      (completingTask env id db).2.subtasks = db.subtasks) := by
  cases hfirst : db.firstTask env (env.f 0) id with
  | none =>
    left
    unfold completingTask
    rw [hfirst]
    exact ⟨rfl, rfl, rfl⟩
  | some r =>
    have h0f := (firstTask_mem hfirst).2
    rw [h0f] at hfirst
    rw [completingTask_stored hwf env hfirst]
    have h0 : ¬ env.f 0 = true := by simp [h0f]
    rw [if_neg h0]
    by_cases h1 : env.f 1 = true
    · rw [if_pos h1]; left; exact ⟨rfl, rfl, rfl⟩
    rw [if_neg h1]
    right; exact ⟨r.ID, rfl, rfl, rfl⟩

/-- The rename-subtask handler either answers 400 and leaves both tables, or
answers 200 and has rewritten the title of one subtask. -/
theorem editSubtask_shape {db : DB} (hwf : db.WF) (env : Env) (id : String)
    (body : Option String) :
    ((editSubtask env id body db).1.status = 400 ∧
      (editSubtask env id body db).2.tasks = db.tasks ∧
      (editSubtask env id body db).2.subtasks = db.subtasks) ∨
    (∃ title k, body = some title ∧ validTitle title = true ∧
      (editSubtask env id body db).1.status = 200 ∧
      (editSubtask env id body db).2.tasks = db.tasks ∧
      (editSubtask env id body db).2.subtasks
        = setSubtask db.subtasks k (fun s => { s with Title := title })) := by
  generalize hres : editSubtask env id body db = res
  unfold editSubtask at hres
  cases body with
  | none => subst hres; left; exact ⟨rfl, rfl, rfl⟩
  | some title =>
    cases hfirst : db.firstSubtask env (env.f 0) id with
    | none => rw [hfirst] at hres; subst hres; left; exact ⟨rfl, rfl, rfl⟩
    | some r =>
      have hr := (firstSubtask_mem hfirst).1
      rw [hfirst] at hres
      have hsave := saveSubtask_loaded hwf (env.f 1)
        ((fun s : Subtask => { s with Title := title }) r) hr rfl rfl
      rw [setSubtask_const hwf hr (fun s => { s with Title := title })] at hsave
      change (match db.saveSubtask (env.f 1)
          ((fun s : Subtask => { s with Title := title }) r) with
        | (none, db1) => (badRequest "Failed to save data", db1)
        | (some subtask, db1) =>
          ({ status := 200, message := "Subtask successfully updated",
             payload := Payload.subtask subtask }, db1)) = res at hres
      rw [hsave] at hres
      split_ifs at hres with hc
      · subst hres; left; exact ⟨rfl, rfl, rfl⟩
      · subst hres
        right
        refine ⟨title, r.ID, rfl, ?_, rfl, rfl, rfl⟩
        simp only [not_or, Bool.not_eq_false] at hc
        simp only [Subtask.valid, Bool.and_eq_true] at hc
        exact hc.2.2

/-- The complete-subtask handler: on 400 the task table is as before and the
subtask table is as before or, when the failure is in the parent load or save,
already holds the completed subtask; on 200 the subtask is completed and the
parent is either untouched or marked completed. -/
theorem completingSubtask_shape {db : DB} (hwf : db.WF) (env : Env) (id : String) :
    ((completingSubtask env id db).1.status = 400 ∧
      (completingSubtask env id db).2.tasks = db.tasks ∧
      ((completingSubtask env id db).2.subtasks = db.subtasks ∨
        ∃ s, db.firstSubtask env false id = some s ∧ env.f 0 = false ∧ env.f 1 = false ∧
          (env.f 2 = true ∨ env.f 3 = true) ∧ (completingSubtask env id db).2.subtasks
          = setSubtask db.subtasks s.ID (Subtask.complete (env.clock 0)))) ∨
    (∃ k, (completingSubtask env id db).1.status = 200 ∧
      (completingSubtask env id db).2.subtasks
        = setSubtask db.subtasks k (Subtask.complete (env.clock 0)) ∧
      ((completingSubtask env id db).2.tasks = db.tasks ∨
        ∃ tid, (completingSubtask env id db).2.tasks
          = setTask db.tasks tid (TaskRow.complete (env.clock 1)))) := by
  cases hfirst : db.firstSubtask env (env.f 0) id with
  | none =>
    left
    unfold completingSubtask
    rw [hfirst]
    exact ⟨rfl, rfl, Or.inl rfl⟩
  | some s =>
    have h0f := (firstSubtask_mem hfirst).2
    rw [h0f] at hfirst
    rw [completingSubtask_stored hwf env hfirst]
    unfold completingSubtaskStored
    have h0 : ¬ env.f 0 = true := by simp [h0f]
    rw [if_neg h0]
    by_cases h1 : env.f 1 = true
    · rw [if_pos h1]; left; exact ⟨rfl, rfl, Or.inl rfl⟩
    rw [if_neg h1]
    have h1f : env.f 1 = false := by simpa using h1
    dsimp only
    by_cases h2 : env.f 2 = true
    · rw [if_pos h2]; left; exact ⟨rfl, rfl, Or.inr ⟨s, hfirst, h0f, h1f, Or.inl h2, rfl⟩⟩
    rw [if_neg h2]
    split
    · by_cases h3 : env.f 3 = true
      · rw [if_pos h3]; left; exact ⟨rfl, rfl, Or.inr ⟨s, hfirst, h0f, h1f, Or.inr h3, rfl⟩⟩
      · rw [if_neg h3]; right; exact ⟨s.ID, rfl, rfl, Or.inr ⟨_, rfl⟩⟩
    · right; exact ⟨s.ID, rfl, rfl, Or.inl rfl⟩

/-- The delete-subtask handler either answers 400 and leaves both tables, or
answers 200 and has removed the rows its condition selects. -/
theorem deleteSubtask_shape (db : DB) (env : Env) (id : String) :
    ((deleteSubtask env id db).1.status = 400 ∧ (deleteSubtask env id db).2.tasks = db.tasks ∧
      (deleteSubtask env id db).2.subtasks = db.subtasks) ∨
    (∃ p : Subtask → Bool, (deleteSubtask env id db).1.status = 200 ∧
      (deleteSubtask env id db).2.tasks = db.tasks ∧
      (deleteSubtask env id db).2.subtasks = db.subtasks.filter (fun s => !p s)) := by
  unfold deleteSubtask DB.deleteSubtask
  by_cases h0 : env.f 0 = true
  · rw [if_pos h0]; left; exact ⟨rfl, rfl, rfl⟩
  rw [if_neg h0]
  cases hn : atoi id with
  | some n => right; exact ⟨_, rfl, rfl, rfl⟩
  | none =>
    dsimp only
    by_cases he : id = ""
    · rw [if_pos he]; left; exact ⟨rfl, rfl, rfl⟩
    rw [if_neg he]
    cases hp : env.sqlSubtask id db with
    | none => left; exact ⟨rfl, rfl, rfl⟩
    | some p => right; exact ⟨p, rfl, rfl, rfl⟩

theorem deleteTasksWhere_some {db db2 : DB} {p : TaskRow → Bool}
    (h : db.deleteTasksWhere p = some db2) :
    db2 = { db with tasks := db.tasks.filter (fun r => !p r) } ∧
    ∀ r ∈ db.tasks, p r = true → ∀ s ∈ db.subtasks, s.TaskID ≠ r.ID := by
  unfold DB.deleteTasksWhere at h
  split_ifs at h with hc
  simp only [Option.some.injEq] at h
  refine ⟨h.symm, ?_⟩
  intro r hr hp s hs hsr
  apply hc
  rw [List.any_eq_true]
  refine ⟨r, hr, ?_⟩
  rw [Bool.and_eq_true]
  exact ⟨hp, List.any_eq_true.mpr ⟨s, hs, by simpa using hsr⟩⟩

theorem deleteTask_some {db db2 : DB} {env : Env} {fail : Bool} {id : String}
    (h : db.deleteTask env fail id = some db2) :
    ∃ p : TaskRow → Bool, db2 = { db with tasks := db.tasks.filter (fun r => !p r) } ∧
      ∀ r ∈ db.tasks, p r = true → ∀ s ∈ db.subtasks, s.TaskID ≠ r.ID := by
  unfold DB.deleteTask at h
  by_cases hf : fail = true
  · rw [if_pos hf] at h; cases h
  rw [if_neg hf] at h
  cases hn : atoi id with
  | some n => rw [hn] at h; exact ⟨_, deleteTasksWhere_some h⟩
  | none =>
    rw [hn] at h
    dsimp only at h
    by_cases he : id = ""
    · rw [if_pos he] at h; cases h
    rw [if_neg he] at h
    cases hp : env.sqlTask id db with
    | none => rw [hp] at h; cases h
    | some p => rw [hp] at h; exact ⟨p, deleteTasksWhere_some h⟩

/-- The delete-task handler has removed the first `n` subtasks of the list
`subs` it has read, for some `n`, which are subtasks of the task its parameter
names; on 400 the task table is as before; on 200 the tasks its condition
selects are removed and no subtask references them. -/
theorem deleteTask_shape (db : DB) (env : Env) (id : String) :
    ∃ (subs : List Subtask) (n : Nat),
      (∀ s ∈ subs, s ∈ db.subtasks ∧ ∃ m, env.readInt id = some m ∧ (s.TaskID : Int) = m) ∧
      (deleteTask env id db).2.subtasks = db.subtasks.filter
        (fun s => decide (s.ID ∉ (subs.take n).map Subtask.ID)) ∧
      (((deleteTask env id db).1.status = 400 ∧ (deleteTask env id db).2.tasks = db.tasks) ∨
       ((deleteTask env id db).1.status = 200 ∧
        ∃ p : TaskRow → Bool, (deleteTask env id db).2.tasks = db.tasks.filter (fun r => !p r) ∧
        ∀ r ∈ db.tasks, p r = true →
          ∀ s ∈ (deleteTask env id db).2.subtasks, s.TaskID ≠ r.ID)) := by
  generalize hres : deleteTask env id db = res
  unfold deleteTask at hres
  cases hfind : db.findSubtasks env (env.f 0) id with
  | none =>
    rw [hfind] at hres
    subst hres
    exact ⟨[], 0, by simp, by simp, Or.inl ⟨rfl, rfl⟩⟩
  | some subs =>
    rw [hfind] at hres
    dsimp only at hres
    have hsubs : ∀ s ∈ subs,
        s ∈ db.subtasks ∧ ∃ m, env.readInt id = some m ∧ (s.TaskID : Int) = m := by
      unfold DB.findSubtasks at hfind
      split_ifs at hfind
      split at hfind
      · cases hfind
      · next m hm =>
        simp only [Option.some.injEq] at hfind
        intro s hs
        rw [← hfind] at hs
        refine ⟨List.mem_of_mem_filter hs, m, hm, ?_⟩
        simpa [keyIs] using (List.mem_filter.mp hs).2
    obtain ⟨n, _, heq, _⟩ := deleteLoop_prefix env subs 1 db
    cases hloop : deleteLoop env 1 subs db with
    | mk ok db1 =>
      rw [hloop] at hres heq
      dsimp only at heq
      cases ok with
      | false =>
        dsimp only at hres
        subst hres
        exact ⟨subs, n, hsubs, by rw [heq], Or.inl ⟨rfl, by rw [heq]⟩⟩
      | true =>
        dsimp only at hres
        cases hdel : db1.deleteTask env (env.f (1 + subs.length)) id with
        | none =>
          rw [hdel] at hres
          subst hres
          exact ⟨subs, n, hsubs, by rw [heq], Or.inl ⟨rfl, by rw [heq]⟩⟩
        | some db2 =>
          rw [hdel] at hres
          subst hres
          obtain ⟨p, hdb2, hno⟩ := deleteTask_some hdel
          refine ⟨subs, n, hsubs, by rw [hdb2, heq], Or.inr ⟨rfl, p, by rw [hdb2, heq], ?_⟩⟩
          intro r hr hp s hs
          have hs2 : s ∈ db2.subtasks := hs
          rw [hdb2] at hs2
          have ht1 : db1.tasks = db.tasks := by rw [heq]
          exact hno r (by rw [ht1]; exact hr) hp s hs2

theorem nextID_ne_zero (seq id : Nat) : nextID seq id ≠ 0 := by
  unfold nextID
  split
  · exact Nat.succ_ne_zero _
  · assumption

theorem assignSubtaskIDs_mem :
    ∀ (l : List Subtask) (seq : Nat), ∀ e ∈ (assignSubtaskIDs seq l).1,
      e.ID ≠ 0 ∧ ∃ s ∈ l, e = { s with ID := e.ID } := by
  intro l
  induction l with
  | nil => intro seq e he; simp [assignSubtaskIDs] at he
  | cons a l ih =>
    intro seq e he
    unfold assignSubtaskIDs at he
    split at he
    · simp only [List.mem_cons] at he
      rcases he with h | h
      · subst h
        exact ⟨Nat.succ_ne_zero _, a, List.mem_cons_self _ _, rfl⟩
      · obtain ⟨h1, s, hs, h2⟩ := ih _ e h
        exact ⟨h1, s, List.mem_cons_of_mem _ hs, h2⟩
    · next hz =>
      simp only [List.mem_cons] at he
      rcases he with h | h
      · subst h
        exact ⟨hz, e, List.mem_cons_self _ _, rfl⟩
      · obtain ⟨h1, s, hs, h2⟩ := ih _ e h
        exact ⟨h1, s, List.mem_cons_of_mem _ hs, h2⟩

/-- A successful batch insert of the `Subtasks` of a task. -/
theorem upsertSubtasks_some {db : DB} {tid : Nat} {elems subs : List Subtask} {db2 : DB}
    (h : DB.upsertSubtasks db tid elems = (some subs, db2)) :
    db2.tasks = db.tasks ∧ db2.subtasks = subs.foldl upsertRow db.subtasks ∧
      ∀ e ∈ subs, e.valid = true ∧ e.ID ≠ 0 ∧ e.TaskID = tid ∧
        ∃ s0 ∈ elems, e.Status = defaultStatus s0.Status ∧ e.CompletedAt = s0.CompletedAt := by
  unfold DB.upsertSubtasks at h
  cases elems with
  | nil =>
    simp only [Prod.mk.injEq, Option.some.injEq] at h
    obtain ⟨h1, h2⟩ := h
    subst h1 h2
    exact ⟨rfl, rfl, fun e he => by simp at he⟩
  | cons a l =>
    dsimp only at h
    split_ifs at h with hc
    swap
    · cases h
    simp only [Prod.mk.injEq, Option.some.injEq] at h
    obtain ⟨h1, h2⟩ := h
    subst h2
    refine ⟨rfl, by rw [← h1], ?_⟩
    intro e he
    rw [← h1] at he
    simp only [Bool.and_eq_true, List.all_eq_true] at hc
    obtain ⟨hne, s1, hs1, he1⟩ := assignSubtaskIDs_mem _ _ e he
    obtain ⟨s0, hs0, hs01⟩ := List.mem_map.mp hs1
    refine ⟨hc.1.1 e he, hne, ?_, s0, hs0, ?_, ?_⟩
    · rw [he1, ← hs01]
    · rw [he1, ← hs01]
    · rw [he1, ← hs01]

/-- A successful `Create` of a task: one new row with a fresh non-zero key, and
the batch insert of its `Subtasks`. -/
theorem createTask_some {db : DB} {fail : Bool} {now : Nat} {task out : Task} {db1 : DB}
    (h : db.createTask fail now task = (some out, db1)) :
    ∃ (row : TaskRow) (elems : List Subtask),
      row.Status = defaultStatus task.Status ∧ row.CompletedAt = task.CompletedAt ∧
      row.ID ≠ 0 ∧ (∀ r ∈ db.tasks, r.ID ≠ row.ID) ∧ row.valid = true ∧
      (∀ e ∈ elems, e.valid = true ∧ e.ID ≠ 0 ∧ e.TaskID = row.ID ∧
        ∃ s0 ∈ task.Subtasks, e.Status = defaultStatus s0.Status ∧
          e.CompletedAt = s0.CompletedAt) ∧
      db1.tasks = db.tasks ++ [row] ∧ db1.subtasks = elems.foldl upsertRow db.subtasks := by
  unfold DB.createTask at h
  by_cases hf : fail = true
  · rw [if_pos hf] at h; cases h
  rw [if_neg hf] at h
  dsimp only at h
  by_cases hc : ((TaskRow.valid
      { ID := nextID db.taskSeq task.ID, Title := task.Title,
        Status := defaultStatus task.Status, Deadline := task.Deadline,
        CreatedAt := createdAt now task.CreatedAt, CompletedAt := task.CompletedAt })
      && !(db.tasks.any (fun r => r.ID == nextID db.taskSeq task.ID))) = true
  swap
  · rw [if_neg hc] at h; cases h
  rw [if_pos hc] at h
  simp only [Bool.and_eq_true, Bool.not_eq_true', List.any_eq_false, beq_iff_eq] at hc
  split at h
  · next subs db2 hup =>
    simp only [Prod.mk.injEq, Option.some.injEq] at h
    obtain ⟨_, h2⟩ := h
    subst h2
    obtain ⟨u1, u2, u3⟩ := upsertSubtasks_some hup
    exact ⟨_, subs, rfl, rfl, nextID_ne_zero _ _, hc.2, hc.1, u3, u1, u2⟩
  · cases h

/-- A successful `Create` of a subtask: one new row with a fresh non-zero key
and a stored parent. -/
theorem createSubtask_some {db : DB} {fail : Bool} {sub out : Subtask} {db1 : DB}
    (h : db.createSubtask fail sub = (some out, db1)) :
    out.Status = defaultStatus sub.Status ∧ out.CompletedAt = sub.CompletedAt ∧
      out.TaskID = sub.TaskID ∧
      out.ID ≠ 0 ∧ (∀ s ∈ db.subtasks, s.ID ≠ out.ID) ∧ out.valid = true ∧
      (∃ t ∈ db.tasks, t.ID = out.TaskID) ∧
      db1.tasks = db.tasks ∧ db1.subtasks = db.subtasks ++ [out] := by
  unfold DB.createSubtask at h
  by_cases hf : fail = true
  · rw [if_pos hf] at h; cases h
  rw [if_neg hf] at h
  dsimp only at h
  split_ifs at h with hc
  swap
  · cases h
  simp only [Bool.and_eq_true, Bool.not_eq_true', List.any_eq_false, beq_iff_eq,
    List.any_eq_true] at hc
  simp only [Prod.mk.injEq, Option.some.injEq] at h
  obtain ⟨h1, h2⟩ := h
  subst h1 h2
  exact ⟨rfl, rfl, rfl, nextID_ne_zero _ _, hc.1.2, hc.1.1, hc.2, rfl, rfl⟩

/-- The create-task handler either answers 400 and leaves both tables, or
answers 201 and has inserted one task row and the subtasks of the body. -/
theorem addTask_shape (db : DB) (env : Env) (body : Option Task) :
    ((addTask env body db).1.status = 400 ∧ (addTask env body db).2.tasks = db.tasks ∧
      (addTask env body db).2.subtasks = db.subtasks) ∨
    (∃ (task : Task) (row : TaskRow) (elems : List Subtask), body = some task ∧
      (addTask env body db).1.status = 201 ∧
      row.Status = defaultStatus task.Status ∧ row.CompletedAt = task.CompletedAt ∧
      row.ID ≠ 0 ∧ (∀ r ∈ db.tasks, r.ID ≠ row.ID) ∧ row.valid = true ∧
      (∀ e ∈ elems, e.valid = true ∧ e.ID ≠ 0 ∧ e.TaskID = row.ID ∧
        ∃ s0 ∈ task.Subtasks, e.Status = defaultStatus s0.Status ∧
          e.CompletedAt = s0.CompletedAt) ∧
      (addTask env body db).2.tasks = db.tasks ++ [row] ∧
      (addTask env body db).2.subtasks = elems.foldl upsertRow db.subtasks) := by
  generalize hres : addTask env body db = res
  unfold addTask at hres
  cases body with
  | none => subst hres; left; exact ⟨rfl, rfl, rfl⟩
  | some task =>
    dsimp only at hres
    cases hc : db.createTask (env.f 0) (env.clock 0) task with
    | mk o db1 =>
      rw [hc] at hres
      cases o with
      | none =>
        subst hres
        obtain ⟨h1, h2⟩ := createTask_none hc
        left; exact ⟨rfl, h1, h2⟩
      | some out =>
        subst hres
        obtain ⟨row, elems, h⟩ := createTask_some hc
        right
        exact ⟨task, row, elems, rfl, rfl, h⟩

/-- The create-subtask handler either answers 400 and leaves both tables, or
answers 201 and has inserted one subtask row. -/
theorem addSubtask_shape (db : DB) (env : Env) (idTask : String) (body : Option Subtask) :
    ((addSubtask env idTask body db).1.status = 400 ∧
      (addSubtask env idTask body db).2.tasks = db.tasks ∧
      (addSubtask env idTask body db).2.subtasks = db.subtasks) ∨
    (∃ (sub row : Subtask), body = some sub ∧
      (addSubtask env idTask body db).1.status = 201 ∧
      row.Status = defaultStatus sub.Status ∧ row.CompletedAt = sub.CompletedAt ∧
      row.ID ≠ 0 ∧ (∀ s ∈ db.subtasks, s.ID ≠ row.ID) ∧ row.valid = true ∧
      (∃ t ∈ db.tasks, t.ID = row.TaskID) ∧
      (addSubtask env idTask body db).2.tasks = db.tasks ∧
      (addSubtask env idTask body db).2.subtasks = db.subtasks ++ [row]) := by
  generalize hres : addSubtask env idTask body db = res
  unfold addSubtask at hres
  cases body with
  | none => subst hres; left; exact ⟨rfl, rfl, rfl⟩
  | some sub =>
    cases hi : atoi idTask with
    | none => rw [hi] at hres; subst hres; left; exact ⟨rfl, rfl, rfl⟩
    | some i =>
      rw [hi] at hres
      dsimp only at hres
      cases hc : db.createSubtask (env.f 0)
          { sub with TaskID := (i % (2 ^ 64 : Int)).toNat } with
      | mk o db1 =>
        rw [hc] at hres
        cases o with
        | none =>
          subst hres
          obtain ⟨h1, h2⟩ := createSubtask_none hc
          left; exact ⟨rfl, h1, h2⟩
        | some out =>
          subst hres
          obtain ⟨h1, h2, _, h4, h5, h6, h7, h8, h9⟩ := createSubtask_some hc
          right
          exact ⟨sub, out, rfl, rfl, h1, h2, h4, h5, h6, h7, h8, h9⟩

end Shapes

/-! ## Every request keeps the store consistent -/

section Invariant

/-- One row of the batch insert keeps the subtask table consistent with
respect to a task table `T` that holds the parent. -/
theorem upsertRow_consistent (T : List TaskRow) (rows : List Subtask) (e : Subtask)
    (hv : e.valid = true) (hnz : e.ID ≠ 0) (hpar : ∃ r ∈ T, r.ID = e.TaskID)
    (h : (rows.map Subtask.ID).Nodup ∧ (∀ s ∈ rows, s.ID ≠ 0) ∧
      (∀ s ∈ rows, ∃ r ∈ T, r.ID = s.TaskID) ∧ (∀ s ∈ rows, s.valid = true)) :
    ((upsertRow rows e).map Subtask.ID).Nodup ∧ (∀ s ∈ upsertRow rows e, s.ID ≠ 0) ∧
      (∀ s ∈ upsertRow rows e, ∃ r ∈ T, r.ID = s.TaskID) ∧
      (∀ s ∈ upsertRow rows e, s.valid = true) := by
  obtain ⟨h1, h2, h3, h4⟩ := h
  unfold upsertRow
  split
  · have hmap : ∀ s ∈ rows.map (fun r => if r.ID == e.ID then { r with TaskID := e.TaskID } else r),
        ∃ r ∈ rows, s.ID = r.ID ∧ s.valid = r.valid ∧ (s.TaskID = r.TaskID ∨ s.TaskID = e.TaskID) := by
      intro s hs
      obtain ⟨r, hr, hrs⟩ := List.mem_map.mp hs
      refine ⟨r, hr, ?_⟩
      by_cases hc : r.ID = e.ID
      · simp only [hc, beq_self_eq_true, if_true] at hrs
        rw [← hrs]; exact ⟨hc.symm, rfl, Or.inr rfl⟩
      · simp only [beq_iff_eq, hc, if_false] at hrs
        rw [← hrs]; exact ⟨rfl, rfl, Or.inl rfl⟩
    refine ⟨?_, ?_, ?_, ?_⟩
    · have : (rows.map (fun r => if r.ID == e.ID then { r with TaskID := e.TaskID } else r)).map
          Subtask.ID = rows.map Subtask.ID := by
        rw [List.map_map]
        apply List.map_congr_left
        intro r _
        by_cases hc : r.ID = e.ID <;> simp [hc]
      rw [this]; exact h1
    · intro s hs
      obtain ⟨r, hr, e1, _, _⟩ := hmap s hs
      rw [e1]; exact h2 r hr
    · intro s hs
      obtain ⟨r, hr, _, _, e3 | e3⟩ := hmap s hs
      · rw [e3]; exact h3 r hr
      · rw [e3]; exact hpar
    · intro s hs
      obtain ⟨r, hr, _, e2, _⟩ := hmap s hs
      rw [e2]; exact h4 r hr
  · next hany =>
    simp only [List.any_eq_true, beq_iff_eq, not_exists, not_and] at hany
    refine ⟨?_, ?_, ?_, ?_⟩
    · rw [List.map_append, List.map_cons, List.map_nil]
      apply List.Nodup.append h1 (List.nodup_singleton _)
      rw [List.disjoint_singleton]
      intro hmem
      obtain ⟨r, hr, hre⟩ := List.mem_map.mp hmem
      exact hany r hr hre
    · intro s hs
      rcases List.mem_append.mp hs with h | h
      · exact h2 s h
      · rw [List.mem_singleton.mp h]; exact hnz
    · intro s hs
      rcases List.mem_append.mp hs with h | h
      · exact h3 s h
      · rw [List.mem_singleton.mp h]; exact hpar
    · intro s hs
      rcases List.mem_append.mp hs with h | h
      · exact h4 s h
      · rw [List.mem_singleton.mp h]; exact hv

theorem foldl_upsertRow_consistent (T : List TaskRow) (elems : List Subtask)
    (he : ∀ e ∈ elems, e.valid = true ∧ e.ID ≠ 0 ∧ ∃ r ∈ T, r.ID = e.TaskID) :
    ∀ rows : List Subtask,
      ((rows.map Subtask.ID).Nodup ∧ (∀ s ∈ rows, s.ID ≠ 0) ∧
        (∀ s ∈ rows, ∃ r ∈ T, r.ID = s.TaskID) ∧ (∀ s ∈ rows, s.valid = true)) →
      (((elems.foldl upsertRow rows).map Subtask.ID).Nodup ∧
        (∀ s ∈ elems.foldl upsertRow rows, s.ID ≠ 0) ∧
        (∀ s ∈ elems.foldl upsertRow rows, ∃ r ∈ T, r.ID = s.TaskID) ∧
        (∀ s ∈ elems.foldl upsertRow rows, s.valid = true)) := by
  induction elems with
  | nil => intro rows h; exact h
  | cons a l ih =>
    intro rows h
    simp only [List.foldl_cons]
    obtain ⟨a1, a2, a3⟩ := he a (List.mem_cons_self _ _)
    exact ih (fun e hel => he e (List.mem_cons_of_mem _ hel)) _
      (upsertRow_consistent T rows a a1 a2 a3 h)

/-- Inserting a subtask row with a fresh key and a stored parent. -/
theorem WF_appendSubtask {db db1 : DB} (hwf : db.WF) (row : Subtask) (hnz : row.ID ≠ 0)
    (hfresh : ∀ s ∈ db.subtasks, s.ID ≠ row.ID) (hv : row.valid = true)
    (hpar : ∃ t ∈ db.tasks, t.ID = row.TaskID)
    (ht : db1.tasks = db.tasks) (hs : db1.subtasks = db.subtasks ++ [row]) : db1.WF := by
  obtain ⟨h1, h2, h3, h4, h5, h6, h7⟩ := hwf
  unfold DB.WF
  rw [ht, hs]
  refine ⟨h1, ?_, h3, ?_, ?_, h6, ?_⟩
  · rw [List.map_append, List.map_cons, List.map_nil]
    apply List.Nodup.append h2 (List.nodup_singleton _)
    rw [List.disjoint_singleton]
    intro hmem
    obtain ⟨r, hr, hre⟩ := List.mem_map.mp hmem
    exact hfresh r hr hre
  · intro s hs
    rcases List.mem_append.mp hs with h | h
    · exact h4 s h
    · rw [List.mem_singleton.mp h]; exact hnz
  · intro s hs
    rcases List.mem_append.mp hs with h | h
    · exact h5 s h
    · rw [List.mem_singleton.mp h]; exact hpar
  · intro s hs
    rcases List.mem_append.mp hs with h | h
    · exact h7 s h
    · rw [List.mem_singleton.mp h]; exact hv

/-- Inserting a task row with a fresh key together with its subtasks. -/
theorem WF_insertTask {db db1 : DB} (hwf : db.WF) (row : TaskRow) (elems : List Subtask)
    (hnz : row.ID ≠ 0) (hfresh : ∀ r ∈ db.tasks, r.ID ≠ row.ID) (hv : row.valid = true)
    (he : ∀ e ∈ elems, e.valid = true ∧ e.ID ≠ 0 ∧ e.TaskID = row.ID)
    (ht : db1.tasks = db.tasks ++ [row])
    (hs : db1.subtasks = elems.foldl upsertRow db.subtasks) : db1.WF := by
  obtain ⟨h1, h2, h3, h4, h5, h6, h7⟩ := hwf
  have hsub := foldl_upsertRow_consistent (db.tasks ++ [row]) elems
    (fun e hel => ⟨(he e hel).1, (he e hel).2.1, row, by simp, (he e hel).2.2.symm⟩)
    db.subtasks ⟨h2, h4, fun s hs => by
      obtain ⟨r, hr, hrs⟩ := h5 s hs
      exact ⟨r, List.mem_append_left _ hr, hrs⟩, h7⟩
  unfold DB.WF
  rw [ht, hs]
  refine ⟨?_, hsub.1, ?_, hsub.2.1, hsub.2.2.1, ?_, hsub.2.2.2⟩
  · rw [List.map_append, List.map_cons, List.map_nil]
    apply List.Nodup.append h1 (List.nodup_singleton _)
    rw [List.disjoint_singleton]
    intro hmem
    obtain ⟨r, hr, hre⟩ := List.mem_map.mp hmem
    exact hfresh r hr hre
  · intro s hs
    rcases List.mem_append.mp hs with h | h
    · exact h3 s h
    · rw [List.mem_singleton.mp h]; exact hnz
  · intro s hs
    rcases List.mem_append.mp hs with h | h
    · exact h6 s h
    · rw [List.mem_singleton.mp h]; exact hv

/-- Every request, whatever its body and whichever store calls fail, takes a
consistent store to a consistent store. -/
theorem handle_WF {db : DB} (hwf : db.WF) (env : Env) (req : Request) :
    (handle env req db).2.WF := by
  cases req with
  | addTask body =>
    rcases addTask_shape db env body with ⟨_, h1, h2⟩ |
      ⟨task, row, elems, _, _, _, _, a1, a2, a3, a4, h1, h2⟩
    · exact WF_of_tables hwf h1 h2
    · exact WF_insertTask hwf row elems a1 a2 a3
        (fun e he => ⟨(a4 e he).1, (a4 e he).2.1, (a4 e he).2.2.1⟩) h1 h2
  | showOngoingTask =>
    show (showOngoingTask env db).2.WF
    unfold showOngoingTask
    split <;> exact hwf
  | deleteTask id =>
    obtain ⟨subs, n, _, hs, ⟨_, ht⟩ | ⟨_, p, ht, hno⟩⟩ := deleteTask_shape db env id
    · exact WF_of_tables (WF_filterSubtasks hwf _) ht hs
    · have hw1 := WF_filterSubtasks hwf
        (fun s => decide (s.ID ∉ (subs.take n).map Subtask.ID))
      have hw2 := WF_filterTasks hw1 p (by
        intro r hr hp s hsm
        exact hno r hr hp s (by rw [hs]; exact hsm))
      exact WF_of_tables hw2 ht hs
  | editTask id body =>
    rcases editTask_shape hwf env id body with ⟨_, h1, h2⟩ | ⟨title, k, _, hv, _, h1, h2⟩
    · exact WF_of_tables hwf h1 h2
    · refine WF_of_tables (WF_setTask hwf k (fun r => { r with Title := title })
        (fun _ => rfl) ?_) h1 h2
      intro r hr _
      have := hwf.2.2.2.2.2.1 r hr
      simp only [TaskRow.valid, Bool.and_eq_true] at this ⊢
      exact ⟨this.1, hv⟩
  | completingTask id =>
    rcases completingTask_shape hwf env id with ⟨_, h1, h2⟩ | ⟨k, _, h1, h2⟩
    · exact WF_of_tables hwf h1 h2
    · exact WF_of_tables (WF_completeTask hwf k (env.clock 0)) h1 h2
  | showCompletedTask =>
    show (showCompletedTask env db).2.WF
    unfold showCompletedTask
    split <;> exact hwf
  | addDeadline id body =>
    rcases addDeadline_shape hwf env id body with ⟨_, h1, h2⟩ | ⟨deadline, k, _, h1, h2⟩
    · exact WF_of_tables hwf h1 h2
    · refine WF_of_tables (WF_setTask hwf k (fun r => { r with Deadline := some deadline })
        (fun _ => rfl) ?_) h1 h2
      intro r hr _
      exact hwf.2.2.2.2.2.1 r hr
  | addSubtask idTask body =>
    rcases addSubtask_shape db env idTask body with ⟨_, h1, h2⟩ |
      ⟨sub, row, _, _, _, _, a1, a2, a3, a4, h1, h2⟩
    · exact WF_of_tables hwf h1 h2
    · exact WF_appendSubtask hwf row a1 a2 a3 a4 h1 h2
  | deleteSubtask id =>
    rcases deleteSubtask_shape db env id with ⟨_, h1, h2⟩ | ⟨p, _, h1, h2⟩
    · exact WF_of_tables hwf h1 h2
    · exact WF_of_tables (WF_filterSubtasks hwf _) h1 h2
  | editSubtask id body =>
    rcases editSubtask_shape hwf env id body with ⟨_, h1, h2⟩ | ⟨title, k, _, hv, _, h1, h2⟩
    · exact WF_of_tables hwf h1 h2
    · refine WF_of_tables (WF_setSubtask hwf k (fun s => { s with Title := title })
        (fun _ => rfl) (fun _ => rfl) ?_) h1 h2
      intro r hr _
      have := hwf.2.2.2.2.2.2 r hr
      simp only [Subtask.valid, Bool.and_eq_true] at this ⊢
      exact ⟨this.1, hv⟩
  | completingSubtask id =>
    rcases completingSubtask_shape hwf env id with ⟨_, h1, h2 | ⟨s, _, _, _, _, h2⟩⟩ |
      ⟨k, _, h2, h1 | ⟨tid, h1⟩⟩
    · exact WF_of_tables hwf h1 h2
    · exact WF_of_tables (WF_completeSubtask hwf s.ID (env.clock 0)) h1 h2
    · exact WF_of_tables (WF_completeSubtask hwf k (env.clock 0)) h1 h2
    · exact WF_of_tables (WF_completeTask (WF_completeSubtask hwf k (env.clock 0)) tid
        (env.clock 1)) h1 h2

/-- Every store reached from the empty store is consistent. -/
theorem run_WF (trace : List (Env × Request)) : ∀ db : DB, db.WF → (run trace db).WF := by
  induction trace with
  | nil => intro db h; exact h
  | cons p rest ih =>
    intro db h
    obtain ⟨env, req⟩ := p
    exact ih _ (handle_WF h env req)

theorem empty_WF : DB.empty.WF := by decide

end Invariant

/-! ## C3: what a request that reports an error leaves behind -/

section Errors

/-- The row of a stored subtask after it is marked completed. -/
theorem subtask?_complete {db : DB} (hwf : db.WF) {s : Subtask} (hs : s ∈ db.subtasks)
    (c : Nat) :
    DB.subtask? { db with subtasks := setSubtask db.subtasks s.ID (Subtask.complete c) } s.ID
      = some (s.complete c) := by
  have hwf1 := WF_completeSubtask hwf s.ID c
  have hmem : s.complete c ∈ setSubtask db.subtasks s.ID (Subtask.complete c) := by
    unfold setSubtask
    exact List.mem_map.mpr ⟨s, hs, by simp⟩
  exact find_subtask_of_mem hwf1 hmem

end Errors

/-! ## C4, C6: how rows evolve under every request -/

section Evolution

theorem taskStep_refl (r : TaskRow) : r.Step r := ⟨Eq.refl _, Or.inl ⟨Eq.refl _, Eq.refl _⟩⟩

theorem subtaskStep_refl (s : Subtask) : s.Step s := ⟨Eq.refl _, Or.inl ⟨Eq.refl _, Eq.refl _⟩⟩

theorem tasks_evolve_subset (req : Request) {rows rows' : List TaskRow}
    (h : ∀ r ∈ rows', r ∈ rows) :
    ∀ r' ∈ rows', (∃ r ∈ rows, r.Step r') ∨ ((∀ r ∈ rows, r.ID ≠ r'.ID) ∧ req.insertsTask r') :=
  fun r' hr' => Or.inl ⟨r', h r' hr', taskStep_refl r'⟩

theorem subtasks_evolve_subset (req : Request) {rows rows' : List Subtask}
    (h : ∀ r ∈ rows', r ∈ rows) :
    ∀ s' ∈ rows', (∃ s ∈ rows, s.Step s') ∨
      ((∀ s ∈ rows, s.ID ≠ s'.ID) ∧ req.insertsSubtask s') :=
  fun s' hs' => Or.inl ⟨s', h s' hs', subtaskStep_refl s'⟩

theorem tasks_evolve_set (req : Request) (rows : List TaskRow) (id : Nat)
    (g : TaskRow → TaskRow) (hg : ∀ x : TaskRow, x.Step (g x)) :
    ∀ r' ∈ setTask rows id g, (∃ r ∈ rows, r.Step r') ∨
      ((∀ r ∈ rows, r.ID ≠ r'.ID) ∧ req.insertsTask r') := by
  intro r' hr'
  obtain ⟨r, hr, h | h⟩ := mem_setTask hr'
  · exact Or.inl ⟨r, hr, by rw [h.2]; exact hg r⟩
  · exact Or.inl ⟨r, hr, by rw [h.2]; exact taskStep_refl r⟩

theorem subtasks_evolve_set (req : Request) (rows : List Subtask) (id : Nat)
    (g : Subtask → Subtask) (hg : ∀ x : Subtask, x.Step (g x)) :
    ∀ s' ∈ setSubtask rows id g, (∃ s ∈ rows, s.Step s') ∨
      ((∀ s ∈ rows, s.ID ≠ s'.ID) ∧ req.insertsSubtask s') := by
  intro r' hr'
  obtain ⟨r, hr, h | h⟩ := mem_setSubtask hr'
  · exact Or.inl ⟨r, hr, by rw [h.2]; exact hg r⟩
  · exact Or.inl ⟨r, hr, by rw [h.2]; exact subtaskStep_refl r⟩

theorem step_complete_task (now : Nat) (r : TaskRow) : r.Step (r.complete now) :=
  ⟨Eq.refl _, Or.inr ⟨Eq.refl _, now, Eq.refl _⟩⟩

theorem step_complete_subtask (now : Nat) (s : Subtask) : s.Step (s.complete now) :=
  ⟨Eq.refl _, Or.inr ⟨Eq.refl _, now, Eq.refl _⟩⟩

/-- The batch insert of the subtasks of a new task: every resulting row is a
former row with at most its parent changed, or a row of the batch (property
`N`) under a key the table did not have. -/
theorem subtasks_evolve_fold (rows : List Subtask) (N : Subtask → Prop)
    (hN : ∀ (r : Subtask) (tid : Nat), N r → N { r with TaskID := tid }) :
    ∀ (elems : List Subtask) (acc : List Subtask), (∀ e ∈ elems, N e) →
      ((∀ s ∈ rows, ∃ a ∈ acc, a.ID = s.ID) ∧
        ∀ x ∈ acc, (∃ s ∈ rows, s.Step x) ∨ ((∀ s ∈ rows, s.ID ≠ x.ID) ∧ N x)) →
      ∀ x ∈ elems.foldl upsertRow acc,
        (∃ s ∈ rows, s.Step x) ∨ ((∀ s ∈ rows, s.ID ≠ x.ID) ∧ N x) := by
  intro elems
  induction elems with
  | nil => intro acc _ h; exact h.2
  | cons a l ih =>
    intro acc hel ⟨hkeys, hacc⟩
    simp only [List.foldl_cons]
    apply ih (upsertRow acc a) (fun e he => hel e (List.mem_cons_of_mem _ he))
    unfold upsertRow
    split
    · have hmap : ∀ x ∈ acc.map
          (fun r => if r.ID == a.ID then { r with TaskID := a.TaskID } else r),
          ∃ r ∈ acc, x = r ∨ x = { r with TaskID := a.TaskID } := by
        intro x hx
        obtain ⟨r, hr, hrx⟩ := List.mem_map.mp hx
        refine ⟨r, hr, ?_⟩
        by_cases hc : (r.ID == a.ID) = true
        · rw [if_pos hc] at hrx
          exact Or.inr hrx.symm
        · rw [if_neg hc] at hrx
          exact Or.inl hrx.symm
      constructor
      · intro s hs
        obtain ⟨b, hb, hbs⟩ := hkeys s hs
        refine ⟨_, List.mem_map_of_mem _ hb, ?_⟩
        by_cases hc : b.ID = a.ID
        · simp only [hc, beq_self_eq_true, if_true]; rw [← hbs, hc]
        · simp only [beq_iff_eq, hc, if_false]; exact hbs
      · intro x hx
        obtain ⟨r, hr, e1 | e1⟩ := hmap x hx
        · rw [e1]; exact hacc r hr
        · rw [e1]
          rcases hacc r hr with ⟨s, hs, hst⟩ | ⟨hf, hn⟩
          · exact Or.inl ⟨s, hs, hst⟩
          · exact Or.inr ⟨hf, hN r _ hn⟩
    · next hany =>
      simp only [List.any_eq_true, beq_iff_eq, not_exists, not_and] at hany
      constructor
      · intro s hs
        obtain ⟨b, hb, hbs⟩ := hkeys s hs
        exact ⟨b, List.mem_append_left _ hb, hbs⟩
      · intro x hx
        rcases List.mem_append.mp hx with h | h
        · exact hacc x h
        · rw [List.mem_singleton.mp h]
          right
          refine ⟨?_, hel a (List.mem_cons_self _ _)⟩
          intro s hs hsa
          obtain ⟨b, hb, hbs⟩ := hkeys s hs
          exact hany b hb (hbs.trans hsa)

/-- Every request takes the rows of a consistent store to rows that evolve
from them. -/
theorem handle_evolves {db : DB} (hwf : db.WF) (env : Env) (req : Request) :
    Evolves req db (handle env req db).2 := by
  have same : ∀ db1 : DB, db1.tasks = db.tasks → db1.subtasks = db.subtasks →
      Evolves req db db1 := by
    intro db1 h1 h2
    exact ⟨tasks_evolve_subset req (fun r hr => h1 ▸ hr),
      subtasks_evolve_subset req (fun r hr => h2 ▸ hr)⟩
  cases req with
  | addTask body =>
    rcases addTask_shape db env body with ⟨_, h1, h2⟩ |
      ⟨task, row, elems, hb, _, b1, b2, _, a2, _, a4, h1, h2⟩
    · exact same _ h1 h2
    · subst hb
      constructor
      · intro r' hr'
        have hr2 : r' ∈ (addTask env (some task) db).2.tasks := hr'
        rw [h1] at hr2
        rcases List.mem_append.mp hr2 with h | h
        · exact Or.inl ⟨r', h, taskStep_refl r'⟩
        · rw [List.mem_singleton.mp h]
          exact Or.inr ⟨a2, task, rfl, b1, b2⟩
      · intro s' hs'
        have hs2 : s' ∈ (addTask env (some task) db).2.subtasks := hs'
        rw [h2] at hs2
        have := subtasks_evolve_fold db.subtasks
          (fun x => ∃ s0 ∈ task.Subtasks, x.Status = defaultStatus s0.Status ∧
            x.CompletedAt = s0.CompletedAt)
          (fun r tid hr => hr) elems db.subtasks
          (fun e he => (a4 e he).2.2.2)
          ⟨fun s hs => ⟨s, hs, rfl⟩, fun x hx => Or.inl ⟨x, hx, subtaskStep_refl x⟩⟩ s' hs2
        rcases this with h | ⟨hf, s0, hs0, e1, e2⟩
        · exact Or.inl h
        · exact Or.inr ⟨hf, Or.inl ⟨task, s0, rfl, hs0, e1, e2⟩⟩
  | showOngoingTask =>
    have h1 : (showOngoingTask env db).2 = db := by unfold showOngoingTask; split <;> rfl
    exact same _ (congrArg DB.tasks h1) (congrArg DB.subtasks h1)
  | deleteTask id =>
    obtain ⟨subs, n, _, hs, ⟨_, ht⟩ | ⟨_, p, ht, _⟩⟩ := deleteTask_shape db env id
    · exact ⟨tasks_evolve_subset _ (fun r hr => ht ▸ hr),
        subtasks_evolve_subset _ (fun r hr => by
          have hr2 : r ∈ (deleteTask env id db).2.subtasks := hr
          rw [hs] at hr2; exact List.mem_of_mem_filter hr2)⟩
    · exact ⟨tasks_evolve_subset _ (fun r hr => by
          have hr2 : r ∈ (deleteTask env id db).2.tasks := hr
          rw [ht] at hr2; exact List.mem_of_mem_filter hr2),
        subtasks_evolve_subset _ (fun r hr => by
          have hr2 : r ∈ (deleteTask env id db).2.subtasks := hr
          rw [hs] at hr2; exact List.mem_of_mem_filter hr2)⟩
  | editTask id body =>
    rcases editTask_shape hwf env id body with ⟨_, h1, h2⟩ | ⟨title, k, _, _, _, h1, h2⟩
    · exact same _ h1 h2
    · refine ⟨fun r' hr' => ?_, subtasks_evolve_subset _ (fun r hr => h2 ▸ hr)⟩
      have hr2 : r' ∈ (editTask env id body db).2.tasks := hr'
      rw [h1] at hr2
      exact tasks_evolve_set _ db.tasks k (fun r => { r with Title := title })
        (fun x => ⟨rfl, Or.inl ⟨rfl, rfl⟩⟩) r' hr2
  | completingTask id =>
    rcases completingTask_shape hwf env id with ⟨_, h1, h2⟩ | ⟨k, _, h1, h2⟩
    · exact same _ h1 h2
    · refine ⟨fun r' hr' => ?_, subtasks_evolve_subset _ (fun r hr => h2 ▸ hr)⟩
      have hr2 : r' ∈ (completingTask env id db).2.tasks := hr'
      rw [h1] at hr2
      exact tasks_evolve_set _ db.tasks k _ (step_complete_task _) r' hr2
  | showCompletedTask =>
    have h1 : (showCompletedTask env db).2 = db := by unfold showCompletedTask; split <;> rfl
    exact same _ (congrArg DB.tasks h1) (congrArg DB.subtasks h1)
  | addDeadline id body =>
    rcases addDeadline_shape hwf env id body with ⟨_, h1, h2⟩ | ⟨deadline, k, _, h1, h2⟩
    · exact same _ h1 h2
    · refine ⟨fun r' hr' => ?_, subtasks_evolve_subset _ (fun r hr => h2 ▸ hr)⟩
      have hr2 : r' ∈ (addDeadline env id body db).2.tasks := hr'
      rw [h1] at hr2
      exact tasks_evolve_set _ db.tasks k (fun r => { r with Deadline := some deadline })
        (fun x => ⟨rfl, Or.inl ⟨rfl, rfl⟩⟩) r' hr2
  | addSubtask idTask body =>
    rcases addSubtask_shape db env idTask body with ⟨_, h1, h2⟩ |
      ⟨sub, row, hb, _, b1, b2, _, a2, _, _, h1, h2⟩
    · exact same _ h1 h2
    · subst hb
      refine ⟨tasks_evolve_subset _ (fun r hr => h1 ▸ hr), fun s' hs' => ?_⟩
      have hs2 : s' ∈ (addSubtask env idTask (some sub) db).2.subtasks := hs'
      rw [h2] at hs2
      rcases List.mem_append.mp hs2 with h | h
      · exact Or.inl ⟨s', h, subtaskStep_refl s'⟩
      · rw [List.mem_singleton.mp h]
        exact Or.inr ⟨a2, Or.inr ⟨idTask, sub, rfl, b1, b2⟩⟩
  | deleteSubtask id =>
    rcases deleteSubtask_shape db env id with ⟨_, h1, h2⟩ | ⟨p, _, h1, h2⟩
    · exact same _ h1 h2
    · exact ⟨tasks_evolve_subset _ (fun r hr => h1 ▸ hr),
        subtasks_evolve_subset _ (fun r hr => by
          have hr2 : r ∈ (deleteSubtask env id db).2.subtasks := hr
          rw [h2] at hr2; exact List.mem_of_mem_filter hr2)⟩
  | editSubtask id body =>
    rcases editSubtask_shape hwf env id body with ⟨_, h1, h2⟩ | ⟨title, k, _, _, _, h1, h2⟩
    · exact same _ h1 h2
    · refine ⟨tasks_evolve_subset _ (fun r hr => h1 ▸ hr), fun s' hs' => ?_⟩
      have hs2 : s' ∈ (editSubtask env id body db).2.subtasks := hs'
      rw [h2] at hs2
      exact subtasks_evolve_set _ db.subtasks k (fun s => { s with Title := title })
        (fun x => ⟨rfl, Or.inl ⟨rfl, rfl⟩⟩) s' hs2
  | completingSubtask id =>
    have hsub : ∀ (db1 : DB) (k : Nat),
        db1.subtasks = setSubtask db.subtasks k (Subtask.complete (env.clock 0)) →
        ∀ s' ∈ db1.subtasks, (∃ s ∈ db.subtasks, s.Step s') ∨
          ((∀ s ∈ db.subtasks, s.ID ≠ s'.ID) ∧
            (Request.completingSubtask id).insertsSubtask s') := by
      intro db1 k h s' hs'
      rw [h] at hs'
      exact subtasks_evolve_set _ db.subtasks k _ (step_complete_subtask _) s' hs'
    rcases completingSubtask_shape hwf env id with ⟨_, h1, h2 | ⟨s, _, _, _, _, h2⟩⟩ |
      ⟨k, _, h2, h1 | ⟨tid, h1⟩⟩
    · exact same _ h1 h2
    · exact ⟨tasks_evolve_subset _ (fun r hr => h1 ▸ hr), hsub _ _ h2⟩
    · exact ⟨tasks_evolve_subset _ (fun r hr => h1 ▸ hr), hsub _ _ h2⟩
    · refine ⟨fun r' hr' => ?_, hsub _ _ h2⟩
      have hr2 : r' ∈ (completingSubtask env id db).2.tasks := hr'
      rw [h1] at hr2
      exact tasks_evolve_set _ db.tasks tid _ (step_complete_task _) r' hr2

theorem stamped_default {st : String} {c : Option Nat} (h : stamped st c) :
    stamped (defaultStatus st) c := by
  unfold stamped defaultStatus at *
  split
  · next he =>
    subst he
    rw [h]
    constructor
    · intro h2; exact absurd h2 (by decide)
    · intro h2; exact absurd h2 (by decide)
  · exact h

theorem stamped_step {st st' : String} {c c' : Option Nat} (h : stamped st c)
    (hs : (st' = st ∧ c' = c) ∨ (st' = "completed" ∧ ∃ now, c' = some now)) :
    stamped st' c' := by
  rcases hs with ⟨e1, e2⟩ | ⟨e1, now, e2⟩
  · rw [e1, e2]; exact h
  · rw [e1, e2]; unfold stamped; simp

/-- A request whose body meets I4 takes a consistent store that meets I4 to a
store that meets I4. -/
theorem handle_I4 {db : DB} (hwf : db.WF) (hI : db.I4) (env : Env) (req : Request)
    (hbody : req.stampedBody) : (handle env req db).2.I4 := by
  obtain ⟨hT, hS⟩ := handle_evolves hwf env req
  constructor
  · intro r' hr'
    rcases hT r' hr' with ⟨r0, hr0, _, hst⟩ | ⟨_, task, hreq, e1, e2⟩
    · exact stamped_step (hI.1 r0 hr0) hst
    · subst hreq
      rw [e1, e2]
      exact stamped_default hbody.1
  · intro s' hs'
    rcases hS s' hs' with ⟨s0, hs0, _, hst⟩ | ⟨_, ⟨task, s0, hreq, hs0, e1, e2⟩ |
      ⟨idTask, s0, hreq, e1, e2⟩⟩
    · exact stamped_step (hI.2 s0 hs0) hst
    · subst hreq
      rw [e1, e2]
      exact stamped_default (hbody.2 s0 hs0)
    · subst hreq
      rw [e1, e2]
      exact stamped_default hbody

theorem run_WF_I4 (trace : List (Env × Request)) :
    ∀ db : DB, db.WF → db.I4 → (∀ p ∈ trace, p.2.stampedBody) →
      (run trace db).WF ∧ (run trace db).I4 := by
  induction trace with
  | nil => intro db h1 h2 _; exact ⟨h1, h2⟩
  | cons p rest ih =>
    intro db h1 h2 hb
    obtain ⟨env, req⟩ := p
    exact ih _ (handle_WF h1 env req)
      (handle_I4 h1 h2 env req (hb (env, req) (List.mem_cons_self _ _)))
      (fun q hq => hb q (List.mem_cons_of_mem _ hq))

end Evolution

/-! ## C10: two complete-subtask requests interleaved -/

section Interleaving

theorem preloadFirstTask_eq (db : DB) (fail : Bool) (id : Nat) :
    db.preloadFirstTask fail id =
      match db.firstTaskKey fail id with
      | none => none
      | some r => some (r.load (db.subtasksOf r.ID)) := by
  unfold DB.preloadFirstTask DB.firstTaskKey
  cases fail <;> simp

/-- The statements of `Proc.step`, run one after the other with nothing in
between, are the complete-subtask handler. -/
theorem runAlone_eq_completingSubtask (env : Env) (id : String) (db : DB) :
    ∃ flag, Proc.runAlone env id db
      = (Proc.done (completingSubtask env id db).1 flag, (completingSubtask env id db).2) := by
  unfold Proc.runAlone completingSubtask
  cases h0 : db.firstSubtask env (env.f 0) id with
  | none => exact ⟨none, by simp [Proc.step, h0]⟩
  | some s =>
    dsimp only
    cases h1 : db.saveSubtask (env.f 1)
        { s with Status := "completed", CompletedAt := some (env.clock 0) } with
    | mk o db1 =>
      cases o with
      | none => exact ⟨none, by simp [Proc.step, h0, h1]⟩
      | some sub =>
        dsimp only
        rw [preloadFirstTask_eq]
        cases h2 : db1.firstTaskKey (env.f 2) sub.TaskID with
        | none => exact ⟨none, by simp [Proc.step, h0, h1, h2]⟩
        | some row =>
          dsimp only
          cases h3 : checkAllSubtaskCompleted env 3 1 (row.load (db1.subtasksOf row.ID)) db1 with
          | mk ok db2 =>
            refine ⟨some (flaggingCompleted (db1.subtasksOf row.ID)), ?_⟩
            have hsub : (row.load (db1.subtasksOf row.ID)).Subtasks = db1.subtasksOf row.ID := rfl
            cases ok <;> simp [Proc.step, h0, h1, h2, h3, hsub]

/-- Writing back subtasks loaded earlier changes nothing, as long as every one
of them still has a row with its key under the same parent. -/
theorem upsertSubtasks_stale (db : DB) (tid : Nat) (elems : List Subtask)
    (hnd : (db.subtasks.map Subtask.ID).Nodup)
    (hex : db.tasks.any (fun t => t.ID == tid) = true)
    (hS : ∀ e ∈ elems, e.valid = true ∧ e.ID ≠ 0 ∧ e.TaskID = tid ∧
      ∃ x ∈ db.subtasks, x.ID = e.ID ∧ x.TaskID = tid)
    (hnde : (elems.map Subtask.ID).Nodup) :
    DB.upsertSubtasks db tid elems = (some elems, db) := by
  have hfold : ∀ (l : List Subtask), (∀ e ∈ l, e ∈ elems) →
      l.foldl upsertRow db.subtasks = db.subtasks := by
    intro l
    induction l with
    | nil => intro _; rfl
    | cons e l ih =>
      intro hl
      obtain ⟨_, _, h3, x, hx, hxid, hxt⟩ := hS e (hl e (List.mem_cons_self _ _))
      have hrow : upsertRow db.subtasks e = db.subtasks := by
        unfold upsertRow
        have hany : db.subtasks.any (fun r => r.ID == e.ID) = true := by
          simp only [List.any_eq_true]; exact ⟨x, hx, by simp [hxid]⟩
        rw [if_pos hany]
        conv_rhs => rw [← List.map_id db.subtasks]
        apply List.map_congr_left
        intro r hr
        by_cases h : (r.ID == e.ID) = true
        · have hre : r.ID = e.ID := by simpa using h
          have hrx : r = x := List.inj_on_of_nodup_map hnd hr hx (hre.trans hxid.symm)
          have hrt : e.TaskID = r.TaskID := by rw [hrx, hxt, h3]
          rw [if_pos h, hrt]
          rfl
        · rw [if_neg h]; rfl
      simp only [List.foldl_cons, hrow]
      exact ih (fun e he => hl e (List.mem_cons_of_mem _ he))
  unfold DB.upsertSubtasks
  cases elems with
  | nil => rfl
  | cons a l =>
    have hfk : (a :: l).map (fun s => { s with TaskID := tid, Status := defaultStatus s.Status })
        = a :: l := by
      conv_rhs => rw [← List.map_id (a :: l)]
      apply List.map_congr_left
      intro s hs
      obtain ⟨h1, _, h3, _⟩ := hS s hs
      simp only [Subtask.valid, Bool.and_eq_true] at h1
      rw [valid_status_ne_empty h1.1, ← h3]
      rfl
    simp only [hfk]
    rw [assignSubtaskIDs_nonzero _ _ (fun s hs => (hS s hs).2.1)]
    have hall : (a :: l).all Subtask.valid = true := by
      rw [List.all_eq_true]; exact fun s hs => (hS s hs).1
    simp only [hall, hnde, hex, decide_True, Bool.and_self, if_true]
    rw [hfold (a :: l) (fun e he => he)]

/-- A `Save` of a task whose row is stored, with subtasks loaded earlier that
all still have a row under this task: the task row is replaced and nothing
else changes. -/
theorem saveTask_stale {db : DB} (hwf : db.WF) (now : Nat) (task : Task) {r : TaskRow}
    (hr : r ∈ db.tasks) (hid : task.ID = r.ID) (hv : task.row.valid = true)
    (hS : ∀ e ∈ task.Subtasks, e.valid = true ∧ e.ID ≠ 0 ∧ e.TaskID = task.ID ∧
      ∃ x ∈ db.subtasks, x.ID = e.ID ∧ x.TaskID = task.ID)
    (hnde : (task.Subtasks.map Subtask.ID).Nodup) :
    db.saveTask false now task
      = (some task, { db with tasks := setTask db.tasks task.ID (fun _ => task.row) }) := by
  have hnz : task.ID ≠ 0 := by rw [hid]; exact hwf.2.2.1 r hr
  have hany : db.tasks.any (fun x => x.ID == task.ID) = true := by
    rw [hid]; exact any_task_of_mem hr
  unfold DB.saveTask
  simp only [Bool.false_eq_true, if_false, hnz, hany, hv, if_true]
  have hex : (db.tasks.map (fun x => if x.ID == task.ID then task.row else x)).any
      (fun t => t.ID == task.ID) = true := by
    simp only [List.any_map, List.any_eq_true]
    exact ⟨r, hr, by simp [hid, Task.row]⟩
  have := upsertSubtasks_stale
    { db with tasks := (db.tasks.map (fun x => if x.ID == task.ID then task.row else x)) }
    task.ID task.Subtasks hwf.2.1 hex hS hnde
  rw [this]
  rfl

theorem Race.RowT_complete {R : Race} {row : TaskRow} (h : R.RowT row) (c : Nat) :
    row.complete c = R.t.complete c := by
  rcases h with h | ⟨c2, h⟩
  · rw [h]
  · rw [h]; rfl

theorem Race.G_title {R : Race} {db : DB} (hG : R.G db) : validTitle R.t.Title = true := by
  obtain ⟨hwf, ⟨row, hrow, _, hT⟩, _⟩ := hG
  have hv := hwf.2.2.2.2.2.1 row hrow
  simp only [TaskRow.valid, Bool.and_eq_true] at hv
  rcases hT with h | ⟨c, h⟩ <;> rw [h] at hv <;> exact hv.2

theorem mem_complete_setSubtask {rows : List Subtask} {s : Subtask} (hs : s ∈ rows) (c : Nat) :
    s.complete c ∈ setSubtask rows s.ID (Subtask.complete c) := by
  unfold setSubtask
  exact List.mem_map.mpr ⟨s, hs, by simp⟩

theorem mem_complete_setTask {rows : List TaskRow} {r : TaskRow} (hr : r ∈ rows) (c : Nat) :
    r.complete c ∈ setTask rows r.ID (TaskRow.complete c) := by
  unfold setTask
  exact List.mem_map.mpr ⟨r, hr, by simp⟩

/-- One step of one of the two requests: what it keeps and what it adds. -/
theorem Race.step_self (R : Race) (env : Env) (s : Subtask) (hok : ∀ k, env.f k = false)
    (hst : s.TaskID = R.t.ID) {id : String} (hid : atoi id = some (s.ID : Int))
    {db : DB} {p : Proc} (hG : R.G db) (hP : R.P env s db p)
    (hrows : ∀ i, i = R.s1.ID ∨ i = R.s2.ID →
      ∃ x ∈ db.subtasks, x.ID = i ∧ x.TaskID = R.t.ID) :
    R.G (Proc.step env id p db).2 ∧
    R.P env s (Proc.step env id p db).2 (Proc.step env id p db).1 ∧
    (∀ x ∈ db.subtasks, x.ID ≠ s.ID → x ∈ (Proc.step env id p db).2.subtasks) ∧
    (R.taskDone db → R.taskDone (Proc.step env id p db).2) ∧
    ((Proc.step env id p db).1.succeededWith true →
      p.succeededWith true ∨ R.taskDone (Proc.step env id p db).2) ∧
    ((p.stage ≠ 3 ∧ (Proc.step env id p db).1.observed = p.observed) ∨
      (p.stage = 3 ∧ s.complete (env.clock 0) ∈ db.subtasks ∧
        (Proc.step env id p db).1.observed
          = some (flaggingCompleted (db.subtasksOf R.t.ID)))) ∧
    (Proc.step env id p db).1.stage = min (p.stage + 1) 5 ∧
    ((p.stage = 4 ∧ p.observed = some true ∧
        (Proc.step env id p db).2.task? R.t.ID = some (R.t.complete (env.clock 1))) ∨
      (¬ (p.stage = 4 ∧ p.observed = some true) ∧
        (Proc.step env id p db).2.tasks = db.tasks)) := by
  have hwf := hG.1
  cases p with
  | start =>
    have hs : s ∈ db.subtasks := hP
    have hfirst : db.firstSubtask env (env.f 0) id = some s := by
      rw [hok]
      exact firstSubtask_key hwf env hs hid
    have hstep : Proc.step env id Proc.start db
        = (Proc.loaded (s.complete (env.clock 0)), db) := by
      simp only [Proc.step, hfirst]; rfl
    rw [hstep]
    exact ⟨hG, ⟨hs, rfl⟩, fun x hx _ => hx, fun h => h, fun h => h.elim,
      Or.inl ⟨by simp [Proc.stage], rfl⟩, by simp [Proc.stage], Or.inr ⟨fun h => absurd h.1 (by simp [Proc.stage]), rfl⟩⟩
  | loaded sub =>
    obtain ⟨hs, hsub⟩ := hP
    subst hsub
    have hsave : db.saveSubtask (env.f 1) (s.complete (env.clock 0))
        = (some (s.complete (env.clock 0)),
          { db with subtasks := setSubtask db.subtasks s.ID (Subtask.complete (env.clock 0)) }) := by
      rw [hok, ← setSubtask_const hwf hs (Subtask.complete (env.clock 0))]
      exact saveSubtask_update hwf (s.complete (env.clock 0)) hs rfl
        (valid_complete_sub (env.clock 0) (hwf.2.2.2.2.2.2 s hs)) rfl
    have hstep : Proc.step env id (Proc.loaded (s.complete (env.clock 0))) db
        = (Proc.saved (s.complete (env.clock 0)),
          { db with subtasks := setSubtask db.subtasks s.ID (Subtask.complete (env.clock 0)) }) := by
      simp only [Proc.step, hsave]
    rw [hstep]
    refine ⟨⟨WF_completeSubtask hwf _ _, hG.2.1, ?_⟩, ⟨mem_complete_setSubtask hs _, rfl⟩,
      fun x hx hne => mem_setSubtask_of_ne hx hne, fun h => h, fun h => h.elim,
      Or.inl ⟨by simp [Proc.stage], rfl⟩, by simp [Proc.stage], Or.inr ⟨fun h => absurd h.1 (by simp [Proc.stage]), rfl⟩⟩
    intro x hx hxt
    obtain ⟨r, hr, h | h⟩ := mem_setSubtask hx
    · rw [h.2] at hxt ⊢; exact hG.2.2 r hr hxt
    · rw [h.2] at hxt ⊢; exact hG.2.2 r hr hxt
  | saved sub =>
    obtain ⟨hs, hsub⟩ := hP
    subst hsub
    obtain ⟨row, hrow, hrid, hT⟩ := hG.2.1
    have hfirst : db.firstTaskKey (env.f 2) (s.complete (env.clock 0)).TaskID = some row := by
      simp only [DB.firstTaskKey, hok, Bool.false_eq_true, if_false]
      have : (s.complete (env.clock 0)).TaskID = row.ID := hst.trans hrid.symm
      rw [this]
      exact find_task_of_mem hwf hrow
    have hstep : Proc.step env id (Proc.saved (s.complete (env.clock 0))) db
        = (Proc.taskRead (s.complete (env.clock 0)) row, db) := by
      simp only [Proc.step, hfirst]
    rw [hstep]
    exact ⟨hG, ⟨hs, rfl, hrid, hT⟩, fun x hx _ => hx, fun h => h, fun h => h.elim,
      Or.inl ⟨by simp [Proc.stage], rfl⟩, by simp [Proc.stage], Or.inr ⟨fun h => absurd h.1 (by simp [Proc.stage]), rfl⟩⟩
  | taskRead sub row =>
    obtain ⟨hs, hsub, hrid, hT⟩ := hP
    subst hsub
    have hstep : Proc.step env id (Proc.taskRead (s.complete (env.clock 0)) row) db
        = (Proc.preloaded (s.complete (env.clock 0)) (row.load (db.subtasksOf R.t.ID)), db) := by
      simp only [Proc.step, hrid]
    rw [hstep]
    refine ⟨hG, ⟨hs, rfl, hrid, hT, ?_, ?_⟩, fun x hx _ => hx, fun h => h, fun h => h.elim,
      Or.inr ⟨rfl, hs, rfl⟩, by simp [Proc.stage], Or.inr ⟨fun h => absurd h.1 (by simp [Proc.stage]), rfl⟩⟩
    · intro e he
      have he1 : e ∈ db.subtasksOf R.t.ID := he
      have he2 : e ∈ db.subtasks ∧ e.TaskID = R.t.ID := by
        simpa [DB.subtasksOf, List.mem_filter] using he1
      exact ⟨hwf.2.2.2.2.2.2 e he2.1, hwf.2.2.2.1 e he2.1, he2.2, hG.2.2 e he2.1 he2.2⟩
    · exact ((List.filter_sublist _).map Subtask.ID).nodup hwf.2.1
  | preloaded sub task =>
    obtain ⟨hs, hsub, htid, hT, hSnap⟩ := hP
    subst hsub
    by_cases hflag : flaggingCompleted task.Subtasks = true
    · obtain ⟨row, hrow, hrid, hT0⟩ := hG.2.1
      obtain ⟨task2, htask2⟩ : ∃ task2 : Task,
          task2 = (task.row.complete (env.clock 1)).load task.Subtasks := ⟨_, rfl⟩
      have hrowc : task2.row = R.t.complete (env.clock 1) := by
        rw [htask2]; exact Race.RowT_complete hT (env.clock 1)
      have hv : task2.row.valid = true := by
        rw [hrowc]
        simp only [TaskRow.valid, TaskRow.complete, Bool.and_eq_true]
        exact ⟨by decide, Race.G_title hG⟩
      have htid2 : task2.ID = row.ID := by
        rw [htask2]; exact htid.trans hrid.symm
      have hsubs2 : task2.Subtasks = task.Subtasks := by rw [htask2]; rfl
      have hsave := saveTask_stale hwf (env.clock (1 + 1)) task2 hrow htid2 hv
        (fun e he => by
          rw [hsubs2] at he
          obtain ⟨x, hx, hxid, hxt⟩ := hrows e.ID (hSnap.1 e he).2.2.2
          exact ⟨(hSnap.1 e he).1, (hSnap.1 e he).2.1,
            (hSnap.1 e he).2.2.1.trans (hrid.symm.trans htid2.symm),
            x, hx, hxid, hxt.trans (hrid.symm.trans htid2.symm)⟩)
        (by rw [hsubs2]; exact hSnap.2)
      have hconst : setTask db.tasks row.ID (fun _ => R.t.complete (env.clock 1))
          = setTask db.tasks row.ID (TaskRow.complete (env.clock 1)) := by
        rw [← Race.RowT_complete hT0 (env.clock 1)]
        exact setTask_const hwf hrow (TaskRow.complete (env.clock 1))
      rw [hrowc, htid2, hconst] at hsave
      have hstep : Proc.step env id (Proc.preloaded (s.complete (env.clock 0)) task) db
          = (Proc.done { status := 200, message := "Subtask successfully completed",
                         payload := Payload.subtask (s.complete (env.clock 0)) }
              (some (flaggingCompleted task.Subtasks)),
            { db with tasks := setTask db.tasks row.ID (TaskRow.complete (env.clock 1)) }) := by
        have hcheck : checkAllSubtaskCompleted env 3 1 task db
            = (match db.saveTask (env.f 3) (env.clock (1 + 1)) task2 with
              | (none, db1) => (false, db1)
              | (some _, db1) => (true, db1)) := by
          unfold checkAllSubtaskCompleted
          rw [if_pos hflag, htask2]
          rfl
        simp only [Proc.step, hcheck, hok, hsave]
      rw [hstep]
      have hdone : R.taskDone
          { db with tasks := setTask db.tasks row.ID (TaskRow.complete (env.clock 1)) } :=
        ⟨row.complete (env.clock 1), mem_complete_setTask hrow _, hrid, rfl⟩
      have hrowNew : DB.task?
          { db with tasks := setTask db.tasks row.ID (TaskRow.complete (env.clock 1)) } R.t.ID
          = some (R.t.complete (env.clock 1)) := by
        have := find_task_of_mem (WF_completeTask hwf row.ID (env.clock 1))
          (mem_complete_setTask hrow (env.clock 1))
        rw [Race.RowT_complete hT0 (env.clock 1)] at this
        exact this
      refine ⟨⟨WF_completeTask hwf _ _, ?_, hG.2.2⟩, ⟨hs, rfl, by simp⟩,
        fun x hx _ => hx, fun _ => hdone, fun _ => Or.inr hdone, Or.inl ⟨by simp [Proc.stage], rfl⟩,
        by simp [Proc.stage], Or.inl ⟨rfl, by simp [Proc.observed, hflag], hrowNew⟩⟩
      exact ⟨row.complete (env.clock 1), mem_complete_setTask hrow _, hrid,
        Or.inr ⟨env.clock 1, Race.RowT_complete hT0 _⟩⟩
    · have hstep : Proc.step env id (Proc.preloaded (s.complete (env.clock 0)) task) db
          = (Proc.done { status := 200, message := "Subtask successfully completed",
                         payload := Payload.subtask (s.complete (env.clock 0)) }
              (some (flaggingCompleted task.Subtasks)), db) := by
        simp only [Proc.step, checkAllSubtaskCompleted, hflag, Bool.false_eq_true, if_false]
      rw [hstep]
      refine ⟨hG, ⟨hs, rfl, by simp⟩, fun x hx _ => hx, fun h => h, fun h => ?_,
        Or.inl ⟨by simp [Proc.stage], rfl⟩, by simp [Proc.stage], Or.inr ⟨fun h => ?_, rfl⟩⟩
      · exfalso
        simp only [Proc.succeededWith, Option.some.injEq] at h
        exact hflag h.2
      · have h2 := h.2
        simp only [Proc.observed, Option.some.injEq] at h2
        exact hflag h2
  | done resp flag =>
    have hstep : Proc.step env id (Proc.done resp flag) db = (Proc.done resp flag, db) := rfl
    rw [hstep]
    exact ⟨hG, hP, fun x hx _ => hx, fun h => h, fun h => Or.inl h, Or.inl ⟨by simp [Proc.stage], rfl⟩,
      by simp [Proc.stage], Or.inr ⟨fun h => absurd h.1 (by simp [Proc.stage]), rfl⟩⟩

theorem Race.P_row {R : Race} {env : Env} {s : Subtask} {db : DB} {p : Proc}
    (h : R.P env s db p) : ∃ x ∈ db.subtasks, x.ID = s.ID ∧ x.TaskID = s.TaskID := by
  cases p with
  | start => exact ⟨s, h, rfl, rfl⟩
  | loaded sub => exact ⟨s, h.1, rfl, rfl⟩
  | saved sub => exact ⟨_, h.1, rfl, rfl⟩
  | taskRead sub row => exact ⟨_, h.1, rfl, rfl⟩
  | preloaded sub task => exact ⟨_, h.1, rfl, rfl⟩
  | done resp flag => exact ⟨_, h.1, rfl, rfl⟩

theorem Race.P_frame {R : Race} {env : Env} {s : Subtask} {db db1 : DB} {p : Proc}
    (h : R.P env s db p) (hf : ∀ x ∈ db.subtasks, x.ID = s.ID → x ∈ db1.subtasks) :
    R.P env s db1 p := by
  cases p with
  | start => exact hf s h rfl
  | loaded sub => exact ⟨hf s h.1 rfl, h.2⟩
  | saved sub => exact ⟨hf _ h.1 rfl, h.2⟩
  | taskRead sub row => exact ⟨hf _ h.1 rfl, h.2⟩
  | preloaded sub task => exact ⟨hf _ h.1 rfl, h.2⟩
  | done resp flag => exact ⟨hf _ h.1 rfl, h.2⟩

theorem Race.P_observed {R : Race} {env : Env} {s : Subtask} {db : DB} {p : Proc}
    (h : R.P env s db p) (ho : p.observed ≠ none) : s.complete (env.clock 0) ∈ db.subtasks := by
  cases p with
  | start => exact absurd rfl ho
  | loaded sub => exact absurd rfl ho
  | saved sub => exact absurd rfl ho
  | taskRead sub row => exact absurd rfl ho
  | preloaded sub task => exact h.1
  | done resp flag => exact h.1

theorem Race.P_unsaved {R : Race} {env : Env} {s : Subtask} {db : DB} {p : Proc}
    (h : R.P env s db p) (hst : p.stage < 2) : s ∈ db.subtasks := by
  cases p with
  | start => exact h
  | loaded sub => exact h.1
  | saved sub => simp [Proc.stage] at hst
  | taskRead sub row => simp [Proc.stage] at hst
  | preloaded sub task => simp [Proc.stage] at hst
  | done resp flag => simp [Proc.stage] at hst

theorem Race.P_saved {R : Race} {env : Env} {s : Subtask} {db : DB} {p : Proc}
    (h : R.P env s db p) (hst : 2 ≤ p.stage) : s.complete (env.clock 0) ∈ db.subtasks := by
  cases p with
  | start => simp [Proc.stage] at hst
  | loaded sub => simp [Proc.stage] at hst
  | saved sub => exact h.1
  | taskRead sub row => exact h.1
  | preloaded sub task => exact h.1
  | done resp flag => exact h.1

/-- Once both subtasks are stored as completed, the loop over the subtasks of
the task leaves the flag set. -/
theorem Race.flag_both {R : Race} {db : DB} (hG : R.G db) (cA cB : Nat)
    (hA : R.s1.complete cA ∈ db.subtasks) (hB : R.s2.complete cB ∈ db.subtasks) :
    flaggingCompleted (db.subtasksOf R.t.ID) = true := by
  rw [flaggingCompleted_iff]
  intro x hx
  have hx2 : x ∈ db.subtasks ∧ x.TaskID = R.t.ID := by
    simpa [DB.subtasksOf, List.mem_filter] using hx
  rcases hG.2.2 x hx2.1 hx2.2 with h | h
  · rw [WF.subtask_inj hG.1 hx2.1 hA h]; rfl
  · rw [WF.subtask_inj hG.1 hx2.1 hB h]; rfl

/-- As long as a subtask of the task is stored as not completed, the loop over
the subtasks of the task clears the flag. -/
theorem flag_unsaved {db : DB} {s : Subtask} {tid : Nat} (hs : s ∈ db.subtasks)
    (hst : s.TaskID = tid) (hong : s.Status ≠ "completed") :
    flaggingCompleted (db.subtasksOf tid) = false := by
  cases h : flaggingCompleted (db.subtasksOf tid) with
  | false => rfl
  | true =>
    exfalso
    refine hong ((flaggingCompleted_iff _).mp h s ?_)
    simp [DB.subtasksOf, List.mem_filter, hs, hst]

/-- Every step of either request keeps the invariant of the race. -/
theorem Race.Inv_step (R : Race) (hokA : ∀ k, R.envA.f k = false)
    (hokB : ∀ k, R.envB.f k = false) (h1 : R.s1.TaskID = R.t.ID) (h2 : R.s2.TaskID = R.t.ID)
    (hne : R.s1.ID ≠ R.s2.ID) (hong1 : R.s1.Status ≠ "completed")
    (hong2 : R.s2.Status ≠ "completed") {idA idB : String}
    (hidA : atoi idA = some (R.s1.ID : Int)) (hidB : atoi idB = some (R.s2.ID : Int))
    (who : Bool) (τ : Tally) (σ : Sys) (hI : R.Inv τ σ) :
    R.Inv (τ.step who) (Sys.step R.envA R.envB idA idB who σ) := by
  obtain ⟨hG, hPa, hPb, hK, hT, hNa, hNb, hOa, hOb, hRow⟩ := hI
  have hrows : ∀ i, i = R.s1.ID ∨ i = R.s2.ID →
      ∃ x ∈ σ.db.subtasks, x.ID = i ∧ x.TaskID = R.t.ID := by
    intro i hi
    rcases hi with h | h
    · obtain ⟨x, hx, e1, e2⟩ := Race.P_row hPa
      exact ⟨x, hx, e1.trans h.symm, e2.trans h1⟩
    · obtain ⟨x, hx, e1, e2⟩ := Race.P_row hPb
      exact ⟨x, hx, e1.trans h.symm, e2.trans h2⟩
  cases who with
  | true =>
    obtain ⟨g1, g2, g3, g4, g5, g6, g7, g8⟩ :=
      Race.step_self R R.envA R.s1 hokA h1 hidA hG hPa hrows
    have hstep : Sys.step R.envA R.envB idA idB true σ
        = { db := (Proc.step R.envA idA σ.a σ.db).2,
            a := (Proc.step R.envA idA σ.a σ.db).1, b := σ.b } := rfl
    have hτ : τ.step true =
        { na := τ.na + 1,
          nb := τ.nb,
          seenA := if τ.na = 3 then some (decide (2 ≤ τ.nb)) else τ.seenA,
          seenB := τ.seenB,
          last := if τ.na = 4 ∧ τ.seenA = some true then some true else τ.last } := rfl
    rw [hstep, hτ]
    refine ⟨g1, g2, Race.P_frame hPb (fun x hx hxid => g3 x hx (fun h => hne (h.symm.trans hxid))),
      ?_, ?_, ?_, hNb, ?_, hOb, ?_⟩
    · rintro ⟨ha, hb⟩
      rcases g6 with ⟨_, h⟩ | ⟨_, hmem, h⟩
      · exact hK ⟨h ▸ ha, hb⟩
      · have hmemB := Race.P_observed hPb (by
          intro hn
          have hb2 : σ.b.observed = some false := hb
          rw [hn] at hb2; cases hb2)
        have := Race.flag_both hG _ _ hmem hmemB
        have ha2 : (Proc.step R.envA idA σ.a σ.db).1.observed = some false := ha
        rw [h, this] at ha2
        cases ha2
    · rintro (h | h)
      · rcases g5 h with h3 | h3
        · exact g4 (hT (Or.inl h3))
        · exact h3
      · exact g4 (hT (Or.inr h))
    · show (Proc.step R.envA idA σ.a σ.db).1.stage = min (τ.na + 1) 5
      rw [g7, hNa]
      omega
    · show (Proc.step R.envA idA σ.a σ.db).1.observed
        = if τ.na = 3 then some (decide (2 ≤ τ.nb)) else τ.seenA
      rcases g6 with ⟨hs3, ho⟩ | ⟨hs3, hmem, ho⟩
      · have hna : τ.na ≠ 3 := by rw [hNa] at hs3; omega
        rw [if_neg hna, ho]
        exact hOa
      · have hna : τ.na = 3 := by rw [hNa] at hs3; omega
        rw [if_pos hna, ho]
        congr 1
        by_cases hnb : 2 ≤ τ.nb
        · have hsB : 2 ≤ σ.b.stage := by rw [hNb]; omega
          rw [decide_eq_true hnb]
          exact Race.flag_both hG _ _ hmem (Race.P_saved hPb hsB)
        · have hsB : σ.b.stage < 2 := by rw [hNb]; omega
          rw [decide_eq_false hnb]
          exact flag_unsaved (Race.P_unsaved hPb hsB) h2 hong2
    · show DB.task? (Proc.step R.envA idA σ.a σ.db).2 R.t.ID
        = some (stampedTask R.t (R.envA.clock 1) (R.envB.clock 1)
            (if τ.na = 4 ∧ τ.seenA = some true then some true else τ.last))
      rcases g8 with ⟨hs4, ho, hrow⟩ | ⟨hnot, htasks⟩
      · have hc : τ.na = 4 ∧ τ.seenA = some true :=
          ⟨by rw [hNa] at hs4; omega, by rw [← hOa]; exact ho⟩
        rw [if_pos hc]
        exact hrow
      · have hc : ¬ (τ.na = 4 ∧ τ.seenA = some true) := by
          intro h
          exact hnot ⟨by rw [hNa, h.1]; rfl, by rw [hOa]; exact h.2⟩
        rw [if_neg hc]
        unfold DB.task? at hRow ⊢
        rw [htasks]
        exact hRow
  | false =>
    obtain ⟨g1, g2, g3, g4, g5, g6, g7, g8⟩ :=
      Race.step_self R R.envB R.s2 hokB h2 hidB hG hPb hrows
    have hstep : Sys.step R.envA R.envB idA idB false σ
        = { db := (Proc.step R.envB idB σ.b σ.db).2, a := σ.a,
            b := (Proc.step R.envB idB σ.b σ.db).1 } := rfl
    have hτ : τ.step false =
        { na := τ.na,
          nb := τ.nb + 1,
          seenA := τ.seenA,
          seenB := if τ.nb = 3 then some (decide (2 ≤ τ.na)) else τ.seenB,
          last := if τ.nb = 4 ∧ τ.seenB = some true then some false else τ.last } := rfl
    rw [hstep, hτ]
    refine ⟨g1, Race.P_frame hPa (fun x hx hxid => g3 x hx (fun h => hne (hxid.symm.trans h))),
      g2, ?_, ?_, hNa, ?_, hOa, ?_, ?_⟩
    · rintro ⟨ha, hb⟩
      rcases g6 with ⟨_, h⟩ | ⟨_, hmem, h⟩
      · exact hK ⟨ha, h ▸ hb⟩
      · have hmemA := Race.P_observed hPa (by
          intro hn
          have ha2 : σ.a.observed = some false := ha
          rw [hn] at ha2; cases ha2)
        have := Race.flag_both hG _ _ hmemA hmem
        have hb2 : (Proc.step R.envB idB σ.b σ.db).1.observed = some false := hb
        rw [h, this] at hb2
        cases hb2
    · rintro (h | h)
      · exact g4 (hT (Or.inl h))
      · rcases g5 h with h3 | h3
        · exact g4 (hT (Or.inr h3))
        · exact h3
    · show (Proc.step R.envB idB σ.b σ.db).1.stage = min (τ.nb + 1) 5
      rw [g7, hNb]
      omega
    · show (Proc.step R.envB idB σ.b σ.db).1.observed
        = if τ.nb = 3 then some (decide (2 ≤ τ.na)) else τ.seenB
      rcases g6 with ⟨hs3, ho⟩ | ⟨hs3, hmem, ho⟩
      · have hnb : τ.nb ≠ 3 := by rw [hNb] at hs3; omega
        rw [if_neg hnb, ho]
        exact hOb
      · have hnb : τ.nb = 3 := by rw [hNb] at hs3; omega
        rw [if_pos hnb, ho]
        congr 1
        by_cases hna : 2 ≤ τ.na
        · have hsA : 2 ≤ σ.a.stage := by rw [hNa]; omega
          rw [decide_eq_true hna]
          exact Race.flag_both hG _ _ (Race.P_saved hPa hsA) hmem
        · have hsA : σ.a.stage < 2 := by rw [hNa]; omega
          rw [decide_eq_false hna]
          exact flag_unsaved (Race.P_unsaved hPa hsA) h1 hong1
    · show DB.task? (Proc.step R.envB idB σ.b σ.db).2 R.t.ID
        = some (stampedTask R.t (R.envA.clock 1) (R.envB.clock 1)
            (if τ.nb = 4 ∧ τ.seenB = some true then some false else τ.last))
      rcases g8 with ⟨hs4, ho, hrow⟩ | ⟨hnot, htasks⟩
      · have hc : τ.nb = 4 ∧ τ.seenB = some true :=
          ⟨by rw [hNb] at hs4; omega, by rw [← hOb]; exact ho⟩
        rw [if_pos hc]
        exact hrow
      · have hc : ¬ (τ.nb = 4 ∧ τ.seenB = some true) := by
          intro h
          exact hnot ⟨by rw [hNb, h.1]; rfl, by rw [hOb]; exact h.2⟩
        rw [if_neg hc]
        unfold DB.task? at hRow ⊢
        rw [htasks]
        exact hRow

theorem Race.Inv_interleave (R : Race) (hokA : ∀ k, R.envA.f k = false)
    (hokB : ∀ k, R.envB.f k = false) (h1 : R.s1.TaskID = R.t.ID) (h2 : R.s2.TaskID = R.t.ID)
    (hne : R.s1.ID ≠ R.s2.ID) (hong1 : R.s1.Status ≠ "completed")
    (hong2 : R.s2.Status ≠ "completed") {idA idB : String}
    (hidA : atoi idA = some (R.s1.ID : Int)) (hidB : atoi idB = some (R.s2.ID : Int))
    (sched : List Bool) :
    ∀ (τ : Tally) (σ : Sys), R.Inv τ σ →
      R.Inv (tallyFrom sched τ) (interleave R.envA R.envB idA idB sched σ) := by
  induction sched with
  | nil => intro τ σ h; exact h
  | cons who rest ih =>
    intro τ σ h
    exact ih _ _ (Race.Inv_step R hokA hokB h1 h2 hne hong1 hong2 hidA hidB who τ σ h)

theorem Race.finished_succeeded {R : Race} {env : Env} {s : Subtask} {db : DB} {p : Proc}
    (h : R.P env s db p) (hf : p.finished = true) :
    ∃ b, p.succeededWith b ∧ p.observed = some b := by
  cases p with
  | start => cases hf
  | loaded sub => cases hf
  | saved sub => cases hf
  | taskRead sub row => cases hf
  | preloaded sub task => cases hf
  | done resp flag =>
    obtain ⟨_, h2, h3⟩ := h
    cases flag with
    | none => exact absurd rfl h3
    | some b => exact ⟨b, ⟨h2, rfl⟩, rfl⟩

theorem Proc.step_remaining (env : Env) (id : String) (p : Proc) (db : DB) :
    (Proc.step env id p db).1.remaining ≤ p.remaining - 1 := by
  cases p with
  | start => simp only [Proc.step]; split <;> simp [Proc.remaining]
  | loaded sub => simp only [Proc.step]; split <;> simp [Proc.remaining]
  | saved sub => simp only [Proc.step]; split <;> simp [Proc.remaining]
  | taskRead sub row => simp [Proc.step, Proc.remaining]
  | preloaded sub task => simp only [Proc.step]; split <;> simp [Proc.remaining]
  | done resp flag => simp [Proc.step, Proc.remaining]

theorem Proc.finished_of_remaining {p : Proc} (h : p.remaining = 0) : p.finished = true := by
  cases p with
  | done resp flag => rfl
  | start => simp [Proc.remaining] at h
  | loaded sub => simp [Proc.remaining] at h
  | saved sub => simp [Proc.remaining] at h
  | taskRead sub row => simp [Proc.remaining] at h
  | preloaded sub task => simp [Proc.remaining] at h

/-- A request that is given at least as many steps as it has statements left
has sent its response at the end of the schedule. -/
theorem interleave_finished (envA envB : Env) (idA idB : String) (sched : List Bool) :
    ∀ σ : Sys,
      (σ.a.remaining ≤ sched.count true →
        (interleave envA envB idA idB sched σ).a.finished = true) ∧
      (σ.b.remaining ≤ sched.count false →
        (interleave envA envB idA idB sched σ).b.finished = true) := by
  induction sched with
  | nil =>
    intro σ
    exact ⟨fun h => Proc.finished_of_remaining (by simpa using h),
      fun h => Proc.finished_of_remaining (by simpa using h)⟩
  | cons who rest ih =>
    intro σ
    have hA := Proc.step_remaining envA idA σ.a σ.db
    have hB := Proc.step_remaining envB idB σ.b σ.db
    cases who with
    | true =>
      have hstep : Sys.step envA envB idA idB true σ
          = { db := (Proc.step envA idA σ.a σ.db).2, a := (Proc.step envA idA σ.a σ.db).1,
              b := σ.b } := rfl
      have hc1 : List.count true (true :: rest) = List.count true rest + 1 :=
        List.count_cons_self _ _
      have hc2 : List.count false (true :: rest) = List.count false rest :=
        List.count_cons_of_ne (by decide) _
      simp only [interleave, hstep, hc1, hc2]
      refine ⟨fun h => (ih _).1 ?_, fun h => (ih _).2 h⟩
      show (Proc.step envA idA σ.a σ.db).1.remaining ≤ List.count true rest
      omega
    | false =>
      have hstep : Sys.step envA envB idA idB false σ
          = { db := (Proc.step envB idB σ.b σ.db).2, a := σ.a,
              b := (Proc.step envB idB σ.b σ.db).1 } := rfl
      have hc1 : List.count false (false :: rest) = List.count false rest + 1 :=
        List.count_cons_self _ _
      have hc2 : List.count true (false :: rest) = List.count true rest :=
        List.count_cons_of_ne (by decide) _
      simp only [interleave, hstep, hc1, hc2]
      refine ⟨fun h => (ih _).1 h, fun h => (ih _).2 ?_⟩
      show (Proc.step envB idB σ.b σ.db).1.remaining ≤ List.count false rest
      omega

/-! ### What the order of the steps decides -/

theorem tallyFrom_append (l1 l2 : List Bool) :
    ∀ τ : Tally, tallyFrom (l1 ++ l2) τ = tallyFrom l2 (tallyFrom l1 τ) := by
  induction l1 with
  | nil => intro τ; rfl
  | cons w l ih => intro τ; exact ih _

theorem tallyFrom_counts (l : List Bool) :
    ∀ τ : Tally, (tallyFrom l τ).na = τ.na + l.count true ∧
      (tallyFrom l τ).nb = τ.nb + l.count false := by
  induction l with
  | nil => intro τ; simp [tallyFrom]
  | cons w l ih =>
    intro τ
    obtain ⟨e1, e2⟩ := ih (τ.step w)
    cases w with
    | true =>
      have hn : (τ.step true).na = τ.na + 1 := rfl
      have hm : (τ.step true).nb = τ.nb := rfl
      have hc1 : List.count true (true :: l) = List.count true l + 1 :=
        List.count_cons_self _ _
      have hc2 : List.count false (true :: l) = List.count false l :=
        List.count_cons_of_ne (by decide) _
      show (tallyFrom l (τ.step true)).na = τ.na + List.count true (true :: l) ∧
        (tallyFrom l (τ.step true)).nb = τ.nb + List.count false (true :: l)
      rw [e1, e2, hn, hm, hc1, hc2]
      omega
    | false =>
      have hn : (τ.step false).na = τ.na := rfl
      have hm : (τ.step false).nb = τ.nb + 1 := rfl
      have hc1 : List.count false (false :: l) = List.count false l + 1 :=
        List.count_cons_self _ _
      have hc2 : List.count true (false :: l) = List.count true l :=
        List.count_cons_of_ne (by decide) _
      show (tallyFrom l (τ.step false)).na = τ.na + List.count true (false :: l) ∧
        (tallyFrom l (τ.step false)).nb = τ.nb + List.count false (false :: l)
      rw [e1, e2, hn, hm, hc1, hc2]
      omega

/-- What a tally records of a request is fixed by its own steps: nothing is
seen before the fourth step, and `last` names a request exactly when a request
has made its fifth step after seeing the other's save. -/
theorem tallyFrom_sound (l : List Bool) :
    ∀ τ : Tally,
      ((τ.na ≤ 3 → τ.seenA = none) ∧ (τ.nb ≤ 3 → τ.seenB = none) ∧
        (τ.last = some true → 5 ≤ τ.na ∧ τ.seenA = some true) ∧
        (τ.last = some false → 5 ≤ τ.nb ∧ τ.seenB = some true) ∧
        (τ.last = none → ¬ (5 ≤ τ.na ∧ τ.seenA = some true) ∧
          ¬ (5 ≤ τ.nb ∧ τ.seenB = some true))) →
      (((tallyFrom l τ).na ≤ 3 → (tallyFrom l τ).seenA = none) ∧
        ((tallyFrom l τ).nb ≤ 3 → (tallyFrom l τ).seenB = none) ∧
        ((tallyFrom l τ).last = some true →
          5 ≤ (tallyFrom l τ).na ∧ (tallyFrom l τ).seenA = some true) ∧
        ((tallyFrom l τ).last = some false →
          5 ≤ (tallyFrom l τ).nb ∧ (tallyFrom l τ).seenB = some true) ∧
        ((tallyFrom l τ).last = none →
          ¬ (5 ≤ (tallyFrom l τ).na ∧ (tallyFrom l τ).seenA = some true) ∧
          ¬ (5 ≤ (tallyFrom l τ).nb ∧ (tallyFrom l τ).seenB = some true))) := by
  induction l with
  | nil => intro τ h; exact h
  | cons w l ih =>
    intro τ ⟨u1, u2, v1, v2, v3⟩
    apply ih
    cases w with
    | true =>
      have hτ : τ.step true =
          { na := τ.na + 1,
            nb := τ.nb,
            seenA := if τ.na = 3 then some (decide (2 ≤ τ.nb)) else τ.seenA,
            seenB := τ.seenB,
            last := if τ.na = 4 ∧ τ.seenA = some true then some true else τ.last } := rfl
      rw [hτ]
      dsimp only
      refine ⟨?_, u2, ?_, ?_, ?_⟩
      · intro h
        rw [if_neg (by omega)]
        exact u1 (by omega)
      · intro h
        by_cases hc : τ.na = 4 ∧ τ.seenA = some true
        · rw [if_neg (by omega)]
          exact ⟨by omega, hc.2⟩
        · rw [if_neg hc] at h
          obtain ⟨e1, e2⟩ := v1 h
          rw [if_neg (by omega)]
          exact ⟨by omega, e2⟩
      · intro h
        by_cases hc : τ.na = 4 ∧ τ.seenA = some true
        · rw [if_pos hc] at h; cases h
        · rw [if_neg hc] at h
          exact v2 h
      · intro h
        by_cases hc : τ.na = 4 ∧ τ.seenA = some true
        · rw [if_pos hc] at h; cases h
        · rw [if_neg hc] at h
          obtain ⟨e1, e2⟩ := v3 h
          refine ⟨?_, e2⟩
          rintro ⟨h5, hs⟩
          have h3 : τ.na ≠ 3 := by omega
          rw [if_neg h3] at hs
          by_cases h4 : τ.na = 4
          · exact hc ⟨h4, hs⟩
          · exact e1 ⟨by omega, hs⟩
    | false =>
      have hτ : τ.step false =
          { na := τ.na,
            nb := τ.nb + 1,
            seenA := τ.seenA,
            seenB := if τ.nb = 3 then some (decide (2 ≤ τ.na)) else τ.seenB,
            last := if τ.nb = 4 ∧ τ.seenB = some true then some false else τ.last } := rfl
      rw [hτ]
      dsimp only
      refine ⟨u1, ?_, ?_, ?_, ?_⟩
      · intro h
        rw [if_neg (by omega)]
        exact u2 (by omega)
      · intro h
        by_cases hc : τ.nb = 4 ∧ τ.seenB = some true
        · rw [if_pos hc] at h; cases h
        · rw [if_neg hc] at h
          exact v1 h
      · intro h
        by_cases hc : τ.nb = 4 ∧ τ.seenB = some true
        · rw [if_neg (by omega)]
          exact ⟨by omega, hc.2⟩
        · rw [if_neg hc] at h
          obtain ⟨e1, e2⟩ := v2 h
          rw [if_neg (by omega)]
          exact ⟨by omega, e2⟩
      · intro h
        by_cases hc : τ.nb = 4 ∧ τ.seenB = some true
        · rw [if_pos hc] at h; cases h
        · rw [if_neg hc] at h
          obtain ⟨e1, e2⟩ := v3 h
          refine ⟨e1, ?_⟩
          rintro ⟨h5, hs⟩
          have h3 : τ.nb ≠ 3 := by omega
          rw [if_neg h3] at hs
          by_cases h4 : τ.nb = 4
          · exact hc ⟨h4, hs⟩
          · exact e2 ⟨by omega, hs⟩

theorem tally_sound (l : List Bool) :
    ((tally l).na ≤ 3 → (tally l).seenA = none) ∧
    ((tally l).nb ≤ 3 → (tally l).seenB = none) ∧
    ((tally l).last = some true → 5 ≤ (tally l).na ∧ (tally l).seenA = some true) ∧
    ((tally l).last = some false → 5 ≤ (tally l).nb ∧ (tally l).seenB = some true) ∧
    ((tally l).last = none → ¬ (5 ≤ (tally l).na ∧ (tally l).seenA = some true) ∧
      ¬ (5 ≤ (tally l).nb ∧ (tally l).seenB = some true)) :=
  tallyFrom_sound l Tally.init
    ⟨fun _ => rfl, fun _ => rfl, fun h => by simp [Tally.init] at h,
      fun h => by simp [Tally.init] at h,
      fun _ => ⟨fun h => by simp [Tally.init] at h, fun h => by simp [Tally.init] at h⟩⟩

/-- When both requests have saved their subtask and neither has loaded the
subtasks of the task, both will see the other's save. -/
theorem tallyFrom_both (l : List Bool) :
    ∀ τ : Tally,
      (2 ≤ τ.na ∧ 2 ≤ τ.nb ∧ (τ.na ≤ 3 → τ.seenA = none) ∧ (4 ≤ τ.na → τ.seenA = some true) ∧
        (τ.nb ≤ 3 → τ.seenB = none) ∧ (4 ≤ τ.nb → τ.seenB = some true)) →
      (4 ≤ (tallyFrom l τ).na → (tallyFrom l τ).seenA = some true) ∧
      (4 ≤ (tallyFrom l τ).nb → (tallyFrom l τ).seenB = some true) := by
  induction l with
  | nil => intro τ h; exact ⟨h.2.2.2.1, h.2.2.2.2.2⟩
  | cons w l ih =>
    intro τ ⟨a1, a2, a3, a4, a5, a6⟩
    apply ih
    cases w with
    | true =>
      have hτ : τ.step true =
          { na := τ.na + 1,
            nb := τ.nb,
            seenA := if τ.na = 3 then some (decide (2 ≤ τ.nb)) else τ.seenA,
            seenB := τ.seenB,
            last := if τ.na = 4 ∧ τ.seenA = some true then some true else τ.last } := rfl
      rw [hτ]
      dsimp only
      refine ⟨by omega, a2, ?_, ?_, a5, a6⟩
      · intro h
        rw [if_neg (by omega)]
        exact a3 (by omega)
      · intro h
        by_cases h3 : τ.na = 3
        · rw [if_pos h3, decide_eq_true a2]
        · rw [if_neg h3]
          exact a4 (by omega)
    | false =>
      have hτ : τ.step false =
          { na := τ.na,
            nb := τ.nb + 1,
            seenA := τ.seenA,
            seenB := if τ.nb = 3 then some (decide (2 ≤ τ.na)) else τ.seenB,
            last := if τ.nb = 4 ∧ τ.seenB = some true then some false else τ.last } := rfl
      rw [hτ]
      dsimp only
      refine ⟨a1, by omega, a3, a4, ?_, ?_⟩
      · intro h
        rw [if_neg (by omega)]
        exact a5 (by omega)
      · intro h
        by_cases h3 : τ.nb = 3
        · rw [if_pos h3, decide_eq_true a1]
        · rw [if_neg h3]
          exact a6 (by omega)

/-- A schedule that first lets both requests save their subtask, neither
having loaded the subtasks of the task, and then lets both run to their end,
makes both see the other's save. -/
theorem tally_both (pre rest : List Bool) (ha : 2 ≤ pre.count true) (ha3 : pre.count true ≤ 3)
    (hb : 2 ≤ pre.count false) (hb3 : pre.count false ≤ 3)
    (hA : 5 ≤ (pre ++ rest).count true) (hB : 5 ≤ (pre ++ rest).count false) :
    (tally (pre ++ rest)).seenA = some true ∧ (tally (pre ++ rest)).seenB = some true := by
  obtain ⟨u1, u2, _⟩ := tally_sound pre
  obtain ⟨c1, c2⟩ := tallyFrom_counts pre Tally.init
  obtain ⟨d1, d2⟩ := tallyFrom_counts (pre ++ rest) Tally.init
  have hna : (tally pre).na = pre.count true := by
    unfold tally; rw [c1]; simp [Tally.init]
  have hnb : (tally pre).nb = pre.count false := by
    unfold tally; rw [c2]; simp [Tally.init]
  have hq := tallyFrom_both rest (tally pre)
    ⟨by omega, by omega, u1, fun h => by omega, u2, fun h => by omega⟩
  have happ : tally (pre ++ rest) = tallyFrom rest (tally pre) := tallyFrom_append pre rest _
  rw [happ]
  have hna2 : (tallyFrom rest (tally pre)).na = (pre ++ rest).count true := by
    rw [← happ]; unfold tally; rw [d1]; simp [Tally.init]
  have hnb2 : (tallyFrom rest (tally pre)).nb = (pre ++ rest).count false := by
    rw [← happ]; unfold tally; rw [d2]; simp [Tally.init]
  exact ⟨hq.1 (by omega), hq.2 (by omega)⟩

/-- A request that has made its fifth step after seeing the other's save was
the last to save the task at some moment of the schedule. -/
theorem tally_history (l : List Bool) :
    (5 ≤ (tally l).na → (tally l).seenA = some true →
      ∃ k ≤ l.length, (tally (l.take k)).last = some true) ∧
    (5 ≤ (tally l).nb → (tally l).seenB = some true →
      ∃ k ≤ l.length, (tally (l.take k)).last = some false) := by
  induction l using List.reverseRecOn with
  | nil =>
    exact ⟨fun h => by simp [tally, tallyFrom, Tally.init] at h,
      fun h => by simp [tally, tallyFrom, Tally.init] at h⟩
  | append_singleton l w ih =>
    have happ : tally (l ++ [w]) = (tally l).step w := tallyFrom_append l [w] _
    have hlen : (l ++ [w]).length = l.length + 1 := by simp
    have htake : ∀ k ≤ l.length, (l ++ [w]).take k = l.take k :=
      fun k hk => List.take_append_of_le_length hk
    have hfull : (l ++ [w]).take (l.length + 1) = l ++ [w] := by
      rw [← hlen]; exact List.take_length _
    have hold : ∀ b : Bool, (∃ k ≤ l.length, (tally (l.take k)).last = some b) →
        ∃ k ≤ (l ++ [w]).length, (tally ((l ++ [w]).take k)).last = some b := by
      rintro b ⟨k, hk, h⟩
      exact ⟨k, by omega, by rw [htake k hk]; exact h⟩
    obtain ⟨u1, u2, _⟩ := tally_sound l
    rw [happ]
    cases w with
    | true =>
      have hτ : (tally l).step true =
          { na := (tally l).na + 1,
            nb := (tally l).nb,
            seenA := if (tally l).na = 3 then some (decide (2 ≤ (tally l).nb))
            else (tally l).seenA,
            seenB := (tally l).seenB,
            last := if (tally l).na = 4 ∧ (tally l).seenA = some true then some true
            else (tally l).last } := rfl
      rw [hτ]
      dsimp only
      refine ⟨fun h5 hs => ?_, fun h5 hs => hold false (ih.2 h5 hs)⟩
      have h3 : (tally l).na ≠ 3 := by omega
      rw [if_neg h3] at hs
      by_cases h4 : (tally l).na = 4
      · refine ⟨l.length + 1, by omega, ?_⟩
        rw [hfull, happ, hτ]
        dsimp only
        rw [if_pos ⟨h4, hs⟩]
      · exact hold true (ih.1 (by omega) hs)
    | false =>
      have hτ : (tally l).step false =
          { na := (tally l).na,
            nb := (tally l).nb + 1,
            seenA := (tally l).seenA,
            seenB := if (tally l).nb = 3 then some (decide (2 ≤ (tally l).na))
            else (tally l).seenB,
            last := if (tally l).nb = 4 ∧ (tally l).seenB = some true then some false
            else (tally l).last } := rfl
      rw [hτ]
      dsimp only
      refine ⟨fun h5 hs => hold true (ih.1 h5 hs), fun h5 hs => ?_⟩
      have h3 : (tally l).nb ≠ 3 := by omega
      rw [if_neg h3] at hs
      by_cases h4 : (tally l).nb = 4
      · refine ⟨l.length + 1, by omega, ?_⟩
        rw [hfull, happ, hτ]
        dsimp only
        rw [if_pos ⟨h4, hs⟩]
      · exact hold false (ih.2 (by omega) hs)

/-- The invariant of the race holds after every schedule. -/
theorem race_invariant {db : DB} (hwf : db.WF) {t : TaskRow} {s1 s2 : Subtask}
    (ht : t ∈ db.tasks) (hs1 : s1 ∈ db.subtasks) (hs2 : s2 ∈ db.subtasks)
    (h1 : s1.TaskID = t.ID) (h2 : s2.TaskID = t.ID) (hne : s1.ID ≠ s2.ID)
    (honly : ∀ x ∈ db.subtasks, x.TaskID = t.ID → x = s1 ∨ x = s2)
    (hong1 : s1.Status ≠ "completed") (hong2 : s2.Status ≠ "completed")
    (envA envB : Env) (hokA : ∀ k, envA.f k = false) (hokB : ∀ k, envB.f k = false)
    {idA idB : String} (hidA : atoi idA = some (s1.ID : Int))
    (hidB : atoi idB = some (s2.ID : Int)) (sched : List Bool) :
    Race.Inv { t := t, s1 := s1, s2 := s2, envA := envA, envB := envB } (tally sched)
      (interleave envA envB idA idB sched (Sys.init db)) := by
  have hinit : Race.Inv { t := t, s1 := s1, s2 := s2, envA := envA, envB := envB }
      Tally.init (Sys.init db) := by
    refine ⟨⟨hwf, ⟨t, ht, rfl, Or.inl rfl⟩, ?_⟩, hs1, hs2, ?_, ?_, rfl, rfl, rfl, rfl, ?_⟩
    · intro x hx hxt
      rcases honly x hx hxt with h | h
      · exact Or.inl (by rw [h])
      · exact Or.inr (by rw [h])
    · rintro ⟨h, _⟩; cases h
    · rintro (h | h) <;> exact h.elim
    · exact find_task_of_mem hwf ht
  exact Race.Inv_interleave { t := t, s1 := s1, s2 := s2, envA := envA, envB := envB }
    hokA hokB h1 h2 hne hong1 hong2 hidA hidB sched _ _ hinit

/-- C10 (amended): on a consistent store with a task `t` whose subtasks are
exactly `s1` and `s2`, neither completed, when the two complete-subtask
requests `a` (on `s1`) and `b` (on `s2`) run concurrently with no failing store
call, then under every interleaving of their store statements:
(1) at every moment, the evaluation of a request has observed all subtasks
completed exactly when the other request had saved its subtask before this one
loaded the subtasks of the task, and the row of `t` is as it was until a
request that has observed it saves the task, and carries from then on the
completedAt stamp of the last such request to have saved it;
(2) once both requests have been given their five steps, both have answered
200, at least one of the two evaluations has observed all subtasks completed,
and the task is completed;
(3) when both requests have saved their subtask before either loads the
subtasks of the task, both evaluations observe all subtasks completed;
(4) when both evaluations observe it, the task is saved twice: at some moment
its row carries the stamp of one request and at the end that of the other. -/
theorem interleaved_completion {db : DB} (hwf : db.WF) {t : TaskRow} {s1 s2 : Subtask}
    (ht : t ∈ db.tasks) (hs1 : s1 ∈ db.subtasks) (hs2 : s2 ∈ db.subtasks)
    (h1 : s1.TaskID = t.ID) (h2 : s2.TaskID = t.ID) (hne : s1.ID ≠ s2.ID)
    (honly : ∀ x ∈ db.subtasks, x.TaskID = t.ID → x = s1 ∨ x = s2)
    (hong1 : s1.Status ≠ "completed") (hong2 : s2.Status ≠ "completed")
    (envA envB : Env) (hokA : ∀ k, envA.f k = false) (hokB : ∀ k, envB.f k = false)
    {idA idB : String} (hidA : atoi idA = some (s1.ID : Int))
    (hidB : atoi idB = some (s2.ID : Int)) (sched : List Bool) :
    ((interleave envA envB idA idB sched (Sys.init db)).a.observed = (tally sched).seenA ∧
      (interleave envA envB idA idB sched (Sys.init db)).b.observed = (tally sched).seenB ∧
      (interleave envA envB idA idB sched (Sys.init db)).db.task? t.ID
        = some (stampedTask t (envA.clock 1) (envB.clock 1) (tally sched).last)) ∧
    (5 ≤ sched.count true → 5 ≤ sched.count false →
      (interleave envA envB idA idB sched (Sys.init db)).a.finished = true ∧
      (interleave envA envB idA idB sched (Sys.init db)).b.finished = true ∧
      (∃ bA bB, (interleave envA envB idA idB sched (Sys.init db)).a.succeededWith bA ∧
        (interleave envA envB idA idB sched (Sys.init db)).b.succeededWith bB ∧
        (tally sched).seenA = some bA ∧ (tally sched).seenB = some bB ∧
        (bA = true ∨ bB = true)) ∧
      ∃ r, (interleave envA envB idA idB sched (Sys.init db)).db.task? t.ID = some r ∧
        r.Status = "completed" ∧ r.CompletedAt ≠ none) ∧
    (∀ pre rest, sched = pre ++ rest → 2 ≤ pre.count true → pre.count true ≤ 3 →
      2 ≤ pre.count false → pre.count false ≤ 3 →
      5 ≤ sched.count true → 5 ≤ sched.count false →
      (interleave envA envB idA idB sched (Sys.init db)).a.observed = some true ∧
      (interleave envA envB idA idB sched (Sys.init db)).b.observed = some true) ∧
    (5 ≤ sched.count true → 5 ≤ sched.count false →
      (interleave envA envB idA idB sched (Sys.init db)).a.observed = some true →
      (interleave envA envB idA idB sched (Sys.init db)).b.observed = some true →
      ∃ k who, k ≤ sched.length ∧
        (interleave envA envB idA idB (sched.take k) (Sys.init db)).db.task? t.ID
          = some (stampedTask t (envA.clock 1) (envB.clock 1) (some (!who))) ∧
        (interleave envA envB idA idB sched (Sys.init db)).db.task? t.ID
          = some (stampedTask t (envA.clock 1) (envB.clock 1) (some who))) := by
  have hinv := fun l : List Bool =>
    race_invariant hwf ht hs1 hs2 h1 h2 hne honly hong1 hong2 envA envB hokA hokB hidA hidB l
  obtain ⟨hG, hPa, hPb, hK, hT, _, _, hOa, hOb, hRow⟩ := hinv sched
  obtain ⟨c1, c2⟩ := tallyFrom_counts sched Tally.init
  have hna : (tally sched).na = sched.count true := by
    unfold tally; rw [c1]; simp [Tally.init]
  have hnb : (tally sched).nb = sched.count false := by
    unfold tally; rw [c2]; simp [Tally.init]
  refine ⟨⟨hOa, hOb, hRow⟩, ?_, ?_, ?_⟩
  · intro hstepsA hstepsB
    have hfinA := (interleave_finished envA envB idA idB sched (Sys.init db)).1 hstepsA
    have hfinB := (interleave_finished envA envB idA idB sched (Sys.init db)).2 hstepsB
    obtain ⟨bA, hsA, hoA⟩ := Race.finished_succeeded hPa hfinA
    obtain ⟨bB, hsB, hoB⟩ := Race.finished_succeeded hPb hfinB
    have hsome : bA = true ∨ bB = true := by
      by_contra hcon
      simp only [not_or, Bool.not_eq_true] at hcon
      rw [hcon.1] at hoA
      rw [hcon.2] at hoB
      exact hK ⟨hoA, hoB⟩
    refine ⟨hfinA, hfinB, ⟨bA, bB, hsA, hsB, hOa ▸ hoA, hOb ▸ hoB, hsome⟩, ?_⟩
    have hlast : (tally sched).last ≠ none := by
      intro hn
      obtain ⟨n1, n2⟩ := (tally_sound sched).2.2.2.2 hn
      rcases hsome with h | h
      · exact n1 ⟨by omega, by rw [← hOa, hoA, h]⟩
      · exact n2 ⟨by omega, by rw [← hOb, hoB, h]⟩
    refine ⟨_, hRow, ?_⟩
    cases hl : (tally sched).last with
    | none => exact absurd hl hlast
    | some w => cases w <;> exact ⟨rfl, by simp [stampedTask, TaskRow.complete]⟩
  · intro pre rest hsched ha ha3 hb hb3 hA hB
    subst hsched
    obtain ⟨e1, e2⟩ := tally_both pre rest ha ha3 hb hb3 hA hB
    exact ⟨hOa.trans e1, hOb.trans e2⟩
  · intro hA hB hoa hob
    have hsa : (tally sched).seenA = some true := hOa ▸ hoa
    have hsb : (tally sched).seenB = some true := hOb ▸ hob
    obtain ⟨hisA, hisB⟩ := tally_history sched
    have hrowAt : ∀ k, (interleave envA envB idA idB (sched.take k) (Sys.init db)).db.task? t.ID
        = some (stampedTask t (envA.clock 1) (envB.clock 1) (tally (sched.take k)).last) :=
      fun k => (hinv (sched.take k)).2.2.2.2.2.2.2.2.2
    cases hl : (tally sched).last with
    | none =>
      exfalso
      exact ((tally_sound sched).2.2.2.2 hl).1 ⟨by omega, hsa⟩
    | some w =>
      cases w with
      | true =>
        obtain ⟨k, hk, hkl⟩ := hisB (by omega) hsb
        refine ⟨k, true, hk, ?_, ?_⟩
        · rw [hrowAt k, hkl]; rfl
        · rw [hRow, hl]
      | false =>
        obtain ⟨k, hk, hkl⟩ := hisA (by omega) hsa
        refine ⟨k, false, hk, ?_, ?_⟩
        · rw [hrowAt k, hkl]; rfl
        · rw [hRow, hl]

/-- C10, witness: the two subtasks of `dbTwoSubtasks` under the schedule
`scheduleBothSee`, whose first four steps are the reads and the saves of both
subtasks. -/
theorem interleaved_completion_witness :
    dbTwoSubtasks.WF ∧ atoi "1" = some 1 ∧ atoi "2" = some 2 ∧
    ((interleave (Env.ok clock10) (Env.ok clock20) "1" "2" scheduleBothSee
        (Sys.init dbTwoSubtasks)).a.finished = true ∧
      (interleave (Env.ok clock10) (Env.ok clock20) "1" "2" scheduleBothSee
        (Sys.init dbTwoSubtasks)).b.finished = true ∧
      (∃ bA bB, (interleave (Env.ok clock10) (Env.ok clock20) "1" "2" scheduleBothSee
          (Sys.init dbTwoSubtasks)).a.succeededWith bA ∧
        (interleave (Env.ok clock10) (Env.ok clock20) "1" "2" scheduleBothSee
          (Sys.init dbTwoSubtasks)).b.succeededWith bB ∧
        (tally scheduleBothSee).seenA = some bA ∧ (tally scheduleBothSee).seenB = some bB ∧
        (bA = true ∨ bB = true)) ∧
      ∃ r, (interleave (Env.ok clock10) (Env.ok clock20) "1" "2" scheduleBothSee
          (Sys.init dbTwoSubtasks)).db.task? 1 = some r ∧
        r.Status = "completed" ∧ r.CompletedAt ≠ none) ∧
    ((interleave (Env.ok clock10) (Env.ok clock20) "1" "2" scheduleBothSee
        (Sys.init dbTwoSubtasks)).a.observed = some true ∧
      (interleave (Env.ok clock10) (Env.ok clock20) "1" "2" scheduleBothSee
        (Sys.init dbTwoSubtasks)).b.observed = some true) :=
  ⟨by decide, by decide, by decide,
    (@interleaved_completion dbTwoSubtasks (by decide)
      { ID := 1, Title := "t", Status := "ongoing", Deadline := none,
        CreatedAt := some 0, CompletedAt := none }
      { ID := 1, TaskID := 1, Title := "a", Status := "ongoing", CompletedAt := none }
      { ID := 2, TaskID := 1, Title := "b", Status := "ongoing", CompletedAt := none }
      (by decide) (by decide) (by decide) rfl rfl (by decide) (by decide) (by decide)
      (by decide) (Env.ok clock10) (Env.ok clock20) (fun _ => rfl) (fun _ => rfl) "1" "2"
      (by decide) (by decide) scheduleBothSee).2.1 (by decide) (by decide),
    (@interleaved_completion dbTwoSubtasks (by decide)
      { ID := 1, Title := "t", Status := "ongoing", Deadline := none,
        CreatedAt := some 0, CompletedAt := none }
      { ID := 1, TaskID := 1, Title := "a", Status := "ongoing", CompletedAt := none }
      { ID := 2, TaskID := 1, Title := "b", Status := "ongoing", CompletedAt := none }
      (by decide) (by decide) (by decide) rfl rfl (by decide) (by decide) (by decide)
      (by decide) (Env.ok clock10) (Env.ok clock20) (fun _ => rfl) (fun _ => rfl) "1" "2"
      (by decide) (by decide) scheduleBothSee).2.2.1
      [true, true, false, false] [true, true, true, false, false, false] rfl
      (by decide) (by decide) (by decide) (by decide) (by decide) (by decide)⟩

/-- C10, counterexample: on `dbTwoSubtasks`, under the schedule in which both
requests save their subtask before either loads the subtasks of the task, both
evaluations observe all subtasks completed, and the task is saved twice: its
completedAt is 11 when request `a` has answered and 21 at the end. -/
theorem interleaved_completion_both_observe :
    (interleave (Env.ok clock10) (Env.ok clock20) "1" "2" scheduleBothSee
        (Sys.init dbTwoSubtasks)).a.observed = some true ∧
    (interleave (Env.ok clock10) (Env.ok clock20) "1" "2" scheduleBothSee
        (Sys.init dbTwoSubtasks)).b.observed = some true ∧
    (interleave (Env.ok clock10) (Env.ok clock20) "1" "2" scheduleBothSee
        (Sys.init dbTwoSubtasks)).a.finished = true ∧
    (interleave (Env.ok clock10) (Env.ok clock20) "1" "2" scheduleBothSee
        (Sys.init dbTwoSubtasks)).b.finished = true ∧
    (interleave (Env.ok clock10) (Env.ok clock20) "1" "2" (scheduleBothSee.take 7)
        (Sys.init dbTwoSubtasks)).db.task? 1
      = some { ID := 1, Title := "t", Status := "completed", Deadline := none,
               CreatedAt := some 0, CompletedAt := some 11 } ∧
    (interleave (Env.ok clock10) (Env.ok clock20) "1" "2" scheduleBothSee
        (Sys.init dbTwoSubtasks)).db.task? 1
      = some { ID := 1, Title := "t", Status := "completed", Deadline := none,
               CreatedAt := some 0, CompletedAt := some 21 } := by
  decide

/-- The empty sequence of subtasks is loaded when another request deletes the
subtask between the save of the subtask and the load of the parent: on
`dbOneSubtask` the flag stays set and the task ends completed with no subtask
left. -/
theorem completion_after_concurrent_delete :
    (completeWithDeleteBetween (Env.ok clock10) (Env.ok clock20) "1" dbOneSubtask).1.observed
      = some true ∧
    (completeWithDeleteBetween (Env.ok clock10) (Env.ok clock20) "1" dbOneSubtask).2
      = { tasks := [{ ID := 1, Title := "t", Status := "completed", Deadline := none,
                      CreatedAt := some 0, CompletedAt := some 11 }],
          subtasks := [], taskSeq := 1, subtaskSeq := 1 } := by
  decide

end Interleaving

end TodoApp
